import Mathlib

/-! # SimpleQWT: the scale engine, the scale map, the plot layout and the colour map,
verified against their specification

A shallow embedding of `qwt_interval.{h,cpp}`, `qwt_scale_div.h`,
`qwt_scale_engine.{h,cpp}`, `qwt_scale_map.h`, `qwt_plot_layout.cpp` and
`qwt_color_map.cpp`.

Conventions of the embedding.

* A C++ `double` is an exact rational number (`ℚ`): no rounding, no NaN, no
  infinities.  Every definition below is the source text read in exact
  arithmetic.
* A C++ `int` is an unbounded integer (`ℤ`); the conversions `qRound` and
  `qCeil` do not wrap.
* The transcendental functions of the C library that the logarithmic engine
  calls on arbitrary arguments (`::log10`, `qPow(10.0, .)`, `::log`, `qExp`) have
  irrational values, so they are a parameter of the embedding (`Libm`).  Inside
  `ceil125` the same functions only occur in the combination
  `floor(log10 |x|)` and `10^(log10 |x| - floor(log10 |x|)) = |x| / 10^floor(..)`,
  which is rational and is computed exactly.
* `QList<double>` is `List ℚ`.
* `qwt_math.h`, `qwt_scale_div.cpp` and `qwt_scale_map.cpp` are not among the sources;
  what is taken from them is marked as modelled from the spec.
* The classes of Qt (`QSize`, `QRect`, `QRectF`, `QColor`) are modelled by their
  documented behaviour; the widgets the layout asks for sizes (legend, title label,
  scale widgets, canvas) are records of the values and functions it reads.
* The loop of `expandLineBreaks` runs for at most a given number of passes and has no
  result when these are not enough.  The region arithmetic of Qt in `activate` is an
  argument (`subtract`); `qtSubtract` is the instance with the behaviour of Qt 4.
-/

namespace Qwt

/-! ## qwt_interval.h / qwt_interval.cpp -/

/-- The class `QwtInterval`: the two limits `d_minValue`, `d_maxValue`. -/
structure QwtInterval where
  minValue : ℚ
  maxValue : ℚ
deriving DecidableEq

namespace QwtInterval

/-- Default constructor `QwtInterval()`: the invalid interval `[0.0, -1.0]`. -/
def invalid : QwtInterval := ⟨0, -1⟩

/-- The function `QwtInterval::isValid`: `d_minValue <= d_maxValue`. -/
def isValid (i : QwtInterval) : Bool := decide (i.minValue ≤ i.maxValue)

/-- The function `QwtInterval::width`: `isValid() ? ( d_maxValue - d_minValue ) : 0.0`. -/
def width (i : QwtInterval) : ℚ :=
  if i.isValid then i.maxValue - i.minValue else 0

/-- The function `QwtInterval::inverted`. -/
def inverted (i : QwtInterval) : QwtInterval := ⟨i.maxValue, i.minValue⟩

/-- The function `QwtInterval::normalized`. -/
def normalized (i : QwtInterval) : QwtInterval :=
  if i.minValue > i.maxValue then i.inverted else i

/-- The function `QwtInterval::limited`. -/
def limited (i : QwtInterval) (lowerBound upperBound : ℚ) : QwtInterval :=
  if !i.isValid || decide (lowerBound > upperBound) then invalid
  else
    let minValue := min (max i.minValue lowerBound) upperBound
    let maxValue := min (max i.maxValue lowerBound) upperBound
    ⟨minValue, maxValue⟩

end QwtInterval

/-! ## qwt_math.h (not part of the sources at hand) -/

/-- Modelled from the spec: `qwtFuzzyCompare` of `qwt_math.h`, which is not among
the sources.  The spec describes the comparisons of the scale engine as
`eps`-relative with `eps = 1e-6`: two values are equal when they differ by at most
`|1e-6 * intervalSize|`; the result is `-1`, `0` or `1`. -/
def qwtFuzzyCompare (value1 value2 intervalSize : ℚ) : ℤ :=
  let eps := |(1 / 1000000 : ℚ) * intervalSize|
  if value2 - value1 > eps then -1
  else if value1 - value2 > eps then 1
  else 0

/-- Modelled from the spec: the macro `LOG_MIN` of `qwt_math.h`, which is not
among the sources; the spec names `1e-100`. -/
def LOG_MIN : ℚ := 1 / 10 ^ 100

/-- Modelled from the spec: the macro `LOG_MAX` of `qwt_math.h`, which is not
among the sources; the spec names `1e100`. -/
def LOG_MAX : ℚ := 10 ^ 100

/-- Modelled from the spec: the macro `qwtFloorF` of `qwt_math.h`, which is not
among the sources; the spec has `floorEps` round down to the step raster, so it is
the floor of a double. -/
def qwtFloorF (x : ℚ) : ℚ := (⌊x⌋ : ℚ)

/-- Modelled from the spec: the macro `qwtCeilF` of `qwt_math.h`, which is not among
the sources; the spec has `ceilEps` round up to the step raster, so it is the ceiling
of a double. -/
def qwtCeilF (x : ℚ) : ℚ := (⌈x⌉ : ℚ)

/-- Conversion of a `double` to `int`: truncation towards zero. -/
def toInt (d : ℚ) : ℤ := if 0 ≤ d then ⌊d⌋ else ⌈d⌉

/-- The function `qRound` of Qt:
`d >= 0.0 ? int(d + 0.5) : int(d - int(d-1) + 0.5) + int(d-1)`. -/
def qRound (d : ℚ) : ℤ :=
  if 0 ≤ d then toInt (d + 1 / 2)
  else toInt (d - (toInt (d - 1) : ℚ) + 1 / 2) + toInt (d - 1)

/-- The function `qCeil` of Qt: `int(ceil(v))`. -/
def qCeil (v : ℚ) : ℤ := ⌈v⌉

/-- The functions of the C library that the logarithmic engine applies to
arbitrary arguments. -/
structure Libm where
  /-- The function `::log10`. -/
  log10 : ℚ → ℚ
  /-- The function `qPow( 10.0, . )`. -/
  pow10 : ℚ → ℚ
  /-- The function `::log`. -/
  log : ℚ → ℚ
  /-- The function `qExp`. -/
  exp : ℚ → ℚ

/-! ## qwt_scale_div.h -/

/-- The class `QwtScaleDiv`: the bounds, the three tick lists `d_ticks[MinorTick]`,
`d_ticks[MediumTick]`, `d_ticks[MajorTick]`, and `d_isValid`. -/
structure QwtScaleDiv where
  lowerBound : ℚ
  upperBound : ℚ
  minorTicks : List ℚ
  mediumTicks : List ℚ
  majorTicks : List ℚ
  isValid : Bool
deriving DecidableEq

namespace QwtScaleDiv

/-- Modelled from the spec: the default constructor `QwtScaleDiv()` of
`qwt_scale_div.cpp`, which is not among the sources: "an empty/invalid ScaleDiv
(no ticks, degenerate bounds)". -/
def empty : QwtScaleDiv := ⟨0, 0, [], [], [], false⟩

/-- Modelled from the spec: the constructor `QwtScaleDiv( interval, ticks )` of
`qwt_scale_div.cpp`, which is not among the sources: the bounds of the interval
and the three tick lists. -/
def ofTicks (interval : QwtInterval) (minor medium major : List ℚ) : QwtScaleDiv :=
  ⟨interval.minValue, interval.maxValue, minor, medium, major, true⟩

/-- Modelled from the spec: `QwtScaleDiv::invert` of `qwt_scale_div.cpp`, which is
not among the sources: "swap bounds, leave tick values unchanged". -/
def invert (s : QwtScaleDiv) : QwtScaleDiv :=
  { s with lowerBound := s.upperBound, upperBound := s.lowerBound }

end QwtScaleDiv

/-! ## qwt_scale_engine.cpp -/

/-- The constant `static const double _eps = 1.0e-6;` -/
def _eps : ℚ := 1 / 1000000

namespace QwtScaleArithmetic

/-- The function `QwtScaleArithmetic::ceilEps`. -/
def ceilEps (value intervalSize : ℚ) : ℚ :=
  let eps := _eps * intervalSize
  let value := (value - eps) / intervalSize
  qwtCeilF value * intervalSize

/-- The function `QwtScaleArithmetic::floorEps`. -/
def floorEps (value intervalSize : ℚ) : ℚ :=
  let eps := _eps * intervalSize
  let value := (value + eps) / intervalSize
  qwtFloorF value * intervalSize

/-- The function `QwtScaleArithmetic::divideEps`. -/
def divideEps (intervalSize numSteps : ℚ) : ℚ :=
  if numSteps = 0 ∨ intervalSize = 0 then 0
  else (intervalSize - _eps * intervalSize) / numSteps

/-- The function `QwtScaleArithmetic::ceil125`.  `p10` is `qwtFloorF( log10( |x| ) )`, computed
exactly as the integer logarithm, and `fr` is `qPow( 10.0, lx - p10 )`, which is
`|x| / 10^p10`. -/
def ceil125 (x : ℚ) : ℚ :=
  if x = 0 then 0
  else
    let sign : ℚ := if x > 0 then 1 else -1
    let p10 : ℤ := Int.log 10 |x|
    let fr : ℚ := |x| / (10 : ℚ) ^ p10
    let fr : ℚ := if fr ≤ 1 then 1 else if fr ≤ 2 then 2 else if fr ≤ 5 then 5 else 10
    sign * fr * (10 : ℚ) ^ p10

end QwtScaleArithmetic

namespace QwtScaleEngine

/-- The function `QwtScaleEngine::divideInterval`. -/
def divideInterval (intervalSize : ℚ) (numSteps : ℤ) : ℚ :=
  if numSteps ≤ 0 then 0
  else QwtScaleArithmetic.ceil125 (QwtScaleArithmetic.divideEps intervalSize numSteps)

/-- The function `QwtScaleEngine::contains`. -/
def contains (interval : QwtInterval) (value : ℚ) : Bool :=
  if !interval.isValid then false
  else if qwtFuzzyCompare value interval.minValue interval.width < 0 then false
  else if qwtFuzzyCompare value interval.maxValue interval.width > 0 then false
  else true

/-- The function `QwtScaleEngine::strip`. -/
def strip (ticks : List ℚ) (interval : QwtInterval) : List ℚ :=
  if !interval.isValid || ticks.length == 0 then []
  else
    match ticks.head?, ticks.getLast? with
    | some first, some last =>
      if contains interval first && contains interval last then ticks
      else ticks.filter (contains interval)
    | _, _ => []

end QwtScaleEngine

/-- A value very close to `0.0` is set to `0.0`:
`if ( qwtFuzzyCompare( val, 0.0, stepSize ) == 0 ) val = 0.0`, as written in
`buildTicks` and in `buildMinorTicks` of the linear engine. -/
def snapTick (stepSize t : ℚ) : ℚ :=
  if qwtFuzzyCompare t 0 stepSize = 0 then 0 else t

/-- The loop of `buildTicks`: ticks very close to `0.0` are set to `0.0`. -/
def snapZero (stepSize : ℚ) (ticks : List ℚ) : List ℚ :=
  ticks.map (snapTick stepSize)

namespace QwtLinearScaleEngine

open QwtScaleEngine

/-- The function `QwtLinearScaleEngine::align`. -/
def align (interval : QwtInterval) (stepSize : ℚ) : QwtInterval :=
  let x1 := QwtScaleArithmetic.floorEps interval.minValue stepSize
  let x1 := if qwtFuzzyCompare interval.minValue x1 stepSize = 0 then interval.minValue else x1
  let x2 := QwtScaleArithmetic.ceilEps interval.maxValue stepSize
  let x2 := if qwtFuzzyCompare interval.maxValue x2 stepSize = 0 then interval.maxValue else x2
  ⟨x1, x2⟩

/-- The number of ticks of `buildMajorTicks`:
`qRound( interval.width() / stepSize ) + 1`, at most `10000`. -/
def majorNumTicks (interval : QwtInterval) (stepSize : ℚ) : ℤ :=
  let numTicks := qRound (interval.width / stepSize) + 1
  if numTicks > 10000 then 10000 else numTicks

/-- The function `QwtLinearScaleEngine::buildMajorTicks`: the lower limit, then
`minValue + i * stepSize` for `1 <= i < numTicks - 1`, then the upper limit. -/
def buildMajorTicks (interval : QwtInterval) (stepSize : ℚ) : List ℚ :=
  let numTicks := majorNumTicks interval stepSize
  [interval.minValue]
    ++ (List.range (numTicks - 2).toNat).map
        (fun (j : ℕ) => interval.minValue + ((j : ℚ) + 1) * stepSize)
    ++ [interval.maxValue]

/-- The inner loop of `buildMinorTicks` for one major tick: `fuel` iterations are
left, `k` is the loop counter, `val` the running value; the result is the pair
(minor ticks, medium ticks). -/
def minorLoop (minStep stepSize : ℚ) (medIndex : ℤ) :
    ℕ → ℤ → ℚ → List ℚ × List ℚ → List ℚ × List ℚ
  | 0, _, _, acc => acc
  | fuel + 1, k, val, acc =>
    let val := val + minStep
    let alignedValue := snapTick stepSize val
    if k = medIndex then
      minorLoop minStep stepSize medIndex fuel (k + 1) val (acc.1, acc.2 ++ [alignedValue])
    else
      minorLoop minStep stepSize medIndex fuel (k + 1) val (acc.1 ++ [alignedValue], acc.2)

/-- The step and the number of sub-ticks per major step that `buildMinorTicks`
settles on, or `none` when `divideInterval` returns `0.0` (no sub-ticks). -/
def minorStep (maxMinSteps : ℤ) (stepSize : ℚ) : Option (ℚ × ℤ) :=
  let minStep := divideInterval stepSize maxMinSteps
  if minStep = 0 then none
  else
    let numTicks := qCeil |stepSize / minStep| - 1
    if qwtFuzzyCompare (((numTicks + 1 : ℤ) : ℚ) * |minStep|) |stepSize| stepSize > 0 then
      some (stepSize * (1 / 2), 1)
    else some (minStep, numTicks)

/-- The function `QwtLinearScaleEngine::buildMinorTicks`: the pair (minor ticks, medium
ticks). -/
def buildMinorTicks (majorTicks : List ℚ) (maxMinSteps : ℤ) (stepSize : ℚ) :
    List ℚ × List ℚ :=
  match minorStep maxMinSteps stepSize with
  | none => ([], [])
  | some (minStep, numTicks) =>
    let medIndex : ℤ := if Int.tmod numTicks 2 ≠ 0 then Int.tdiv numTicks 2 else -1
    majorTicks.foldl
      (fun acc v => minorLoop minStep stepSize medIndex numTicks.toNat 0 v acc) ([], [])

/-- The function `QwtLinearScaleEngine::buildTicks`: the triple (minor, medium, major). -/
def buildTicks (interval : QwtInterval) (stepSize : ℚ) (maxMinSteps : ℤ) :
    List ℚ × List ℚ × List ℚ :=
  let boundingInterval := align interval stepSize
  let major := buildMajorTicks boundingInterval stepSize
  let mm := if maxMinSteps > 0 then buildMinorTicks major maxMinSteps stepSize else ([], [])
  (snapZero stepSize (strip mm.1 interval),
   snapZero stepSize (strip mm.2 interval),
   snapZero stepSize (strip major interval))

/-- The step size `divideScale` works with: `fabs( stepSize )`, or, when that is
`0.0`, `divideInterval( interval.width(), max( 1, maxMajSteps ) )`. -/
def usedStepSize (interval : QwtInterval) (maxMajSteps : ℤ) (stepSize : ℚ) : ℚ :=
  let stepSize := |stepSize|
  if stepSize = 0 then
    divideInterval interval.width (if maxMajSteps < 1 then 1 else maxMajSteps)
  else stepSize

/-- The scale division `divideScale` builds for the normalized interval, before
the inversion: empty when the step size is `0.0`. -/
def scaleDivFor (interval : QwtInterval) (stepSize : ℚ) (maxMinSteps : ℤ) : QwtScaleDiv :=
  if stepSize ≠ 0 then
    let t := buildTicks interval stepSize maxMinSteps
    QwtScaleDiv.ofTicks interval t.1 t.2.1 t.2.2
  else QwtScaleDiv.empty

/-- The function `QwtLinearScaleEngine::divideScale`. -/
def divideScale (x1 x2 : ℚ) (maxMajSteps maxMinSteps : ℤ) (stepSize : ℚ) : QwtScaleDiv :=
  let interval := (QwtInterval.mk x1 x2).normalized
  if interval.width ≤ 0 then QwtScaleDiv.empty
  else
    let stepSize := usedStepSize interval maxMajSteps stepSize
    let scaleDiv := scaleDivFor interval stepSize maxMinSteps
    if x1 > x2 then scaleDiv.invert else scaleDiv

end QwtLinearScaleEngine

namespace QwtLog10ScaleEngine

open QwtScaleEngine

/-- The function `QwtLog10ScaleEngine::log10`. -/
def log10 (M : Libm) (interval : QwtInterval) : QwtInterval :=
  ⟨M.log10 interval.minValue, M.log10 interval.maxValue⟩

/-- The function `QwtLog10ScaleEngine::pow10`. -/
def pow10 (M : Libm) (interval : QwtInterval) : QwtInterval :=
  ⟨M.pow10 interval.minValue, M.pow10 interval.maxValue⟩

/-- The function `QwtLog10ScaleEngine::align`.  As in the source, the two fuzzy comparisons
take the limits of `interval` itself, not of its logarithm. -/
def align (M : Libm) (interval : QwtInterval) (stepSize : ℚ) : QwtInterval :=
  let intv := log10 M interval
  let x1 := QwtScaleArithmetic.floorEps intv.minValue stepSize
  let x1 := if qwtFuzzyCompare interval.minValue x1 stepSize = 0 then interval.minValue else x1
  let x2 := QwtScaleArithmetic.ceilEps intv.maxValue stepSize
  let x2 := if qwtFuzzyCompare interval.maxValue x2 stepSize = 0 then interval.maxValue else x2
  pow10 M ⟨x1, x2⟩

/-- The number of ticks of `buildMajorTicks`: `qRound( width / stepSize ) + 1`
with `width = log10( interval ).width()`, at most `10000`. -/
def majorNumTicks (M : Libm) (interval : QwtInterval) (stepSize : ℚ) : ℤ :=
  let width := (log10 M interval).width
  let numTicks := qRound (width / stepSize) + 1
  if numTicks > 10000 then 10000 else numTicks

/-- The function `QwtLog10ScaleEngine::buildMajorTicks`: the lower limit, then
`qExp( lxmin + i * lstep )` for `1 <= i < numTicks - 1`, then the upper limit. -/
def buildMajorTicks (M : Libm) (interval : QwtInterval) (stepSize : ℚ) : List ℚ :=
  let numTicks := majorNumTicks M interval stepSize
  let lxmin := M.log interval.minValue
  let lxmax := M.log interval.maxValue
  let lstep := (lxmax - lxmin) / ((numTicks - 1 : ℤ) : ℚ)
  [interval.minValue]
    ++ (List.range (numTicks - 2).toNat).map
        (fun (j : ℕ) => M.exp (lxmin + ((j : ℚ) + 1) * lstep))
    ++ [interval.maxValue]

/-- The loop `for ( int k = k0; k <= kmax; k += kstep )`: the values of `k`, with
`fuel` bounding the number of iterations. -/
def kLoop (kmax kstep : ℤ) : ℕ → ℤ → List ℤ
  | 0, _ => []
  | fuel + 1, k => if k ≤ kmax then k :: kLoop kmax kstep fuel (k + kstep) else []

/-- The loop `for ( int k = 0; k < nMin; k++ ) { val *= minFactor; ... }`. -/
def factorLoop (minFactor : ℚ) : ℕ → ℚ → List ℚ
  | 0, _ => []
  | fuel + 1, val => (val * minFactor) :: factorLoop minFactor fuel (val * minFactor)

/-- The function `QwtLog10ScaleEngine::buildMinorTicks`. -/
def buildMinorTicks (M : Libm) (majorTicks : List ℚ) (maxMinSteps : ℤ) (stepSize : ℚ) :
    List ℚ :=
  if stepSize < 11 / 10 then
    if maxMinSteps < 1 then []
    else
      let p : ℤ × ℤ × ℤ :=
        if maxMinSteps ≥ 8 then (2, 9, 1)
        else if maxMinSteps ≥ 4 then (2, 8, 2)
        else if maxMinSteps ≥ 2 then (2, 5, 3)
        else (5, 5, 1)
      let k0 := p.1
      let kmax := p.2.1
      let kstep := p.2.2
      majorTicks.foldl
        (fun minorTicks v =>
          minorTicks ++ (kLoop kmax kstep (kmax - k0 + 1).toNat k0).map (fun (k : ℤ) => v * (k : ℚ)))
        []
  else
    let minStep := divideInterval stepSize maxMinSteps
    if minStep = 0 then []
    else
      let minStep := if minStep < 1 then 1 else minStep
      let nMin := qRound (stepSize / minStep) - 1
      let nMin :=
        if qwtFuzzyCompare (((nMin + 1 : ℤ) : ℚ) * minStep) |stepSize| stepSize > 0 then 0
        else nMin
      if nMin < 1 then []
      else
        let minFactor := max (M.pow10 minStep) 10
        majorTicks.foldl
          (fun minorTicks v => minorTicks ++ factorLoop minFactor nMin.toNat v) []

/-- The function `QwtLog10ScaleEngine::buildTicks`: the triple (minor, medium, major). -/
def buildTicks (M : Libm) (interval : QwtInterval) (stepSize : ℚ) (maxMinSteps : ℤ) :
    List ℚ × List ℚ × List ℚ :=
  let boundingInterval := align M interval stepSize
  let major := buildMajorTicks M boundingInterval stepSize
  let minor := if maxMinSteps > 0 then buildMinorTicks M major maxMinSteps stepSize else []
  (strip minor interval, strip [] interval, strip major interval)

/-- The interval `divideScale` works on: `QwtInterval( x1, x2 ).normalized()`
limited to `[LOG_MIN, LOG_MAX]`. -/
def clamped (x1 x2 : ℚ) : QwtInterval :=
  ((QwtInterval.mk x1 x2).normalized).limited LOG_MIN LOG_MAX

/-- The step size (in decades) `divideScale` works with on its own path:
`fabs( stepSize )`, or, when that is `0.0`, the result of `divideInterval` on the
width of the logarithm of the interval, raised to at least one decade. -/
def usedStepSize (M : Libm) (interval : QwtInterval) (maxMajSteps : ℤ) (stepSize : ℚ) : ℚ :=
  let stepSize := |stepSize|
  if stepSize = 0 then
    let s := divideInterval (log10 M interval).width
      (if maxMajSteps < 1 then 1 else maxMajSteps)
    if s < 1 then 1 else s
  else stepSize

/-- The scale division `divideScale` builds for the limited interval, before the
inversion: empty when the step size is `0.0`. -/
def scaleDivFor (M : Libm) (interval : QwtInterval) (stepSize : ℚ) (maxMinSteps : ℤ) :
    QwtScaleDiv :=
  if stepSize ≠ 0 then
    let t := buildTicks M interval stepSize maxMinSteps
    QwtScaleDiv.ofTicks interval t.1 t.2.1 t.2.2
  else QwtScaleDiv.empty

/-- The function `QwtLog10ScaleEngine::divideScale`. -/
def divideScale (M : Libm) (x1 x2 : ℚ) (maxMajSteps maxMinSteps : ℤ) (stepSize : ℚ) :
    QwtScaleDiv :=
  let interval := clamped x1 x2
  if interval.width ≤ 0 then QwtScaleDiv.empty
  else if interval.maxValue / interval.minValue < 10 then
    QwtLinearScaleEngine.divideScale x1 x2 maxMajSteps maxMinSteps
      (if stepSize ≠ 0 then M.pow10 stepSize else stepSize)
  else
    let stepSize := usedStepSize M interval maxMajSteps stepSize
    let scaleDiv := scaleDivFor M interval stepSize maxMinSteps
    if x1 > x2 then scaleDiv.invert else scaleDiv

end QwtLog10ScaleEngine

/-- An instance of the C library functions that is exact on whole decades:
`log10 x = floor(log10 x)` and `pow10 y = 10^floor(y)`.  The pair `log`/`exp` is
taken to base 10 as well; the engine only evaluates `exp` on interpolations of
`log` values, which does not depend on the base. -/
def decadeLibm : Libm where
  log10 := fun x => (Int.log 10 x : ℚ)
  pow10 := fun y => (10 : ℚ) ^ ⌊y⌋
  log := fun x => (Int.log 10 x : ℚ)
  exp := fun y => (10 : ℚ) ^ ⌊y⌋

/-! ## Predicates used in the statements -/

/-- Two scale divisions mirror each other: the bounds of one are the swapped bounds
of the other, and each tick type holds the same set of values in both. -/
def QwtScaleDiv.Mirrors (d e : QwtScaleDiv) : Prop :=
  d.lowerBound = e.upperBound ∧ d.upperBound = e.lowerBound
    ∧ (∀ t, t ∈ d.minorTicks ↔ t ∈ e.minorTicks)
    ∧ (∀ t, t ∈ d.mediumTicks ↔ t ∈ e.mediumTicks)
    ∧ (∀ t, t ∈ d.majorTicks ↔ t ∈ e.majorTicks)

/-- Closed form of the inner loop of the linear `buildMinorTicks`, used in the
proofs: the sub-ticks `val + (j + 1) * minStep`, snapped to zero, that follow the
major tick `v`, for the loop counters `j` of the list `js`. -/
def subTicks (minStep stepSize : ℚ) (js : List ℕ) (v : ℚ) : List ℚ :=
  js.map (fun (j : ℕ) => snapTick stepSize (v + ((j : ℚ) + 1) * minStep))

/-- The loop counters below `fuel` that are (`medium = true`) or are not
(`medium = false`) the medium index, when the counter starts at `k`. -/
def subTickIndices (medIndex : ℤ) (medium : Bool) (fuel : ℕ) (k : ℤ) : List ℕ :=
  (List.range fuel).filter (fun (j : ℕ) => decide (k + (j : ℤ) = medIndex) == medium)

/-- The tick list is not empty, its first element equals `a` and its last element
equals `b`, both up to the `1e-6` relative tolerance of `qwtFuzzyCompare` on the
interval size `b - a`. -/
def spansInterval (a b : ℚ) (ticks : List ℚ) : Bool :=
  match ticks.head?, ticks.getLast? with
  | some first, some last =>
    qwtFuzzyCompare first a (b - a) == 0 && qwtFuzzyCompare last b (b - a) == 0
  | _, _ => false

/-- Both bounds and every tick of the scale division lie in `[LOG_MIN, LOG_MAX]`. -/
def inLogDomain (d : QwtScaleDiv) : Bool :=
  decide (LOG_MIN ≤ d.lowerBound ∧ d.lowerBound ≤ LOG_MAX
      ∧ LOG_MIN ≤ d.upperBound ∧ d.upperBound ≤ LOG_MAX)
    && (d.minorTicks ++ d.mediumTicks ++ d.majorTicks).all
        (fun t => decide (LOG_MIN ≤ t ∧ t ≤ LOG_MAX))

/-- The number of ticks of the list that lie strictly between `lo` and `hi`. -/
def ticksBetween (lo hi : ℚ) (ticks : List ℚ) : ℕ :=
  (ticks.filter (fun t => decide (lo < t ∧ t < hi))).length

/-- Between every two adjacent major ticks of the scale division lie at most `bound`
minor and medium ticks together. -/
def subdivisionBounded (bound : ℤ) (d : QwtScaleDiv) : Bool :=
  (d.majorTicks.zip d.majorTicks.tail).all
    (fun pq => decide
      (((ticksBetween pq.1 pq.2 d.minorTicks + ticksBetween pq.1 pq.2 d.mediumTicks : ℕ) : ℤ)
        ≤ bound))

/-! ## qwt_interval.cpp: set operations -/

namespace QwtInterval

/-- The function `QwtInterval::unite`: an invalid operand yields the other one (the
default interval when both are invalid); otherwise each limit is chosen by the two
chains of comparisons of the source. -/
def unite (i other : QwtInterval) : QwtInterval :=
  if !i.isValid then
    if !other.isValid then invalid else other
  else if !other.isValid then i
  else
    let unitedMin :=
      if i.minValue < other.minValue then i.minValue
      else if other.minValue < i.minValue then other.minValue
      else i.minValue
    let unitedMax :=
      if i.maxValue > other.maxValue then i.maxValue
      else if other.maxValue > i.maxValue then other.maxValue
      else i.maxValue
    ⟨unitedMin, unitedMax⟩

/-- The function `QwtInterval::intersect`: `i1`, `i2` are the operands after the
`qSwap` that puts the smaller minimum first. -/
def intersect (i other : QwtInterval) : QwtInterval :=
  if !other.isValid || !i.isValid then invalid
  else
    let i1 := if i.minValue > other.minValue then other else i
    let i2 := if i.minValue > other.minValue then i else other
    if i1.maxValue < i2.minValue then invalid
    else
      let intersectedMax :=
        if i1.maxValue < i2.maxValue then i1.maxValue
        else if i2.maxValue < i1.maxValue then i2.maxValue
        else i1.maxValue
      ⟨i2.minValue, intersectedMax⟩

/-- The function `QwtInterval::symmetrize`: an invalid interval is returned as it is. -/
def symmetrize (i : QwtInterval) (value : ℚ) : QwtInterval :=
  if !i.isValid then i
  else
    let delta := max |value - i.maxValue| |value - i.minValue|
    ⟨value - delta, value + delta⟩

end QwtInterval

/-! ## qwt_scale_map.h -/

/-- The enum `QwtScaleTransformation::Type`. -/
inductive QwtScaleTransformation.TransformationType where
  | Linear
  | Log10
  | Other
deriving DecidableEq

/-- The class `QwtScaleTransformation`: the tag `d_type` and the two virtual functions
`xForm( x, s1, s2, p1, p2 )` and `invXForm( x, s1, s2, p1, p2 )`. -/
structure QwtScaleTransformation where
  d_type : QwtScaleTransformation.TransformationType
  xForm : ℚ → ℚ → ℚ → ℚ → ℚ → ℚ
  invXForm : ℚ → ℚ → ℚ → ℚ → ℚ → ℚ

namespace QwtScaleTransformation

/-- The function `QwtScaleTransformation::type`. -/
def type (t : QwtScaleTransformation) : TransformationType := t.d_type

/-- Modelled from the spec: `QwtScaleTransformation::xForm` of `qwt_scale_map.cpp`, which
is not among the sources, for the type `Linear`.  The spec gives the forward transform of
the Linear kind as `p1 + (s - s1) * cnv` with `cnv = (p2 - p1) / (s2 - s1)`. -/
def linearXForm (s s1 s2 p1 p2 : ℚ) : ℚ := p1 + (s - s1) * ((p2 - p1) / (s2 - s1))

/-- Modelled from the spec: `QwtScaleTransformation::invXForm` of `qwt_scale_map.cpp`,
which is not among the sources, for the type `Linear`.  The spec calls it the inverse
transform function of the kind, called as `invXForm(p, p1, p2, s1, s2)`, and gives no
formula; it is taken as the forward transform with the two intervals exchanged, the
linear function that sends `p1` to `s1` and `p2` to `s2`. -/
def linearInvXForm (p p1 p2 s1 s2 : ℚ) : ℚ := s1 + (p - p1) * ((s2 - s1) / (p2 - p1))

/-- Modelled from the spec: the object built by
`QwtScaleTransformation( QwtScaleTransformation::Linear )`; the constructor is in
`qwt_scale_map.cpp`, which is not among the sources. -/
def linear : QwtScaleTransformation := ⟨.Linear, linearXForm, linearInvXForm⟩

end QwtScaleTransformation

/-- The class `QwtScaleMap`: the two intervals, the cached conversion factor and the
transformation. -/
structure QwtScaleMap where
  d_s1 : ℚ
  d_s2 : ℚ
  d_p1 : ℚ
  d_p2 : ℚ
  d_cnv : ℚ
  d_transformation : QwtScaleTransformation

namespace QwtScaleMap

open QwtScaleTransformation

/-- Modelled from the spec: `QwtScaleMap::newFactor` of `qwt_scale_map.cpp`, which is not
among the sources: the recomputation of the cached conversion factor.  The spec gives the
factor of the Linear kind, `cnv = (p2-p1)/(s2-s1)`.  It gives no factor for the Log10
kind: that one is the argument `logCnv`, a function of the four bounds.  A transformation
of type `Other` does not read the factor. -/
def newFactor (logCnv : ℚ → ℚ → ℚ → ℚ → ℚ) (m : QwtScaleMap) : QwtScaleMap :=
  match m.d_transformation.type with
  | .Linear => { m with d_cnv := (m.d_p2 - m.d_p1) / (m.d_s2 - m.d_s1) }
  | .Log10 => { m with d_cnv := logCnv m.d_s1 m.d_s2 m.d_p1 m.d_p2 }
  | .Other => m

/-- Modelled from the spec: `QwtScaleMap::setScaleInterval` of `qwt_scale_map.cpp`, which
is not among the sources: stores the scale interval and recomputes the factor. -/
def setScaleInterval (logCnv : ℚ → ℚ → ℚ → ℚ → ℚ) (m : QwtScaleMap) (s1 s2 : ℚ) :
    QwtScaleMap :=
  newFactor logCnv { m with d_s1 := s1, d_s2 := s2 }

/-- Modelled from the spec: `QwtScaleMap::setPaintInterval` of `qwt_scale_map.cpp`, which
is not among the sources: stores the paint interval and recomputes the factor. -/
def setPaintInterval (logCnv : ℚ → ℚ → ℚ → ℚ → ℚ) (m : QwtScaleMap) (p1 p2 : ℚ) :
    QwtScaleMap :=
  newFactor logCnv { m with d_p1 := p1, d_p2 := p2 }

/-- The function `QwtScaleMap::transform`; `M.log` is the `log` of the C library. -/
def transform (M : Libm) (m : QwtScaleMap) (s : ℚ) : ℚ :=
  if m.d_transformation.type = .Linear then m.d_p1 + (s - m.d_s1) * m.d_cnv
  else if m.d_transformation.type = .Log10 then m.d_p1 + M.log (s / m.d_s1) * m.d_cnv
  else m.d_transformation.xForm s m.d_s1 m.d_s2 m.d_p1 m.d_p2

/-- The function `QwtScaleMap::invTransform`. -/
def invTransform (m : QwtScaleMap) (p : ℚ) : ℚ :=
  m.d_transformation.invXForm p m.d_p1 m.d_p2 m.d_s1 m.d_s2

/-- The function `QwtScaleMap::isInverting`: `( d_p1 < d_p2 ) != ( d_s1 < d_s2 )`. -/
def isInverting (m : QwtScaleMap) : Bool :=
  decide (m.d_p1 < m.d_p2) != decide (m.d_s1 < m.d_s2)

end QwtScaleMap

/-! ## Instances used in the examples of the scale map -/

/-- A factor for the Log10 kind, used in examples: the paint distance divided by the
logarithmic distance of the scale interval.  It is an instance of the argument `logCnv`
of `QwtScaleMap.newFactor`, not a translation of code. -/
def logDistanceFactor (M : Libm) (s1 s2 p1 p2 : ℚ) : ℚ := (p2 - p1) / M.log (s2 / s1)

/-- A scale map in an arbitrary initial state, with the Linear transformation. -/
def linearMap0 : QwtScaleMap := ⟨0, 1, 0, 1, 1, QwtScaleTransformation.linear⟩

/-- The class `QSize` of Qt: an integer width `wd` and height `ht`. -/
structure QSize where
  wd : ℤ
  ht : ℤ
deriving DecidableEq

namespace QSize

/-- The function `QSize::width`. -/
def width (s : QSize) : ℤ := s.wd

/-- The function `QSize::height`. -/
def height (s : QSize) : ℤ := s.ht

end QSize

/-- The class `QRectF` of Qt: the corner `(xp, yp)`, the width `w` and the height `h`. -/
structure QRectF where
  xp : ℚ
  yp : ℚ
  w : ℚ
  h : ℚ
deriving DecidableEq

namespace QRectF

/-- The default constructor `QRectF()`: the null rectangle. -/
def null : QRectF := ⟨0, 0, 0, 0⟩

/-- The function `QRectF::x`. -/
def x (r : QRectF) : ℚ := r.xp

/-- The function `QRectF::y`. -/
def y (r : QRectF) : ℚ := r.yp

/-- The function `QRectF::width`. -/
def width (r : QRectF) : ℚ := r.w

/-- The function `QRectF::height`. -/
def height (r : QRectF) : ℚ := r.h

/-- The function `QRectF::right`: `xp + w`. -/
def right (r : QRectF) : ℚ := r.xp + r.w

/-- The function `QRectF::bottom`: `yp + h`. -/
def bottom (r : QRectF) : ℚ := r.yp + r.h

/-- The function `QRectF::setX`: moves the left edge and keeps the right one
(`diff = pos - xp; xp += diff; w -= diff`). -/
def setX (r : QRectF) (pos : ℚ) : QRectF := { r with xp := pos, w := r.w - (pos - r.xp) }

/-- The function `QRectF::setY`: moves the top edge and keeps the bottom one. -/
def setY (r : QRectF) (pos : ℚ) : QRectF := { r with yp := pos, h := r.h - (pos - r.yp) }

/-- The function `QRectF::setWidth`. -/
def setWidth (r : QRectF) (w : ℚ) : QRectF := { r with w := w }

/-- The function `QRectF::setHeight`. -/
def setHeight (r : QRectF) (h : ℚ) : QRectF := { r with h := h }

end QRectF

/-! ## qwt_plot.h, qwt_legend.h -/

/-- The enum `QwtPlot::LegendPosition`. -/
inductive LegendPosition where
  | LeftLegend
  | RightLegend
  | BottomLegend
  | TopLegend
  | ExternalLegend
deriving DecidableEq

/-- The part of the class `QwtLegend` that the layout reads: `sizeHint()`,
`heightForWidth( w )`, the size hints of its two scroll bars,
`verticalScrollBar()->sizeHint().width()` and
`horizontalScrollBar()->sizeHint().height()`, and `isEmpty()`. -/
structure QwtLegend where
  sizeHint : QSize
  heightForWidth : ℤ → ℤ
  vScrollBarWidth : ℤ
  hScrollBarHeight : ℤ
  isEmpty : Bool

/-! ## qwt_text.h, qwt_text_label.h, qwt_scale_widget.h -/

/-- The part of the class `QwtText` that the layout reads: `isEmpty()` and
`heightForWidth( width )` in the font of the text. -/
structure QwtText where
  isEmpty : Bool
  heightForWidth : ℚ → ℚ

/-- The default constructor `QwtText()`: an empty text, whose height is not read by the
layout. -/
def QwtText.empty : QwtText := ⟨true, fun _ => 0⟩

/-- The part of the class `QwtTextLabel` that the layout reads: `text()`, taken with
the font that `LayoutData::init` gives it (the font of the label, unless the text paints
with its own font), and `frameWidth()`. -/
structure QwtTextLabel where
  text : QwtText
  frameWidth : ℤ

/-- The part of the class `QwtScaleWidget` that the layout reads: `margin()`,
`scaleDraw()->maxTickLength()`, `dimForLength( length, font() )`, `title().isEmpty()`
and `titleHeightForWidth( width )`. -/
structure QwtScaleWidget where
  margin : ℤ
  maxTickLength : ℚ
  dimForLength : ℤ → ℤ
  titleIsEmpty : Bool
  titleHeightForWidth : ℤ → ℤ

/-- The part of the class `QwtPlot` that the layout reads: `legend()` and
`titleLabel()` (absent for a null pointer), `axisEnabled( axis )`, `axisWidget( axis )`
and `canvas()->frameWidth()`.  The axes are numbered as in the enum `QwtPlot::Axis`. -/
structure QwtPlot where
  legend : Option QwtLegend
  titleLabel : Option QwtTextLabel
  axisEnabled : Fin 4 → Bool
  axisWidget : Fin 4 → QwtScaleWidget
  canvasFrameWidth : ℤ

namespace QwtPlot

/-- The axis `QwtPlot::yLeft`. -/
def yLeft : Fin 4 := 0

/-- The axis `QwtPlot::yRight`. -/
def yRight : Fin 4 := 1

/-- The axis `QwtPlot::xBottom`. -/
def xBottom : Fin 4 := 2

/-- The axis `QwtPlot::xTop`. -/
def xTop : Fin 4 := 3

end QwtPlot

/-- The constant `QWIDGETSIZE_MAX` of Qt: `( 1 << 24 ) - 1`. -/
def QWIDGETSIZE_MAX : ℤ := 16777215

/-! ## qwt_plot_layout.cpp -/

namespace QwtPlotLayout

/-- The struct `QwtPlotLayout::LayoutData::t_legendData`. -/
structure t_legendData where
  vScrollBarWidth : ℤ
  hScrollBarHeight : ℤ
  hint : QSize
deriving DecidableEq

/-- The struct `QwtPlotLayout::LayoutData::t_titleData`. -/
structure t_titleData where
  text : QwtText
  frameWidth : ℤ

/-- The struct `QwtPlotLayout::LayoutData::t_scaleData`; the font `scaleFont` is part of
`scaleWidget.dimForLength`. -/
structure t_scaleData where
  scaleWidget : QwtScaleWidget
  baseLineOffset : ℤ
  tickOffset : ℤ
  dimWithoutTitle : ℤ
  isEnabled : Bool

/-- The struct `QwtPlotLayout::LayoutData::t_canvasData`. -/
structure t_canvasData where
  frameWidth : ℤ
deriving DecidableEq

/-- The class `QwtPlotLayout::LayoutData`. -/
structure LayoutData where
  legend : t_legendData
  title : t_titleData
  scale : Fin 4 → t_scaleData
  canvas : t_canvasData

/-- The legend part of `QwtPlotLayout::LayoutData::init`: `legendPos` is
`plot->plotLayout()->legendPosition()` and `legend` is `plot->legend()`, absent for a
null pointer. -/
def LayoutData.initLegend (data : LayoutData) (legendPos : LegendPosition)
    (legend : Option QwtLegend) (rect : QRectF) : LayoutData :=
  match legend with
  | some l =>
    if legendPos ≠ LegendPosition.ExternalLegend then
      let hint := l.sizeHint
      let w := min hint.width (toInt rect.width)
      let h := l.heightForWidth w
      let h := if h = 0 then hint.height else h
      let w := if (h : ℚ) > rect.height then w + l.vScrollBarWidth else w
      { data with legend := ⟨l.vScrollBarWidth, l.hScrollBarHeight, ⟨w, h⟩⟩ }
    else data
  | none => data

/-- The class `QwtPlotLayout::PrivateData`: the output rectangles (`scaleRect` indexed by
the four axes), the layout data, the legend position and ratio, and the spacing. -/
structure PrivateData where
  titleRect : QRectF
  legendRect : QRectF
  scaleRect : Fin 4 → QRectF
  canvasRect : QRectF
  layoutData : LayoutData
  legendPos : LegendPosition
  legendRatio : ℚ
  spacing : ℕ

/-- The function `QwtPlotLayout::setLegendPosition( pos, ratio )`.  The constants `0.33`
and `0.5` are the rationals `33/100` and `1/2`. -/
def setLegendPosition (d : PrivateData) (pos : LegendPosition) (ratio : ℚ) : PrivateData :=
  let ratio := if ratio > 1 then 1 else ratio
  match pos with
  | .TopLegend | .BottomLegend =>
    let ratio := if ratio ≤ 0 then 33 / 100 else ratio
    { d with legendRatio := ratio, legendPos := pos }
  | .LeftLegend | .RightLegend =>
    let ratio := if ratio ≤ 0 then 1 / 2 else ratio
    { d with legendRatio := ratio, legendPos := pos }
  | .ExternalLegend =>
    { d with legendRatio := ratio, legendPos := pos }

/-- The overload `QwtPlotLayout::setLegendPosition( pos )`:
`setLegendPosition( pos, 0.0 )`. -/
def setLegendPositionDefault (d : PrivateData) (pos : LegendPosition) : PrivateData :=
  setLegendPosition d pos 0

/-- The function `QwtPlotLayout::legendPosition`. -/
def legendPosition (d : PrivateData) : LegendPosition := d.legendPos

/-- The function `QwtPlotLayout::legendRatio`. -/
def legendRatio (d : PrivateData) : ℚ := d.legendRatio

/-- The function `QwtPlotLayout::setLegendRatio`. -/
def setLegendRatio (d : PrivateData) (ratio : ℚ) : PrivateData :=
  setLegendPosition d (legendPosition d) ratio

/-- The function `QwtPlotLayout::invalidate`. -/
def invalidate (d : PrivateData) : PrivateData :=
  { d with titleRect := QRectF.null, legendRect := QRectF.null, canvasRect := QRectF.null,
           scaleRect := fun _ => QRectF.null }

/-- The constructor `QwtPlotLayout::QwtPlotLayout`.  `new PrivateData` sets the spacing
to `5` and default-constructs the rectangles; it leaves the legend position, the legend
ratio and the integers of the layout data uninitialised: these are the arguments. -/
def create (legendPos : LegendPosition) (legendRatio : ℚ) (layoutData : LayoutData) :
    PrivateData :=
  invalidate (setLegendPositionDefault
    { titleRect := QRectF.null, legendRect := QRectF.null, scaleRect := fun _ => QRectF.null,
      canvasRect := QRectF.null, layoutData := layoutData, legendPos := legendPos,
      legendRatio := legendRatio, spacing := 5 }
    LegendPosition.BottomLegend)

/-- The function `QwtPlotLayout::layoutLegend`; `int( . )` truncates towards zero. -/
def layoutLegend (d : PrivateData) (rect : QRectF) : QRectF :=
  let hint := d.layoutData.legend.hint
  let dim : ℤ :=
    if d.legendPos = LegendPosition.LeftLegend ∨ d.legendPos = LegendPosition.RightLegend then
      let dim := min hint.width (toInt (rect.width * d.legendRatio))
      if (hint.height : ℚ) > rect.height then dim + d.layoutData.legend.vScrollBarWidth
      else dim
    else
      let dim := min hint.height (toInt (rect.height * d.legendRatio))
      max dim d.layoutData.legend.hScrollBarHeight
  match d.legendPos with
  | .LeftLegend => rect.setWidth dim
  | .RightLegend => (rect.setX (rect.right - dim)).setWidth dim
  | .TopLegend => rect.setHeight dim
  | .BottomLegend => (rect.setY (rect.bottom - dim)).setHeight dim
  | .ExternalLegend => rect

/-- The layout after the legend part of the step
`d_data->layoutData.init( plot, rect )` of `QwtPlotLayout::activate`, for a plot whose
legend is `legend`. -/
def harvest (d : PrivateData) (legend : Option QwtLegend) (rect : QRectF) : PrivateData :=
  { d with layoutData := d.layoutData.initLegend d.legendPos legend rect }

/-- The calls that change the legend position and ratio of a layout. -/
inductive Call where
  | setLegendPosition (pos : LegendPosition) (ratio : ℚ)
  | setLegendPositionDefault (pos : LegendPosition)
  | setLegendRatio (ratio : ℚ)

/-- The effect of one call. -/
def Call.apply (d : PrivateData) : Call → PrivateData
  | .setLegendPosition pos ratio => QwtPlotLayout.setLegendPosition d pos ratio
  | .setLegendPositionDefault pos => QwtPlotLayout.setLegendPositionDefault d pos
  | .setLegendRatio ratio => QwtPlotLayout.setLegendRatio d ratio

/-- The effect of a sequence of calls, first call first. -/
def run (d : PrivateData) (calls : List Call) : PrivateData := calls.foldl Call.apply d

end QwtPlotLayout

/-! ## Instances used in the examples of the layout -/

/-- A legend for examples: size hint `400 x 200`, no height-for-width (`0`), scroll bar
size hints of `16`, not empty. -/
def wideLegend : QwtLegend := ⟨⟨400, 200⟩, fun _ => 0, 16, 16, false⟩

/-- A legend for examples: size hint `100 x 400`, no height-for-width (`0`), scroll bar
size hints of `16`, not empty. -/
def tallLegend : QwtLegend := ⟨⟨100, 400⟩, fun _ => 0, 16, 16, false⟩

/-- A scale widget for examples: margin `2`, ticks of length `8`, a dimension of `30`
for every length, no title. -/
def plainScaleWidget : QwtScaleWidget := ⟨2, 8, fun _ => 30, true, fun _ => 0⟩

/-- Layout data in an arbitrary initial state. -/
def layoutData0 : QwtPlotLayout.LayoutData :=
  ⟨⟨0, 0, ⟨0, 0⟩⟩, ⟨QwtText.empty, 0⟩, fun _ => ⟨plainScaleWidget, 0, 0, 0, false⟩, ⟨0⟩⟩

/-! ## qwt_interval.cpp: containment and overlap -/

namespace QwtInterval

/-- The function `QwtInterval::contains`. -/
def contains (i : QwtInterval) (value : ℚ) : Bool :=
  if !i.isValid then false
  else if value < i.minValue ∨ value > i.maxValue then false
  else true

/-- The function `QwtInterval::intersects`: `i1`, `i2` are the operands after the
`qSwap` that puts the smaller minimum first. -/
def intersects (i other : QwtInterval) : Bool :=
  if !i.isValid || !other.isValid then false
  else
    let i1 := if i.minValue > other.minValue then other else i
    let i2 := if i.minValue > other.minValue then i else other
    if i1.maxValue > i2.minValue then true
    else if i1.maxValue = i2.minValue then true
    else false

end QwtInterval

/-! ## Colours of Qt -/

/-- The function `qRed` of Qt on a `QRgb` value `0xAARRGGBB`. -/
def qRed (rgb : ℕ) : ℤ := ((rgb / 65536 % 256 : ℕ) : ℤ)

/-- The function `qGreen` of Qt. -/
def qGreen (rgb : ℕ) : ℤ := ((rgb / 256 % 256 : ℕ) : ℤ)

/-- The function `qBlue` of Qt. -/
def qBlue (rgb : ℕ) : ℤ := ((rgb % 256 : ℕ) : ℤ)

/-- The function `qRgb` of Qt:
`( 0xffu << 24 ) | ( ( r & 0xff ) << 16 ) | ( ( g & 0xff ) << 8 ) | ( b & 0xff )`. -/
def qRgb (r g b : ℤ) : ℕ :=
  4278190080 + (r % 256).toNat * 65536 + (g % 256).toNat * 256 + (b % 256).toNat

/-- The class `QColor` of Qt, as far as the colour map reads it: the value of
`QColor::rgb()`. -/
structure QColor where
  rgb : ℕ
deriving DecidableEq

/-! ## qwt_color_map.cpp -/

namespace QwtLinearColorMap

/-- The enum `QwtLinearColorMap::Mode`. -/
inductive Mode where
  | FixedColors
  | ScaledColors
deriving DecidableEq

/-- The class `QwtLinearColorMap::ColorStops::ColorStop`. -/
structure ColorStop where
  pos : ℚ
  rgb : ℕ
  r : ℤ
  g : ℤ
  b : ℤ
deriving DecidableEq

/-- The constructor `ColorStop( double p, const QColor &c )`. -/
def ColorStop.ofColor (p : ℚ) (c : QColor) : ColorStop :=
  ⟨p, c.rgb, qRed c.rgb, qGreen c.rgb, qBlue c.rgb⟩

/-- The class `QwtLinearColorMap::ColorStops`: the vector `_stops`. -/
structure ColorStops where
  _stops : List ColorStop
deriving DecidableEq

namespace ColorStops

/-- The loop of `ColorStops::findUpper`: `fuel` bounds the number of iterations, `index`
and `n` are the two loop variables.  A read of `stops[middle]` outside the vector counts
as `stops[middle].pos <= pos` being false. -/
def findUpperLoop (stops : List ColorStop) (pos : ℚ) : ℕ → ℕ → ℕ → ℕ
  | 0, index, _ => index
  | fuel + 1, index, n =>
    if n > 0 then
      let half := n / 2
      let middle := index + half
      match stops[middle]? with
      | some s =>
        if s.pos ≤ pos then findUpperLoop stops pos fuel (middle + 1) (n - (half + 1))
        else findUpperLoop stops pos fuel index half
      | none => findUpperLoop stops pos fuel index half
    else index

/-- The function `ColorStops::findUpper`; `n` starts at the size of the vector and
decreases in every iteration, so that many iterations are enough. -/
def findUpper (s : ColorStops) (pos : ℚ) : ℕ :=
  findUpperLoop s._stops pos s._stops.length 0 s._stops.length

/-- The function `ColorStops::insert`: `QVector::insert( i, value )` puts the value
before the element at index `i`. -/
def insert (s : ColorStops) (pos : ℚ) (color : QColor) : ColorStops :=
  ⟨s._stops.take (s.findUpper pos) ++ [ColorStop.ofColor pos color]
    ++ s._stops.drop (s.findUpper pos)⟩

/-- The function `ColorStops::stops`. -/
def stops (s : ColorStops) : List ℚ := s._stops.map ColorStop.pos

/-- The function `ColorStops::rgb`.  The result is `none` when an index outside the
vector is read or when the divisor `s2.pos - s1.pos` is zero. -/
def rgb (s : ColorStops) (mode : Mode) (pos : ℚ) : Option ℕ :=
  if pos ≤ 0 then (s._stops[0]?).map ColorStop.rgb
  else if pos ≥ 1 then
    if s._stops.length = 0 then none
    else (s._stops[s._stops.length - 1]?).map ColorStop.rgb
  else
    let index := s.findUpper pos
    if index = 0 then none
    else
      match mode with
      | Mode.FixedColors => (s._stops[index - 1]?).map ColorStop.rgb
      | Mode.ScaledColors =>
        match s._stops[index - 1]?, s._stops[index]? with
        | some s1, some s2 =>
          if s2.pos - s1.pos = 0 then none
          else
            let ratio := (pos - s1.pos) / (s2.pos - s1.pos)
            let r := s1.r + toInt (ratio * ((s2.r - s1.r : ℤ) : ℚ))
            let g := s1.g + toInt (ratio * ((s2.g - s1.g : ℤ) : ℚ))
            let b := s1.b + toInt (ratio * ((s2.b - s1.b : ℤ) : ℚ))
            some (qRgb r g b)
        | _, _ => none

end ColorStops

/-- The class `QwtLinearColorMap::PrivateData`. -/
structure PrivateData where
  colorStops : ColorStops
  mode : Mode
deriving DecidableEq

/-- The function `QwtLinearColorMap::setColorInterval`. -/
def setColorInterval (d : PrivateData) (color1 color2 : QColor) : PrivateData :=
  { d with colorStops := ((ColorStops.mk []).insert 0 color1).insert 1 color2 }

/-- The function `QwtLinearColorMap::addColorStop`. -/
def addColorStop (d : PrivateData) (value : ℚ) (color : QColor) : PrivateData :=
  if value ≥ 0 ∧ value ≤ 1 then { d with colorStops := d.colorStops.insert value color }
  else d

/-- The function `QwtLinearColorMap::setMode`. -/
def setMode (d : PrivateData) (mode : Mode) : PrivateData := { d with mode := mode }

/-- The function `QwtLinearColorMap::colorStops`. -/
def colorStops (d : PrivateData) : List ℚ := d.colorStops.stops

/-- The constructor `QwtLinearColorMap( color1, color2 )`. -/
def create (color1 color2 : QColor) : PrivateData :=
  setColorInterval ⟨⟨[]⟩, Mode.ScaledColors⟩ color1 color2

/-- The constructor `QwtLinearColorMap()`: `Qt::blue` is `0xff0000ff` and `Qt::yellow`
is `0xffffff00`. -/
def createDefault : PrivateData := create ⟨4278190335⟩ ⟨4294967040⟩

/-- The calls that change a colour map. -/
inductive Call where
  | setColorInterval (color1 color2 : QColor)
  | addColorStop (value : ℚ) (color : QColor)
  | setMode (mode : Mode)

/-- The effect of one call. -/
def Call.apply (d : PrivateData) : Call → PrivateData
  | .setColorInterval color1 color2 => QwtLinearColorMap.setColorInterval d color1 color2
  | .addColorStop value color => QwtLinearColorMap.addColorStop d value color
  | .setMode mode => QwtLinearColorMap.setMode d mode

/-- The effect of a sequence of calls, first call first. -/
def run (d : PrivateData) (calls : List Call) : PrivateData := calls.foldl Call.apply d

end QwtLinearColorMap

/-- The stop positions are in non-decreasing order, the first one is `0.0` and the last
one is `1.0`. -/
def QwtLinearColorMap.ColorStops.WellFormed (s : QwtLinearColorMap.ColorStops) : Prop :=
  s._stops.Pairwise (fun a b => a.pos ≤ b.pos)
    ∧ s._stops.head?.map QwtLinearColorMap.ColorStop.pos = some 0
    ∧ s._stops.getLast?.map QwtLinearColorMap.ColorStop.pos = some 1

/-! ## Rectangles and regions of Qt -/

namespace QRectF

/-- The function `QRectF::left`. -/
def left (r : QRectF) : ℚ := r.xp

/-- The function `QRectF::top`. -/
def top (r : QRectF) : ℚ := r.yp

/-- The function `QRectF::setLeft`: moves the left edge and keeps the right one. -/
def setLeft (r : QRectF) (pos : ℚ) : QRectF := r.setX pos

/-- The function `QRectF::setTop`: moves the top edge and keeps the bottom one. -/
def setTop (r : QRectF) (pos : ℚ) : QRectF := r.setY pos

/-- The function `QRectF::setRight`: moves the right edge and keeps the left one. -/
def setRight (r : QRectF) (pos : ℚ) : QRectF := { r with w := pos - r.xp }

/-- The function `QRectF::setBottom`: moves the bottom edge and keeps the top one. -/
def setBottom (r : QRectF) (pos : ℚ) : QRectF := { r with h := pos - r.yp }

/-- The function `QRectF::isEmpty`: `w <= 0 || h <= 0`. -/
def isEmpty (r : QRectF) : Bool := decide (r.w ≤ 0 ∨ r.h ≤ 0)

end QRectF

/-- The class `QRect` of Qt: the integer corners `(x1, y1)` and `(x2, y2)`, both inside
the rectangle. -/
structure QRect where
  x1 : ℤ
  y1 : ℤ
  x2 : ℤ
  y2 : ℤ
deriving DecidableEq

namespace QRect

/-- The default constructor `QRect()`: the null rectangle, of width and height `0`. -/
def null : QRect := ⟨0, 0, -1, -1⟩

/-- The constructor `QRect( x, y, width, height )`. -/
def ofSize (x y width height : ℤ) : QRect := ⟨x, y, x + width - 1, y + height - 1⟩

/-- The function `QRect::width`. -/
def width (r : QRect) : ℤ := r.x2 - r.x1 + 1

/-- The function `QRect::height`. -/
def height (r : QRect) : ℤ := r.y2 - r.y1 + 1

/-- The function `QRect::isEmpty`. -/
def isEmpty (r : QRect) : Bool := decide (r.x1 > r.x2 ∨ r.y1 > r.y2)

/-- The constructor `QRectF( const QRect & )`. -/
def toRectF (r : QRect) : QRectF := ⟨r.x1, r.y1, r.width, r.height⟩

/-- The bounding rectangle of the region `QRegion( r ).subtract( l )`: the null
rectangle when nothing of `r` is left, `r` without the strip that `l` covers when `l`
covers `r` over its whole height (or width) from one side, and `r` itself otherwise. -/
def subtractedBoundingRect (r l : QRect) : QRect :=
  if r.isEmpty then null
  else
    let i : QRect := ⟨max r.x1 l.x1, max r.y1 l.y1, min r.x2 l.x2, min r.y2 l.y2⟩
    if l.isEmpty || i.isEmpty then r
    else
      let coversHeight := decide (i.y1 = r.y1 ∧ i.y2 = r.y2)
      let coversWidth := decide (i.x1 = r.x1 ∧ i.x2 = r.x2)
      if coversHeight && coversWidth then null
      else if coversHeight then
        if i.x1 = r.x1 then { r with x1 := i.x2 + 1 }
        else if i.x2 = r.x2 then { r with x2 := i.x1 - 1 }
        else r
      else if coversWidth then
        if i.y1 = r.y1 then { r with y1 := i.y2 + 1 }
        else if i.y2 = r.y2 then { r with y2 := i.y1 - 1 }
        else r
      else r

end QRect

/-- The function `QRectF::toRect`, as in Qt 4:
`QRect( qRound( xp ), qRound( yp ), qRound( w ), qRound( h ) )`. -/
def QRectF.toRect (r : QRectF) : QRect :=
  QRect.ofSize (qRound r.xp) (qRound r.yp) (qRound r.w) (qRound r.h)

/-- The expression `QRegion( rect.toRect() ).subtract( legendRect.toRect() ).boundingRect()`
of `QwtPlotLayout::activate`, converted back to a `QRectF`, with the functions of Qt as
modelled above.  It is one instance of the argument `subtract` of `activate`. -/
def qtSubtract (rect legendRect : QRectF) : QRectF :=
  (QRect.subtractedBoundingRect rect.toRect legendRect.toRect).toRectF

/-! ## qwt_plot_layout.cpp: `activate` -/

namespace QwtPlotLayout

/-- The function `QwtPlotLayout::LayoutData::init`.  The layout is the layout of the
plot itself, as in every call of the repository, so that
`plot->plotLayout()->legendPosition()` is the legend position `legendPos` of the layout.
The data of a disabled axis keep the scale widget harvested before. -/
def LayoutData.init (data : LayoutData) (plot : QwtPlot) (legendPos : LegendPosition)
    (rect : QRectF) : LayoutData :=
  let data := data.initLegend legendPos plot.legend rect
  let title : t_titleData :=
    match plot.titleLabel with
    | some label => ⟨label.text, label.frameWidth⟩
    | none => ⟨QwtText.empty, 0⟩
  let scale : Fin 4 → t_scaleData := fun axis =>
    if plot.axisEnabled axis then
      let scaleWidget := plot.axisWidget axis
      let dimWithoutTitle := scaleWidget.dimForLength QWIDGETSIZE_MAX
      let dimWithoutTitle :=
        if !scaleWidget.titleIsEmpty then
          dimWithoutTitle - scaleWidget.titleHeightForWidth QWIDGETSIZE_MAX
        else dimWithoutTitle
      { scaleWidget := scaleWidget, baseLineOffset := scaleWidget.margin,
        tickOffset := scaleWidget.margin + toInt scaleWidget.maxTickLength,
        dimWithoutTitle := dimWithoutTitle, isEnabled := true }
    else
      { data.scale axis with
        isEnabled := false, baseLineOffset := 0, tickOffset := 0, dimWithoutTitle := 0 }
  { data with title := title, scale := scale, canvas := ⟨plot.canvasFrameWidth⟩ }

/-- The two results `dimTitle` and `dimAxis[QwtPlot::axisCnt]` of `expandLineBreaks`. -/
structure Dimensions where
  dimTitle : ℤ
  dimAxis : Fin 4 → ℤ

/-- The title block of one pass of the loop of `expandLineBreaks`: the state is the
dimensions and the flag `done`. -/
def titlePass (d : PrivateData) (rect : QRectF) (s : Dimensions × Bool) : Dimensions × Bool :=
  if !d.layoutData.title.text.isEmpty then
    let w : ℤ := toInt rect.width
    let w : ℤ :=
      if (d.layoutData.scale QwtPlot.yLeft).isEnabled
          != (d.layoutData.scale QwtPlot.yRight).isEnabled then
        w - (s.1.dimAxis QwtPlot.yLeft + s.1.dimAxis QwtPlot.yRight)
      else w
    let dd : ℤ := qCeil (d.layoutData.title.text.heightForWidth w)
      + 2 * d.layoutData.title.frameWidth
    if dd > s.1.dimTitle then ({ s.1 with dimTitle := dd }, false) else s
  else s

/-- The length `length` that one pass of the loop of `expandLineBreaks` computes for
an axis. -/
def axisLength (d : PrivateData) (rect : QRectF) (s : Dimensions) (axis : Fin 4) : ℤ :=
  let backboneOffset := d.layoutData.canvas.frameWidth
  if axis = QwtPlot.xTop ∨ axis = QwtPlot.xBottom then
    let length : ℤ :=
      toInt (rect.width - s.dimAxis QwtPlot.yLeft - s.dimAxis QwtPlot.yRight)
    let length := if s.dimAxis QwtPlot.yRight > 0 then length - 1 else length
    let length := length + min (s.dimAxis QwtPlot.yLeft) (-backboneOffset)
    length + min (s.dimAxis QwtPlot.yRight) (-backboneOffset)
  else
    let length : ℤ :=
      toInt (rect.height - s.dimAxis QwtPlot.xTop - s.dimAxis QwtPlot.xBottom)
    let length := length - 1
    let length := if s.dimAxis QwtPlot.xBottom ≤ 0 then length - 1 else length
    let length := if s.dimAxis QwtPlot.xTop ≤ 0 then length - 1 else length
    let length :=
      if s.dimAxis QwtPlot.xBottom > 0 then
        length + min (d.layoutData.scale QwtPlot.xBottom).tickOffset (-backboneOffset)
      else length
    let length :=
      if s.dimAxis QwtPlot.xTop > 0 then
        length + min (d.layoutData.scale QwtPlot.xTop).tickOffset (-backboneOffset)
      else length
    if s.dimTitle > 0 then length - (s.dimTitle + (d.spacing : ℤ)) else length

/-- The body of the axis loop of one pass of the loop of `expandLineBreaks`, for one
axis. -/
def axisPass (d : PrivateData) (rect : QRectF) (s : Dimensions × Bool) (axis : Fin 4) :
    Dimensions × Bool :=
  let scaleData := d.layoutData.scale axis
  if scaleData.isEnabled then
    let length := axisLength d rect s.1 axis
    let dd := scaleData.dimWithoutTitle
    let dd :=
      if !scaleData.scaleWidget.titleIsEmpty then
        dd + scaleData.scaleWidget.titleHeightForWidth length
      else dd
    if dd > s.1.dimAxis axis then
      ({ s.1 with dimAxis := Function.update s.1.dimAxis axis dd }, false)
    else s
  else s

/-- One pass of the loop of `expandLineBreaks`: `done = true`, the title block, then the
four axes in turn. -/
def pass (d : PrivateData) (rect : QRectF) (s : Dimensions) : Dimensions × Bool :=
  [QwtPlot.yLeft, QwtPlot.yRight, QwtPlot.xBottom, QwtPlot.xTop].foldl (axisPass d rect)
    (titlePass d rect (s, true))

/-- The loop `while ( !done )` of `expandLineBreaks`, for at most `fuel` passes: `none`
when the loop has not ended by then. -/
def expandLoop (d : PrivateData) (rect : QRectF) : ℕ → Dimensions → Option Dimensions
  | 0, _ => none
  | fuel + 1, s =>
    let r := pass d rect s
    if r.2 then some r.1 else expandLoop d rect fuel r.1

/-- The function `QwtPlotLayout::expandLineBreaks`, for at most `fuel` passes. -/
def expandLineBreaks (d : PrivateData) (rect : QRectF) (fuel : ℕ) : Option Dimensions :=
  expandLoop d rect fuel ⟨0, fun _ => 0⟩

/-- The function `QwtPlotLayout::alignLegend`. -/
def alignLegend (d : PrivateData) (canvasRect legendRect : QRectF) : QRectF :=
  if d.legendPos = LegendPosition.BottomLegend ∨ d.legendPos = LegendPosition.TopLegend then
    if (d.layoutData.legend.hint.width : ℚ) < canvasRect.width then
      (legendRect.setX canvasRect.x).setWidth canvasRect.width
    else legendRect
  else
    if (d.layoutData.legend.hint.height : ℚ) < canvasRect.height then
      (legendRect.setY canvasRect.y).setHeight canvasRect.height
    else legendRect

/-- The first part of `activate`: `invalidate()`, the harvest of the layout data, and, for
a plot with a legend that is not empty and not external, the legend rectangle and the
rectangle left beside it.  The result is the layout and the rectangle `rect`, the
undistributed rest of the plot rectangle.  `subtract rect legendRect` stands for
`QRegion( rect.toRect() ).subtract( legendRect.toRect() ).boundingRect()`. -/
def legendStep (subtract : QRectF → QRectF → QRectF) (d : PrivateData) (plot : QwtPlot)
    (plotRect : QRectF) : PrivateData × QRectF :=
  let d := invalidate d
  let rect := plotRect
  let d := { d with layoutData := d.layoutData.init plot d.legendPos rect }
  match plot.legend with
  | some legend =>
    if d.legendPos ≠ LegendPosition.ExternalLegend ∧ legend.isEmpty = false then
      let d := { d with legendRect := layoutLegend d rect }
      let rect := subtract rect d.legendRect
      let rect :=
        match d.legendPos with
        | .LeftLegend => rect.setLeft (rect.left + (d.spacing : ℚ))
        | .RightLegend => rect.setRight (rect.right - (d.spacing : ℚ))
        | .TopLegend => rect.setTop (rect.top + (d.spacing : ℚ))
        | .BottomLegend => rect.setBottom (rect.bottom - (d.spacing : ℚ))
        | .ExternalLegend => rect
      (d, rect)
    else (d, rect)
  | none => (d, rect)

/-- The title rectangle that `activate` sets for `dimTitle > 0`:
`QRect( rect.x(), rect.y(), rect.width(), dimTitle )`, centred to the canvas when just
one of the two vertical axes is enabled. -/
def titleRectFor (d : PrivateData) (rect : QRectF) (dims : Dimensions) : QRectF :=
  let titleRect := (QRect.ofSize (toInt rect.x) (toInt rect.y) (toInt rect.width)
    dims.dimTitle).toRectF
  if (d.layoutData.scale QwtPlot.yLeft).isEnabled
      != (d.layoutData.scale QwtPlot.yRight).isEnabled then
    (titleRect.setX (rect.x + dims.dimAxis QwtPlot.yLeft)).setWidth
      (rect.width - dims.dimAxis QwtPlot.yLeft - dims.dimAxis QwtPlot.yRight)
  else titleRect

/-- The rectangle `rect` of `activate` after the title has been subtracted. -/
def titleSubtracted (d : PrivateData) (rect : QRectF) (dims : Dimensions) : QRectF :=
  if dims.dimTitle > 0 then rect.setTop (rect.top + dims.dimTitle + (d.spacing : ℚ))
  else rect

/-- The canvas rectangle of `activate`, from the rectangle left after the title. -/
def canvasRectFor (rect : QRectF) (dims : Dimensions) : QRectF :=
  ⟨rect.x + dims.dimAxis QwtPlot.yLeft, rect.y + dims.dimAxis QwtPlot.xTop,
    rect.width - dims.dimAxis QwtPlot.yRight - dims.dimAxis QwtPlot.yLeft,
    rect.height - dims.dimAxis QwtPlot.xBottom - dims.dimAxis QwtPlot.xTop⟩

/-- The body of the loop of `activate` that sets the rectangle of one axis. -/
def scaleRectFor (canvasRect : QRectF) (fw : ℤ) (dims : Dimensions) (scaleRect : QRectF)
    (axis : Fin 4) : QRectF :=
  if dims.dimAxis axis ≠ 0 then
    let dim := dims.dimAxis axis
    let scaleRect :=
      if axis = QwtPlot.yLeft then
        (scaleRect.setX (canvasRect.left - dim)).setWidth dim
      else if axis = QwtPlot.yRight then
        (scaleRect.setX canvasRect.right).setWidth dim
      else if axis = QwtPlot.xBottom then
        (scaleRect.setY canvasRect.bottom).setHeight dim
      else
        (scaleRect.setY (canvasRect.top - dim)).setHeight dim
    if axis = QwtPlot.xTop ∨ axis = QwtPlot.xBottom then
      (scaleRect.setLeft (canvasRect.left + fw)).setRight (canvasRect.right - fw - 1)
    else
      (scaleRect.setTop (canvasRect.top + fw)).setBottom (canvasRect.bottom - fw - 1)
  else scaleRect

/-- The last part of `activate`, after `expandLineBreaks`: the title, the canvas and
the axes get their rectangles, and a legend rectangle that is not empty is aligned to
the canvas. -/
def finish (d : PrivateData) (rect : QRectF) (dims : Dimensions) : PrivateData :=
  let d := if dims.dimTitle > 0 then { d with titleRect := titleRectFor d rect dims } else d
  let rect := titleSubtracted d rect dims
  let d := { d with canvasRect := canvasRectFor rect dims }
  let fw := d.layoutData.canvas.frameWidth
  let d := { d with
    scaleRect := fun axis => scaleRectFor d.canvasRect fw dims (d.scaleRect axis) axis }
  if !d.legendRect.isEmpty then
    { d with legendRect := alignLegend d d.canvasRect d.legendRect }
  else d

/-- The function `QwtPlotLayout::activate`, with at most `fuel` passes of the loop of
`expandLineBreaks`: `none` when that loop has not ended by then. -/
def activate (subtract : QRectF → QRectF → QRectF) (fuel : ℕ) (d : PrivateData)
    (plot : QwtPlot) (plotRect : QRectF) : Option PrivateData :=
  let p := legendStep subtract d plot plotRect
  (expandLineBreaks p.1 p.2 fuel).map (finish p.1 p.2)

end QwtPlotLayout

/-! ## Predicates and instances used in the statements about the layout -/

namespace QwtPlotLayout

/-- The sum of the five dimensions. -/
def Dimensions.total (s : Dimensions) : ℤ :=
  s.dimTitle + s.dimAxis 0 + s.dimAxis 1 + s.dimAxis 2 + s.dimAxis 3

/-- No dimension of `s` is larger than the same dimension of `t`. -/
def Dimensions.le (s t : Dimensions) : Prop :=
  s.dimTitle ≤ t.dimTitle ∧ ∀ axis, s.dimAxis axis ≤ t.dimAxis axis

/-- The heights that the collaborators of the layout data report are at most `B`: the
height of a title that is not empty, and the title heights of the scale widgets of the
enabled axes, for every width. -/
def LayoutData.HeightsBounded (data : LayoutData) (B : ℤ) : Prop :=
  (data.title.text.isEmpty = false → ∀ w, data.title.text.heightForWidth w ≤ B)
    ∧ ∀ axis, (data.scale axis).isEnabled = true →
        ∀ w, (data.scale axis).scaleWidget.titleHeightForWidth w ≤ B

/-- The dimensions that no pass of `expandLineBreaks` exceeds when the heights reported
by the collaborators are at most `B`. -/
def dimensionsCap (d : PrivateData) (B : ℤ) : Dimensions :=
  ⟨max 0 (B + 2 * d.layoutData.title.frameWidth),
    fun axis => max 0 ((d.layoutData.scale axis).dimWithoutTitle + max 0 B)⟩

/-- The relation between the state of a pass of `expandLineBreaks` before and after one
of its blocks: no dimension has become smaller, and either nothing has changed or the
flag `done` is `false` and the sum of the dimensions has grown. -/
def Grows (s t : Dimensions × Bool) : Prop :=
  s.1.le t.1 ∧ (t = s ∨ (t.2 = false ∧ s.1.total < t.1.total))

end QwtPlotLayout

/-- The heights that the collaborators of the plot report are at most `B`: the height of
the title, and the title heights of the four scale widgets, for every width. -/
def QwtPlot.HeightsBounded (plot : QwtPlot) (B : ℤ) : Prop :=
  (∀ label, plot.titleLabel = some label → ∀ w, label.text.heightForWidth w ≤ B)
    ∧ ∀ axis w, (plot.axisWidget axis).titleHeightForWidth w ≤ B

/-- A title text for examples: one line of height `20` from the width `300` on, two
lines of height `40` below. -/
def wrappingText : QwtText := ⟨false, fun w => if w < 300 then 40 else 20⟩

/-- A scale widget for examples: margin `2`, ticks of length `8`, a dimension of `50`
for every length, and a title of height `15` from the width `200` on and `30` below. -/
def titledScaleWidget : QwtScaleWidget :=
  ⟨2, 8, fun _ => 50, false, fun w => if w < 200 then 30 else 15⟩

/-- A plot for examples: the legend `wideLegend`, a title label with the text
`wrappingText` and the frame width `1`, the axes `yLeft` and `xBottom` enabled, the scale
widget `titledScaleWidget` for every axis, and a canvas of frame width `2`. -/
def examplePlot : QwtPlot :=
  ⟨some wideLegend, some ⟨wrappingText, 1⟩,
    fun axis => decide (axis = QwtPlot.yLeft ∨ axis = QwtPlot.xBottom),
    fun _ => titledScaleWidget, 2⟩

/-- Layout data for examples, as harvested from `examplePlot`: the legend hint
`400 x 200` with scroll bar sizes `16`, the title `wrappingText` with frame width `1`,
the axes `yLeft` and `xBottom` enabled with base line offset `2`, tick offset `10` and
dimension without title `35`, and the canvas frame width `2`. -/
def exampleLayoutData : QwtPlotLayout.LayoutData :=
  ⟨⟨16, 16, ⟨400, 200⟩⟩, ⟨wrappingText, 1⟩,
    fun axis =>
      if axis = QwtPlot.yLeft ∨ axis = QwtPlot.xBottom then ⟨titledScaleWidget, 2, 10, 35, true⟩
      else ⟨titledScaleWidget, 0, 0, 0, false⟩,
    ⟨2⟩⟩

/-- A plot for examples: no legend, no title label, only the axis `yLeft` enabled, the
scale widget `plainScaleWidget` for every axis, and a canvas whose frame width is `-1`,
as after `QwtPlot::setCanvasLineWidth( -1 )`. -/
def negativeFramePlot : QwtPlot :=
  ⟨none, none, fun axis => decide (axis = QwtPlot.yLeft), fun _ => plainScaleWidget, -1⟩

namespace QwtPlotLayout

/-- Two layouts agree in everything that the parts of `activate` after the harvest
read: the configuration, the output rectangles, the title and canvas data, the data of
the axes (the scale widget only for an enabled axis), and the legend data when the
legend rectangle is not empty. -/
def SameInputs (p q : PrivateData) : Prop :=
  p.legendPos = q.legendPos ∧ p.legendRatio = q.legendRatio ∧ p.spacing = q.spacing
    ∧ p.titleRect = q.titleRect ∧ p.legendRect = q.legendRect
    ∧ p.canvasRect = q.canvasRect ∧ p.scaleRect = q.scaleRect
    ∧ p.layoutData.title = q.layoutData.title
    ∧ p.layoutData.canvas = q.layoutData.canvas
    ∧ (∀ axis, (p.layoutData.scale axis).isEnabled = (q.layoutData.scale axis).isEnabled
        ∧ (p.layoutData.scale axis).baseLineOffset = (q.layoutData.scale axis).baseLineOffset
        ∧ (p.layoutData.scale axis).tickOffset = (q.layoutData.scale axis).tickOffset
        ∧ (p.layoutData.scale axis).dimWithoutTitle
            = (q.layoutData.scale axis).dimWithoutTitle
        ∧ ((p.layoutData.scale axis).isEnabled = true →
            (p.layoutData.scale axis).scaleWidget = (q.layoutData.scale axis).scaleWidget))
    ∧ (p.legendRect.isEmpty = false → p.layoutData.legend = q.layoutData.legend)

end QwtPlotLayout

/-- A layout for examples that has been used before: output rectangles and layout data
of an earlier activation, the legend at the bottom with the ratio `0.33`, and the
spacing `5`. -/
def usedLayout : QwtPlotLayout.PrivateData :=
  ⟨⟨1, 2, 3, 4⟩, ⟨5, 6, 7, 8⟩, fun _ => ⟨9, 10, 11, 12⟩, ⟨13, 14, 15, 16⟩, exampleLayoutData,
    LegendPosition.BottomLegend, 33 / 100, 5⟩

/-! ## Theorems -/

open QwtScaleEngine

theorem normalized_swap (a b : ℚ) :
    (QwtInterval.mk a b).normalized = (QwtInterval.mk b a).normalized := by
  unfold QwtInterval.normalized QwtInterval.inverted
  rcases lt_trichotomy a b with h | h | h
  · simp [h, not_lt.mpr h.le]
  · subst h; simp
  · simp [h, not_lt.mpr h.le]

theorem strip_length_le (ticks : List ℚ) (interval : QwtInterval) :
    (strip ticks interval).length ≤ ticks.length := by
  unfold strip
  split
  · simp
  · split
    · split
      · exact le_rfl
      · exact List.length_filter_le _ _
    · simp

theorem snapZero_length (s : ℚ) (l : List ℚ) : (snapZero s l).length = l.length := by
  simp [snapZero]

theorem linear_buildMajorTicks_length (i : QwtInterval) (s : ℚ) :
    (QwtLinearScaleEngine.buildMajorTicks i s).length ≤ 10000 := by
  have h : QwtLinearScaleEngine.majorNumTicks i s ≤ 10000 := by
    unfold QwtLinearScaleEngine.majorNumTicks
    simp only
    split <;> omega
  unfold QwtLinearScaleEngine.buildMajorTicks
  rw [List.length_append, List.length_append, List.length_map, List.length_range]
  simp only [List.length_singleton]
  omega

theorem log_buildMajorTicks_length (M : Libm) (i : QwtInterval) (s : ℚ) :
    (QwtLog10ScaleEngine.buildMajorTicks M i s).length ≤ 10000 := by
  have h : QwtLog10ScaleEngine.majorNumTicks M i s ≤ 10000 := by
    unfold QwtLog10ScaleEngine.majorNumTicks
    simp only
    split <;> omega
  unfold QwtLog10ScaleEngine.buildMajorTicks
  rw [List.length_append, List.length_append, List.length_map, List.length_range]
  simp only [List.length_singleton]
  omega

theorem linear_scaleDivFor_major_length (i : QwtInterval) (s : ℚ) (maxMin : ℤ) :
    (QwtLinearScaleEngine.scaleDivFor i s maxMin).majorTicks.length ≤ 10000 := by
  unfold QwtLinearScaleEngine.scaleDivFor
  split
  · simp only [QwtLinearScaleEngine.buildTicks, QwtScaleDiv.ofTicks, snapZero_length]
    exact le_trans (strip_length_le _ _) (linear_buildMajorTicks_length _ _)
  · simp [QwtScaleDiv.empty]

theorem log_scaleDivFor_major_length (M : Libm) (i : QwtInterval) (s : ℚ) (maxMin : ℤ) :
    (QwtLog10ScaleEngine.scaleDivFor M i s maxMin).majorTicks.length ≤ 10000 := by
  unfold QwtLog10ScaleEngine.scaleDivFor
  split
  · simp only [QwtLog10ScaleEngine.buildTicks, QwtScaleDiv.ofTicks]
    exact le_trans (strip_length_le _ _) (log_buildMajorTicks_length _ _ _)
  · simp [QwtScaleDiv.empty]

theorem linear_major_length (x1 x2 : ℚ) (maxMaj maxMin : ℤ) (step : ℚ) :
    (QwtLinearScaleEngine.divideScale x1 x2 maxMaj maxMin step).majorTicks.length ≤ 10000 := by
  unfold QwtLinearScaleEngine.divideScale
  simp only
  split
  · simp [QwtScaleDiv.empty]
  · split
    · exact linear_scaleDivFor_major_length _ _ _
    · exact linear_scaleDivFor_major_length _ _ _

/-- C1: `QwtLinearScaleEngine::divideScale(0.0, 100.0, 5, 3, 0.0)` has lower bound 0,
upper bound 100 and major ticks exactly `[0, 20, 40, 60, 80, 100]`; the step size
that `divideInterval` (through `ceil125`) chooses for width 100 and 5 steps is 20. -/
theorem C1_linear_divideScale_0_100 :
    (QwtLinearScaleEngine.divideScale 0 100 5 3 0).lowerBound = 0
      ∧ (QwtLinearScaleEngine.divideScale 0 100 5 3 0).upperBound = 100
      ∧ (QwtLinearScaleEngine.divideScale 0 100 5 3 0).majorTicks = [0, 20, 40, 60, 80, 100]
      ∧ QwtScaleEngine.divideInterval 100 5 = 20 := by
  decide!

/-- C7: the major tick list returned by `divideScale` of either engine has at most
10000 elements, whatever the arguments are. -/
theorem C7_major_ticks_capped (M : Libm) (x1 x2 : ℚ) (maxMajSteps maxMinSteps : ℤ)
    (stepSize : ℚ) :
    (QwtLinearScaleEngine.divideScale x1 x2 maxMajSteps maxMinSteps stepSize).majorTicks.length
        ≤ 10000
      ∧ (QwtLog10ScaleEngine.divideScale M x1 x2 maxMajSteps maxMinSteps
          stepSize).majorTicks.length ≤ 10000 := by
  refine ⟨linear_major_length _ _ _ _ _, ?_⟩
  unfold QwtLog10ScaleEngine.divideScale
  simp only
  split
  · simp [QwtScaleDiv.empty]
  · split
    · exact linear_major_length _ _ _ _ _
    · split
      · exact log_scaleDivFor_major_length _ _ _ _
      · exact log_scaleDivFor_major_length _ _ _ _

theorem width_nonneg (i : QwtInterval) : 0 ≤ i.width := by
  unfold QwtInterval.width QwtInterval.isValid
  split
  · rename_i h
    have := of_decide_eq_true h
    linarith
  · exact le_rfl

theorem invert_empty : QwtScaleDiv.empty.invert = QwtScaleDiv.empty := rfl

theorem mirrors_invert_right (d : QwtScaleDiv) : d.Mirrors d.invert := by
  simp [QwtScaleDiv.Mirrors, QwtScaleDiv.invert]

theorem mirrors_invert_left (d : QwtScaleDiv) : d.invert.Mirrors d := by
  simp [QwtScaleDiv.Mirrors, QwtScaleDiv.invert]

theorem mirrors_empty : QwtScaleDiv.empty.Mirrors QwtScaleDiv.empty := by
  simp [QwtScaleDiv.Mirrors, QwtScaleDiv.empty]

theorem normalized_width_le_zero_iff (x1 x2 : ℚ) :
    (QwtInterval.mk x1 x2).normalized.width ≤ 0 ↔ x1 = x2 := by
  unfold QwtInterval.normalized QwtInterval.inverted QwtInterval.width QwtInterval.isValid
  rcases lt_trichotomy x1 x2 with h | h | h
  · simp [not_lt.mpr h.le, h.le, h.ne]
    linarith
  · subst h; simp
  · simp [h, h.le, h.ne']

theorem linear_divideScale_swap (a b : ℚ) (h : a < b) (maxMaj maxMin : ℤ) (step : ℚ) :
    QwtLinearScaleEngine.divideScale b a maxMaj maxMin step
      = (QwtLinearScaleEngine.divideScale a b maxMaj maxMin step).invert := by
  unfold QwtLinearScaleEngine.divideScale
  simp only [normalized_swap b a, gt_iff_lt, h, not_lt.mpr h.le, if_true, if_false]
  split
  · rfl
  · rfl

theorem linear_divideScale_same (a : ℚ) (maxMaj maxMin : ℤ) (step : ℚ) :
    QwtLinearScaleEngine.divideScale a a maxMaj maxMin step = QwtScaleDiv.empty := by
  unfold QwtLinearScaleEngine.divideScale
  simp only [(normalized_width_le_zero_iff a a).mpr rfl, if_true]

theorem linear_mirrors (a b : ℚ) (maxMaj maxMin : ℤ) (step : ℚ) :
    (QwtLinearScaleEngine.divideScale a b maxMaj maxMin step).Mirrors
      (QwtLinearScaleEngine.divideScale b a maxMaj maxMin step) := by
  rcases lt_trichotomy a b with h | h | h
  · rw [linear_divideScale_swap a b h]; exact mirrors_invert_right _
  · subst h; rw [linear_divideScale_same]; exact mirrors_empty
  · rw [linear_divideScale_swap b a h]; exact mirrors_invert_left _

theorem clamped_swap (a b : ℚ) :
    QwtLog10ScaleEngine.clamped a b = QwtLog10ScaleEngine.clamped b a := by
  unfold QwtLog10ScaleEngine.clamped
  rw [normalized_swap]

theorem limited_width_of_width_le_zero (i : QwtInterval) (lo hi : ℚ) (h : i.width ≤ 0) :
    (i.limited lo hi).width ≤ 0 := by
  unfold QwtInterval.limited
  split
  · simp [QwtInterval.invalid, QwtInterval.width, QwtInterval.isValid]
    norm_num
  · rename_i hv
    simp only [Bool.or_eq_true, Bool.not_eq_true', decide_eq_true_eq, not_or, Bool.not_eq_false,
      not_lt] at hv
    have hv1 : i.minValue ≤ i.maxValue := by
      have := hv.1
      simpa [QwtInterval.isValid] using this
    have hw : i.maxValue - i.minValue ≤ 0 := by
      simpa [QwtInterval.width, QwtInterval.isValid, hv1] using h
    have heq : i.minValue = i.maxValue := le_antisymm hv1 (by linarith)
    simp [QwtInterval.width, QwtInterval.isValid, heq]

theorem log_divideScale_swap (M : Libm) (a b : ℚ) (h : a < b) (maxMaj maxMin : ℤ)
    (step : ℚ) :
    QwtLog10ScaleEngine.divideScale M b a maxMaj maxMin step
      = (QwtLog10ScaleEngine.divideScale M a b maxMaj maxMin step).invert := by
  unfold QwtLog10ScaleEngine.divideScale
  simp only [clamped_swap b a, gt_iff_lt, h, not_lt.mpr h.le, if_true, if_false]
  split
  · rfl
  · split
    · exact linear_divideScale_swap a b h _ _ _
    · rfl

theorem log_divideScale_same (M : Libm) (a : ℚ) (maxMaj maxMin : ℤ) (step : ℚ) :
    QwtLog10ScaleEngine.divideScale M a a maxMaj maxMin step = QwtScaleDiv.empty := by
  unfold QwtLog10ScaleEngine.divideScale
  have : (QwtLog10ScaleEngine.clamped a a).width ≤ 0 :=
    limited_width_of_width_le_zero _ _ _ ((normalized_width_le_zero_iff a a).mpr rfl)
  simp only [this, if_true]

/-- C5: for both engines, the bounds of `divideScale(a, b, ...)` are the swapped
bounds of `divideScale(b, a, ...)`, and each tick type holds the same set of values
in both results. -/
theorem C5_inversion_law (M : Libm) (a b : ℚ) (maxMajSteps maxMinSteps : ℤ) (stepSize : ℚ) :
    (QwtLinearScaleEngine.divideScale a b maxMajSteps maxMinSteps stepSize).Mirrors
        (QwtLinearScaleEngine.divideScale b a maxMajSteps maxMinSteps stepSize)
      ∧ (QwtLog10ScaleEngine.divideScale M a b maxMajSteps maxMinSteps stepSize).Mirrors
        (QwtLog10ScaleEngine.divideScale M b a maxMajSteps maxMinSteps stepSize) := by
  refine ⟨linear_mirrors _ _ _ _ _, ?_⟩
  rcases lt_trichotomy a b with h | h | h
  · rw [log_divideScale_swap M a b h]; exact mirrors_invert_right _
  · subst h; rw [log_divideScale_same]; exact mirrors_empty
  · rw [log_divideScale_swap M b a h]; exact mirrors_invert_left _

/-- C6: when the normalized interval has width `<= 0` (in particular `x1 == x2`),
both engines return the default-constructed scale division, and so does the log10
engine whenever the interval limited to `[LOG_MIN, LOG_MAX]` has width `<= 0`; that
scale division is invalid and has no ticks of any type. -/
theorem C6_degenerate_interval_gives_empty (M : Libm) (x1 x2 : ℚ)
    (maxMajSteps maxMinSteps : ℤ) (stepSize : ℚ)
    (h : (QwtInterval.mk x1 x2).normalized.width ≤ 0
      ∨ (QwtLog10ScaleEngine.clamped x1 x2).width ≤ 0) :
    ((QwtInterval.mk x1 x2).normalized.width ≤ 0 →
        QwtLinearScaleEngine.divideScale x1 x2 maxMajSteps maxMinSteps stepSize
          = QwtScaleDiv.empty)
      ∧ QwtLog10ScaleEngine.divideScale M x1 x2 maxMajSteps maxMinSteps stepSize
          = QwtScaleDiv.empty
      ∧ QwtScaleDiv.empty.isValid = false
      ∧ QwtScaleDiv.empty.minorTicks = [] ∧ QwtScaleDiv.empty.mediumTicks = []
      ∧ QwtScaleDiv.empty.majorTicks = [] := by
  refine ⟨?_, ?_, rfl, rfl, rfl, rfl⟩
  · intro hw
    unfold QwtLinearScaleEngine.divideScale
    simp only [hw, if_true]
  · have hc : (QwtLog10ScaleEngine.clamped x1 x2).width ≤ 0 := by
      rcases h with h | h
      · exact limited_width_of_width_le_zero _ _ _ h
      · exact h
    unfold QwtLog10ScaleEngine.divideScale
    simp only [hc, if_true]

/-- Witness for C6: `x1 = x2 = 5` for the linear engine and the log10 engine, with a
step size and step counts that are not zero. -/
theorem C6_degenerate_interval_gives_empty_witness :
    QwtLinearScaleEngine.divideScale 5 5 4 3 2 = QwtScaleDiv.empty
      ∧ QwtLog10ScaleEngine.divideScale decadeLibm 5 5 4 3 2 = QwtScaleDiv.empty :=
  have h : (QwtInterval.mk 5 5).normalized.width ≤ 0 := by decide!
  ⟨(C6_degenerate_interval_gives_empty decadeLibm 5 5 4 3 2 (Or.inl h)).1 h,
    (C6_degenerate_interval_gives_empty decadeLibm 5 5 4 3 2 (Or.inl h)).2.1⟩

/-- C2: `QwtLog10ScaleEngine::divideScale(1.0, 1000.0, 5, 0, 0.0)` has major ticks
exactly `[1, 10, 100, 1000]` and no minor or medium ticks, for every C library whose
`log10` and `pow10` are exact at the two limits and whose `exp` of the two inner
interpolation points `log 1 + i * (log 1000 - log 1) / 3` is `10` and `100`. -/
theorem C2_log10_divideScale_1_1000 (M : Libm)
    (hl1 : M.log10 1 = 0) (hl1000 : M.log10 1000 = 3)
    (hp0 : M.pow10 0 = 1) (hp3 : M.pow10 3 = 1000)
    (he1 : M.exp (M.log 1 + 1 * ((M.log 1000 - M.log 1) / 3)) = 10)
    (he2 : M.exp (M.log 1 + 2 * ((M.log 1000 - M.log 1) / 3)) = 100) :
    (QwtLog10ScaleEngine.divideScale M 1 1000 5 0 0).majorTicks = [1, 10, 100, 1000]
      ∧ (QwtLog10ScaleEngine.divideScale M 1 1000 5 0 0).minorTicks = []
      ∧ (QwtLog10ScaleEngine.divideScale M 1 1000 5 0 0).mediumTicks = []
      ∧ QwtLog10ScaleEngine.usedStepSize M (QwtLog10ScaleEngine.clamped 1 1000) 5 0 = 1 := by
  have hc : QwtLog10ScaleEngine.clamped 1 1000 = ⟨1, 1000⟩ := by decide!
  have hlog : QwtLog10ScaleEngine.log10 M ⟨1, 1000⟩ = ⟨0, 3⟩ := by
    simp only [QwtLog10ScaleEngine.log10, hl1, hl1000]
  have hw3 : (QwtInterval.mk 0 3).width = 3 := by decide!
  have hstep : QwtLog10ScaleEngine.usedStepSize M ⟨1, 1000⟩ 5 0 = 1 := by
    have d1 : divideInterval 3 (if (5 : ℤ) < 1 then 1 else 5) = 1 := by decide!
    simp only [QwtLog10ScaleEngine.usedStepSize, hlog, hw3, abs_zero, if_true, d1]
    norm_num
  have hal : QwtLog10ScaleEngine.align M ⟨1, 1000⟩ 1 = ⟨1, 1000⟩ := by
    have a1 : QwtScaleArithmetic.floorEps 0 1 = 0 := by decide!
    have a2 : QwtScaleArithmetic.ceilEps 3 1 = 3 := by decide!
    have c1 : qwtFuzzyCompare 1 0 1 = 1 := by decide!
    have c2 : qwtFuzzyCompare 1000 3 1 = 1 := by decide!
    simp [QwtLog10ScaleEngine.align, hlog, QwtLog10ScaleEngine.pow10, a1, a2, c1, c2, hp0, hp3]
  have hn : QwtLog10ScaleEngine.majorNumTicks M ⟨1, 1000⟩ 1 = 4 := by
    have q : (if qRound ((3 : ℚ) / 1) + 1 > 10000 then 10000 else qRound ((3 : ℚ) / 1) + 1)
        = 4 := by decide!
    simp only [QwtLog10ScaleEngine.majorNumTicks, hlog, hw3, q]
  have hmaj : QwtLog10ScaleEngine.buildMajorTicks M ⟨1, 1000⟩ 1 = [1, 10, 100, 1000] := by
    have e1 : M.exp (M.log 1 + (M.log 1000 - M.log 1) / 3) = 10 := by
      rw [← he1, one_mul]
    have t2 : Int.toNat 2 = 2 := rfl
    simp only [QwtLog10ScaleEngine.buildMajorTicks, hn]
    norm_num [t2, List.range_succ, e1, he2]
  have hs1 : strip [1, 10, 100, 1000] ⟨1, 1000⟩ = [1, 10, 100, 1000] := by decide!
  have hs2 : strip [] ⟨1, 1000⟩ = [] := by decide!
  have hbt : QwtLog10ScaleEngine.buildTicks M ⟨1, 1000⟩ 1 0
      = ([], [], [1, 10, 100, 1000]) := by
    simp only [QwtLog10ScaleEngine.buildTicks, hal, hmaj, hs1, hs2, gt_iff_lt, lt_irrefl,
      if_false]
  have hd : QwtLog10ScaleEngine.divideScale M 1 1000 5 0 0
      = ⟨1, 1000, [], [], [1, 10, 100, 1000], true⟩ := by
    have w : ¬ (QwtInterval.mk 1 1000).width ≤ 0 := by decide!
    have r : ¬ ((1000 : ℚ) / 1 < 10) := by norm_num
    have g : ¬ ((1 : ℚ) > 1000) := by norm_num
    simp only [QwtLog10ScaleEngine.divideScale, hc, w, r, g, if_false, hstep,
      QwtLog10ScaleEngine.scaleDivFor, hbt, QwtScaleDiv.ofTicks, ne_eq, one_ne_zero,
      not_false_eq_true, if_true]
  rw [hd, hc]
  exact ⟨rfl, rfl, rfl, hstep⟩

/-- Witness for C2: the instance `decadeLibm`, exact on whole decades, satisfies the
hypotheses. -/
theorem C2_log10_divideScale_1_1000_witness :
    (QwtLog10ScaleEngine.divideScale decadeLibm 1 1000 5 0 0).majorTicks = [1, 10, 100, 1000]
      ∧ (QwtLog10ScaleEngine.divideScale decadeLibm 1 1000 5 0 0).minorTicks = []
      ∧ (QwtLog10ScaleEngine.divideScale decadeLibm 1 1000 5 0 0).mediumTicks = []
      ∧ QwtLog10ScaleEngine.usedStepSize decadeLibm (QwtLog10ScaleEngine.clamped 1 1000) 5 0
          = 1 :=
  C2_log10_divideScale_1_1000 decadeLibm (by decide!) (by decide!) (by decide!) (by decide!)
    (by decide!) (by decide!)

/-! ### The fuzzy comparison and `contains` -/

theorem fuzzy_eq_zero_iff (v1 v2 sz : ℚ) :
    qwtFuzzyCompare v1 v2 sz = 0 ↔ |v1 - v2| ≤ |(1 / 1000000 : ℚ) * sz| := by
  unfold qwtFuzzyCompare
  simp only
  rw [abs_le (a := v1 - v2)]
  split
  · rename_i h
    constructor
    · intro h0; norm_num at h0
    · rintro ⟨h1, _⟩; linarith
  · split
    · rename_i h1 h2
      constructor
      · intro h0; norm_num at h0
      · rintro ⟨_, h3⟩; linarith
    · rename_i h1 h2
      simp only [true_iff]
      constructor <;> linarith

theorem fuzzy_neg_iff (v1 v2 sz : ℚ) :
    qwtFuzzyCompare v1 v2 sz < 0 ↔ |(1 / 1000000 : ℚ) * sz| < v2 - v1 := by
  unfold qwtFuzzyCompare
  simp only
  split
  · rename_i h
    exact ⟨fun _ => h, fun _ => by norm_num⟩
  · split
    · rename_i h1 h2
      exact ⟨fun h0 => absurd h0 (by norm_num), fun h3 => absurd h3 h1⟩
    · rename_i h1 h2
      exact ⟨fun h0 => absurd h0 (by norm_num), fun h3 => absurd h3 h1⟩

theorem fuzzy_pos_iff (v1 v2 sz : ℚ) :
    qwtFuzzyCompare v1 v2 sz > 0 ↔ |(1 / 1000000 : ℚ) * sz| < v1 - v2 := by
  unfold qwtFuzzyCompare
  simp only
  have hn := abs_nonneg ((1 / 1000000 : ℚ) * sz)
  split
  · rename_i h
    simp only [gt_iff_lt] at h
    exact ⟨fun h0 => absurd h0 (by norm_num), fun h1 => by linarith⟩
  · split
    · rename_i h1 h2
      exact ⟨fun _ => h2, fun _ => by norm_num⟩
    · rename_i h1 h2
      exact ⟨fun h0 => absurd h0 (by norm_num), fun h3 => absurd h3 h2⟩

theorem contains_iff (I : QwtInterval) (t : ℚ) :
    contains I t = true ↔
      I.minValue ≤ I.maxValue
        ∧ I.minValue - (1 / 1000000 : ℚ) * (I.maxValue - I.minValue) ≤ t
        ∧ t ≤ I.maxValue + (1 / 1000000 : ℚ) * (I.maxValue - I.minValue) := by
  unfold contains
  by_cases hv : I.minValue ≤ I.maxValue
  · have hval : I.isValid = true := by simp [QwtInterval.isValid, hv]
    have hw : I.width = I.maxValue - I.minValue := by simp [QwtInterval.width, hval]
    have habs : |(1 / 1000000 : ℚ) * (I.maxValue - I.minValue)|
        = (1 / 1000000 : ℚ) * (I.maxValue - I.minValue) :=
      abs_of_nonneg (mul_nonneg (by norm_num) (by linarith))
    simp only [hval, Bool.not_true, Bool.false_eq_true, if_false, fuzzy_neg_iff, fuzzy_pos_iff,
      hw, habs, hv, true_and]
    split
    · rename_i h; simp only [Bool.false_eq_true, false_iff, not_and]; intro h1; linarith
    · split
      · rename_i h1 h2; simp only [Bool.false_eq_true, false_iff, not_and]; intro _; linarith
      · rename_i h1 h2; simp only [true_iff]; constructor <;> linarith
  · have hval : I.isValid = false := by simp [QwtInterval.isValid, hv]
    simp [hval, hv]

/-! ### `ceil125` and the step size -/

theorem ceil125_pos (x : ℚ) (hx : 0 < x) : 0 < QwtScaleArithmetic.ceil125 x := by
  unfold QwtScaleArithmetic.ceil125
  simp only [hx.ne', if_false, gt_iff_lt, hx, if_true, one_mul]
  have hp : (0 : ℚ) < (10 : ℚ) ^ Int.log 10 |x| := zpow_pos (by norm_num) _
  apply mul_pos _ hp
  split
  · norm_num
  · split
    · norm_num
    · split <;> norm_num

theorem le_ceil125 (x : ℚ) (hx : 0 < x) : x ≤ QwtScaleArithmetic.ceil125 x := by
  unfold QwtScaleArithmetic.ceil125
  simp only [hx.ne', if_false, gt_iff_lt, hx, if_true, one_mul, abs_of_pos hx]
  have hp : (0 : ℚ) < (10 : ℚ) ^ Int.log 10 x := zpow_pos (by norm_num) _
  have hlt : x < (10 : ℚ) ^ (Int.log 10 x + 1) := Int.lt_zpow_succ_log_self (by norm_num) x
  have hfr : x / (10 : ℚ) ^ Int.log 10 x < 10 := by
    rw [div_lt_iff₀ hp]
    rw [zpow_add_one₀ (by norm_num)] at hlt
    linarith
  have hx' : x / (10 : ℚ) ^ Int.log 10 x * (10 : ℚ) ^ Int.log 10 x = x :=
    div_mul_cancel₀ x hp.ne'
  calc x = x / (10 : ℚ) ^ Int.log 10 x * (10 : ℚ) ^ Int.log 10 x := hx'.symm
    _ ≤ _ := by
      apply mul_le_mul_of_nonneg_right _ hp.le
      split
      · assumption
      · split
        · assumption
        · split
          · assumption
          · exact hfr.le

theorem divideInterval_pos (w : ℚ) (n : ℤ) (hw : 0 < w) (hn : 0 < n) :
    0 < divideInterval w n := by
  unfold divideInterval QwtScaleArithmetic.divideEps
  have hn' : (0 : ℚ) < (n : ℚ) := by exact_mod_cast hn
  simp only [not_le.mpr hn, if_false, hn'.ne', hw.ne', or_self]
  apply ceil125_pos
  apply div_pos _ hn'
  have : _eps = (1 / 1000000 : ℚ) := rfl
  rw [this]
  linarith

theorem le_divideInterval (w : ℚ) (n : ℤ) (hw : 0 < w) (hn : 0 < n) :
    (w - (1 / 1000000 : ℚ) * w) / (n : ℚ) ≤ divideInterval w n := by
  unfold divideInterval QwtScaleArithmetic.divideEps
  have hn' : (0 : ℚ) < (n : ℚ) := by exact_mod_cast hn
  simp only [not_le.mpr hn, if_false, hn'.ne', hw.ne', or_self]
  apply le_ceil125
  apply div_pos _ hn'
  linarith

theorem linear_usedStepSize_pos (I : QwtInterval) (maxMaj : ℤ) (step : ℚ)
    (hw : 0 < I.width) : 0 < QwtLinearScaleEngine.usedStepSize I maxMaj step := by
  unfold QwtLinearScaleEngine.usedStepSize
  simp only
  split
  · apply divideInterval_pos _ _ hw
    split <;> omega
  · rename_i h
    exact lt_of_le_of_ne (abs_nonneg _) (Ne.symm h)

/-! ### `align` of the linear engine -/

theorem floorEps_le (v s : ℚ) (hs : 0 < s) :
    QwtScaleArithmetic.floorEps v s ≤ v + (1 / 1000000 : ℚ) * s := by
  unfold QwtScaleArithmetic.floorEps qwtFloorF _eps
  simp only
  have h := Int.floor_le ((v + 1 / 1000000 * s) / s)
  have := mul_le_mul_of_nonneg_right h hs.le
  rwa [div_mul_cancel₀ _ hs.ne'] at this

theorem lt_floorEps (v s : ℚ) (hs : 0 < s) :
    v + (1 / 1000000 : ℚ) * s - s < QwtScaleArithmetic.floorEps v s := by
  unfold QwtScaleArithmetic.floorEps qwtFloorF _eps
  simp only
  have h := Int.lt_floor_add_one ((v + 1 / 1000000 * s) / s)
  have := mul_lt_mul_of_pos_right h hs
  rw [div_mul_cancel₀ _ hs.ne'] at this
  linarith

theorem le_ceilEps (v s : ℚ) (hs : 0 < s) :
    v - (1 / 1000000 : ℚ) * s ≤ QwtScaleArithmetic.ceilEps v s := by
  unfold QwtScaleArithmetic.ceilEps qwtCeilF _eps
  simp only
  have h := Int.le_ceil ((v - 1 / 1000000 * s) / s)
  have := mul_le_mul_of_nonneg_right h hs.le
  rwa [div_mul_cancel₀ _ hs.ne'] at this

theorem ceilEps_lt (v s : ℚ) (hs : 0 < s) :
    QwtScaleArithmetic.ceilEps v s < v - (1 / 1000000 : ℚ) * s + s := by
  unfold QwtScaleArithmetic.ceilEps qwtCeilF _eps
  simp only
  have h := Int.ceil_lt_add_one ((v - 1 / 1000000 * s) / s)
  have := mul_lt_mul_of_pos_right h hs
  rw [add_mul, div_mul_cancel₀ _ hs.ne'] at this
  linarith

theorem align_min_le (I : QwtInterval) (s : ℚ) (hs : 0 < s) :
    (QwtLinearScaleEngine.align I s).minValue ≤ I.minValue := by
  unfold QwtLinearScaleEngine.align
  simp only
  split
  · exact le_rfl
  · rename_i h
    rw [fuzzy_eq_zero_iff, abs_of_pos (mul_pos (by norm_num) hs), abs_le, not_and_or] at h
    have := floorEps_le I.minValue s hs
    rcases h with h | h <;> linarith

theorem lt_align_min (I : QwtInterval) (s : ℚ) (hs : 0 < s) :
    I.minValue - s < (QwtLinearScaleEngine.align I s).minValue := by
  unfold QwtLinearScaleEngine.align
  simp only
  split
  · linarith
  · have := lt_floorEps I.minValue s hs
    linarith

theorem le_align_max (I : QwtInterval) (s : ℚ) (hs : 0 < s) :
    I.maxValue ≤ (QwtLinearScaleEngine.align I s).maxValue := by
  unfold QwtLinearScaleEngine.align
  simp only
  split
  · exact le_rfl
  · rename_i h
    rw [fuzzy_eq_zero_iff, abs_of_pos (mul_pos (by norm_num) hs), abs_le, not_and_or] at h
    have := le_ceilEps I.maxValue s hs
    rcases h with h | h <;> linarith

theorem align_max_lt (I : QwtInterval) (s : ℚ) (hs : 0 < s) :
    (QwtLinearScaleEngine.align I s).maxValue < I.maxValue + s := by
  unfold QwtLinearScaleEngine.align
  simp only
  split
  · linarith
  · have := ceilEps_lt I.maxValue s hs
    linarith

/-! ### The major ticks of the linear engine -/

theorem qRound_le (d : ℚ) (hd : 0 ≤ d) : (qRound d : ℚ) ≤ d + 1 / 2 := by
  unfold qRound toInt
  have h2 : (0 : ℚ) ≤ d + 1 / 2 := by linarith
  simp only [hd, h2, if_true]
  exact Int.floor_le _

theorem lt_qRound (d : ℚ) (hd : 0 ≤ d) : d - 1 / 2 < (qRound d : ℚ) := by
  unfold qRound toInt
  have h2 : (0 : ℚ) ≤ d + 1 / 2 := by linarith
  simp only [hd, h2, if_true]
  have := Int.lt_floor_add_one (d + 1 / 2)
  linarith

theorem majorNumTicks_le (B : QwtInterval) (s : ℚ) (hs : 0 < s)
    (hB : B.minValue ≤ B.maxValue) :
    ((QwtLinearScaleEngine.majorNumTicks B s : ℤ) : ℚ) - 1
      ≤ (B.maxValue - B.minValue) / s + 1 / 2 := by
  have hval : B.isValid = true := by simp [QwtInterval.isValid, hB]
  have hw : B.width = B.maxValue - B.minValue := by simp [QwtInterval.width, hval]
  have hd : 0 ≤ (B.maxValue - B.minValue) / s := div_nonneg (by linarith) hs.le
  have hq := qRound_le _ hd
  unfold QwtLinearScaleEngine.majorNumTicks
  simp only [hw]
  split
  · rename_i h
    have : ((10000 : ℤ) : ℚ) < ((qRound ((B.maxValue - B.minValue) / s) + 1 : ℤ) : ℚ) := by
      exact_mod_cast h
    push_cast at this ⊢
    linarith
  · push_cast
    linarith

/-- The inner major ticks lie at least half a step below the upper limit. -/
theorem major_inner_le (B : QwtInterval) (s : ℚ) (hs : 0 < s) (hB : B.minValue ≤ B.maxValue)
    (j : ℕ) (hj : j < (QwtLinearScaleEngine.majorNumTicks B s - 2).toNat) :
    B.minValue + ((j : ℚ) + 1) * s ≤ B.maxValue - s / 2 := by
  have h1 := majorNumTicks_le B s hs hB
  have h2 : (j : ℤ) + 1 ≤ QwtLinearScaleEngine.majorNumTicks B s - 2 := by omega
  have h3 : ((j : ℚ) + 1) ≤ (QwtLinearScaleEngine.majorNumTicks B s : ℚ) - 2 := by
    exact_mod_cast h2
  have h4 : ((j : ℚ) + 1) ≤ (B.maxValue - B.minValue) / s - 1 / 2 := by linarith
  have h5 := mul_le_mul_of_nonneg_right h4 hs.le
  rw [sub_mul, div_mul_cancel₀ _ hs.ne'] at h5
  linarith

theorem buildMajorTicks_sorted (B : QwtInterval) (s : ℚ) (hs : 0 < s)
    (hB : B.minValue ≤ B.maxValue) :
    (QwtLinearScaleEngine.buildMajorTicks B s).Pairwise (· ≤ ·) := by
  unfold QwtLinearScaleEngine.buildMajorTicks
  simp only
  rw [List.append_assoc, List.pairwise_append]
  refine ⟨List.pairwise_singleton _ _, ?_, ?_⟩
  · rw [List.pairwise_append]
    refine ⟨?_, List.pairwise_singleton _ _, ?_⟩
    · rw [List.pairwise_map]
      refine List.Pairwise.imp ?_ (List.pairwise_lt_range _)
      intro a b hab
      have : (a : ℚ) < (b : ℚ) := by exact_mod_cast hab
      nlinarith
    · intro a ha b hb
      rw [List.mem_map] at ha
      obtain ⟨j, hj, rfl⟩ := ha
      rw [List.mem_range] at hj
      rw [List.mem_singleton] at hb
      subst hb
      have := major_inner_le B s hs hB j hj
      linarith
  · intro a ha b hb
    rw [List.mem_singleton] at ha
    subst ha
    rw [List.mem_append] at hb
    rcases hb with hb | hb
    · rw [List.mem_map] at hb
      obtain ⟨j, _, rfl⟩ := hb
      have : (0 : ℚ) ≤ ((j : ℚ) + 1) * s := mul_nonneg (by positivity) hs.le
      linarith
    · rw [List.mem_singleton] at hb
      subst hb
      exact hB

/-! ### `strip` and the snapping to zero -/

theorem contains_convex (I : QwtInterval) (f x t : ℚ) (hf : contains I f = true)
    (ht : contains I t = true) (h1 : f ≤ x) (h2 : x ≤ t) : contains I x = true := by
  rw [contains_iff] at hf ht ⊢
  exact ⟨hf.1, by linarith [hf.2.1], by linarith [ht.2.2]⟩

theorem strip_sublist (l : List ℚ) (I : QwtInterval) : (strip l I).Sublist l := by
  unfold strip
  split
  · exact List.nil_sublist _
  · split
    · split
      · exact List.Sublist.refl _
      · exact List.filter_sublist _
    · exact List.nil_sublist _

theorem strip_mem_contains (l : List ℚ) (I : QwtInterval)
    (hb : ∀ f t, l.head? = some f → l.getLast? = some t → ∀ x ∈ l, f ≤ x ∧ x ≤ t) :
    ∀ x ∈ strip l I, contains I x = true := by
  intro x hx
  unfold strip at hx
  split at hx
  · simp at hx
  · split at hx
    · rename_i first last hf hl
      split at hx
      · rename_i hc
        rw [Bool.and_eq_true] at hc
        obtain ⟨h1, h2⟩ := hb first last hf hl x hx
        exact contains_convex I first x last hc.1 hc.2 h1 h2
      · rw [List.mem_filter] at hx
        exact hx.2
    · simp at hx

theorem bracket_of_sorted (l : List ℚ) (h : l.Pairwise (· ≤ ·)) :
    ∀ f t, l.head? = some f → l.getLast? = some t → ∀ x ∈ l, f ≤ x ∧ x ≤ t := by
  intro f t hf ht x hx
  constructor
  · rw [List.head?_eq_some_iff] at hf
    obtain ⟨ys, rfl⟩ := hf
    rw [List.pairwise_cons] at h
    rcases List.mem_cons.mp hx with rfl | hx
    · exact le_rfl
    · exact h.1 x hx
  · rw [List.getLast?_eq_some_iff] at ht
    obtain ⟨ys, rfl⟩ := ht
    rw [List.pairwise_append] at h
    rcases List.mem_append.mp hx with hx | hx
    · exact h.2.2 x hx t (List.mem_singleton.mpr rfl)
    · rw [List.mem_singleton] at hx
      exact hx.le

theorem snapTick_mono (s : ℚ) {t u : ℚ} (h : t ≤ u) : snapTick s t ≤ snapTick s u := by
  unfold snapTick
  have hn := abs_nonneg ((1 / 1000000 : ℚ) * s)
  split
  · rename_i h1
    split
    · exact le_rfl
    · rename_i h2
      rw [fuzzy_eq_zero_iff, sub_zero, abs_le] at h1
      rw [fuzzy_eq_zero_iff, sub_zero, abs_le, not_and_or] at h2
      rcases h2 with h2 | h2 <;> linarith
  · rename_i h1
    split
    · rename_i h2
      rw [fuzzy_eq_zero_iff, sub_zero, abs_le] at h2
      rw [fuzzy_eq_zero_iff, sub_zero, abs_le, not_and_or] at h1
      rcases h1 with h1 | h1 <;> linarith
    · exact h

theorem snapTick_of_int_mul (s : ℚ) (hs : 0 < s) (m : ℤ) :
    snapTick s ((m : ℚ) * s) = (m : ℚ) * s := by
  unfold snapTick
  split
  · rename_i h
    rw [fuzzy_eq_zero_iff, sub_zero, abs_mul, abs_mul, abs_of_pos hs] at h
    have h1 : |(m : ℚ)| ≤ |(1 / 1000000 : ℚ)| := le_of_mul_le_mul_right h hs
    rw [abs_of_pos (by norm_num : (0 : ℚ) < 1 / 1000000)] at h1
    have h2 : |(m : ℚ)| < 1 := lt_of_le_of_lt h1 (by norm_num)
    have h3 : |m| < 1 := by exact_mod_cast h2
    have h4 : m = 0 := by
      rw [Int.abs_lt_one_iff] at h3
      exact h3
    subst h4
    simp
  · rfl

/-- The aligned interval is valid when the interval is. -/
theorem align_valid (I : QwtInterval) (s : ℚ) (hs : 0 < s) (hI : I.minValue ≤ I.maxValue) :
    (QwtLinearScaleEngine.align I s).minValue ≤ (QwtLinearScaleEngine.align I s).maxValue :=
  le_trans (align_min_le I s hs) (le_trans hI (le_align_max I s hs))

theorem subTickIndices_succ (med : ℤ) (b : Bool) (fuel : ℕ) (k : ℤ) :
    subTickIndices med b (fuel + 1) k
      = (if (decide (k = med) == b) then [0] else [])
          ++ (subTickIndices med b fuel (k + 1)).map Nat.succ := by
  unfold subTickIndices
  rw [List.range_succ_eq_map, List.filter_cons, List.filter_map]
  have hfun : ((fun (j : ℕ) => decide (k + (j : ℤ) = med) == b) ∘ Nat.succ)
      = (fun (j : ℕ) => decide (k + 1 + (j : ℤ) = med) == b) := by
    funext j
    simp only [Function.comp, Nat.succ_eq_add_one, Nat.cast_add, Nat.cast_one]
    congr 2
    rw [eq_iff_iff]
    constructor <;> intro h <;> omega
  rw [hfun]
  simp only [Nat.cast_zero, add_zero]
  split <;> simp

theorem subTicks_succ_map (ms s : ℚ) (js : List ℕ) (v : ℚ) :
    subTicks ms s (js.map Nat.succ) v = subTicks ms s js (v + ms) := by
  unfold subTicks
  rw [List.map_map]
  apply List.map_congr_left
  intro j _
  simp only [Function.comp, Nat.succ_eq_add_one, Nat.cast_add, Nat.cast_one]
  congr 1
  ring

theorem minorLoop_eq (ms s : ℚ) (med : ℤ) :
    ∀ (fuel : ℕ) (k : ℤ) (val : ℚ) (acc : List ℚ × List ℚ),
      QwtLinearScaleEngine.minorLoop ms s med fuel k val acc
        = (acc.1 ++ subTicks ms s (subTickIndices med false fuel k) val,
           acc.2 ++ subTicks ms s (subTickIndices med true fuel k) val) := by
  intro fuel
  induction fuel with
  | zero =>
    intro k val acc
    simp [QwtLinearScaleEngine.minorLoop, subTickIndices, subTicks]
  | succ n ih =>
    intro k val acc
    unfold QwtLinearScaleEngine.minorLoop
    simp only
    rw [subTickIndices_succ, subTickIndices_succ]
    by_cases hk : k = med
    · simp only [hk, if_true, ih, decide_True, beq_self_eq_true, Bool.true_beq,
        Bool.false_eq_true, if_false, List.nil_append, subTicks_succ_map]
      simp [subTicks]
      intro a _
      congr 1
      ring
    · simp only [hk, if_false, ih, decide_False, beq_self_eq_true, Bool.false_beq,
        Bool.not_false, if_true, Bool.false_eq_true, List.nil_append, subTicks_succ_map]
      simp [subTicks]
      constructor <;>
      · intro a _
        congr 1
        ring

theorem foldl_minorLoop (ms s : ℚ) (med : ℤ) (fuel : ℕ) (majors : List ℚ) :
    ∀ acc : List ℚ × List ℚ,
      majors.foldl (fun acc v => QwtLinearScaleEngine.minorLoop ms s med fuel 0 v acc) acc
        = (acc.1 ++ majors.flatMap (subTicks ms s (subTickIndices med false fuel 0)),
           acc.2 ++ majors.flatMap (subTicks ms s (subTickIndices med true fuel 0))) := by
  induction majors with
  | nil => intro acc; simp
  | cons v vs ih =>
    intro acc
    rw [List.foldl_cons, ih, minorLoop_eq]
    simp [List.flatMap_cons, List.append_assoc]

theorem buildMinorTicks_eq (majors : List ℚ) (maxMin : ℤ) (s : ℚ) :
    QwtLinearScaleEngine.buildMinorTicks majors maxMin s
      = match QwtLinearScaleEngine.minorStep maxMin s with
        | none => ([], [])
        | some (ms, nt) =>
          (majors.flatMap (subTicks ms s (subTickIndices
              (if Int.tmod nt 2 ≠ 0 then Int.tdiv nt 2 else -1) false nt.toNat 0)),
           majors.flatMap (subTicks ms s (subTickIndices
              (if Int.tmod nt 2 ≠ 0 then Int.tdiv nt 2 else -1) true nt.toNat 0))) := by
  unfold QwtLinearScaleEngine.buildMinorTicks
  cases h : QwtLinearScaleEngine.minorStep maxMin s with
  | none => rfl
  | some p =>
    obtain ⟨ms, nt⟩ := p
    simp only [foldl_minorLoop, List.nil_append]

theorem minorStep_pos (maxMin : ℤ) (s : ℚ) (hs : 0 < s) (ms : ℚ) (nt : ℤ)
    (h : QwtLinearScaleEngine.minorStep maxMin s = some (ms, nt)) : 0 < ms := by
  unfold QwtLinearScaleEngine.minorStep at h
  simp only at h
  split at h
  · exact absurd h (by simp)
  · rename_i h0
    have hpos : 0 < divideInterval s maxMin := by
      by_cases hm : maxMin ≤ 0
      · exfalso; apply h0; simp [divideInterval, hm]
      · exact divideInterval_pos s maxMin hs (by omega)
    split at h
    · simp only [Option.some.injEq, Prod.mk.injEq] at h
      rw [← h.1]; linarith
    · simp only [Option.some.injEq, Prod.mk.injEq] at h
      rw [← h.1]; exact hpos

theorem normalized_of_lt (a b : ℚ) (h : a < b) :
    (QwtInterval.mk a b).normalized = ⟨a, b⟩ := by
  simp [QwtInterval.normalized, not_lt.mpr h.le]

theorem width_of_lt (a b : ℚ) (h : a < b) : (QwtInterval.mk a b).width = b - a := by
  simp [QwtInterval.width, QwtInterval.isValid, h.le]

theorem linear_divideScale_of_lt (a b : ℚ) (h : a < b) (maxMaj maxMin : ℤ) (step : ℚ) :
    0 < QwtLinearScaleEngine.usedStepSize ⟨a, b⟩ maxMaj step
      ∧ QwtLinearScaleEngine.divideScale a b maxMaj maxMin step
        = QwtScaleDiv.ofTicks ⟨a, b⟩
            (QwtLinearScaleEngine.buildTicks ⟨a, b⟩
              (QwtLinearScaleEngine.usedStepSize ⟨a, b⟩ maxMaj step) maxMin).1
            (QwtLinearScaleEngine.buildTicks ⟨a, b⟩
              (QwtLinearScaleEngine.usedStepSize ⟨a, b⟩ maxMaj step) maxMin).2.1
            (QwtLinearScaleEngine.buildTicks ⟨a, b⟩
              (QwtLinearScaleEngine.usedStepSize ⟨a, b⟩ maxMaj step) maxMin).2.2 := by
  have hw : 0 < (QwtInterval.mk a b).width := by rw [width_of_lt a b h]; linarith
  have hs := linear_usedStepSize_pos ⟨a, b⟩ maxMaj step hw
  refine ⟨hs, ?_⟩
  unfold QwtLinearScaleEngine.divideScale
  simp only [normalized_of_lt a b h, not_le.mpr hw, if_false, gt_iff_lt, not_lt.mpr h.le,
    QwtLinearScaleEngine.scaleDivFor, ne_eq, hs.ne', not_false_eq_true, if_true]

theorem floorEps_int_mul (m : ℤ) (s : ℚ) (hs : 0 < s) :
    QwtScaleArithmetic.floorEps ((m : ℚ) * s) s = (m : ℚ) * s := by
  unfold QwtScaleArithmetic.floorEps qwtFloorF _eps
  simp only
  have h : ((m : ℚ) * s + 1 / 1000000 * s) / s = (m : ℚ) + 1 / 1000000 := by
    field_simp
    ring
  rw [h, Int.floor_int_add]
  have : ⌊(1 / 1000000 : ℚ)⌋ = 0 := by
    rw [Int.floor_eq_iff]; norm_num
  rw [this, add_zero]

theorem ceilEps_int_mul (n : ℤ) (s : ℚ) (hs : 0 < s) :
    QwtScaleArithmetic.ceilEps ((n : ℚ) * s) s = (n : ℚ) * s := by
  unfold QwtScaleArithmetic.ceilEps qwtCeilF _eps
  simp only
  have h : ((n : ℚ) * s - 1 / 1000000 * s) / s = (-(1 / 1000000)) + (n : ℚ) := by
    field_simp
    ring
  rw [h, Int.ceil_add_int]
  have : ⌈(-(1 / 1000000) : ℚ)⌉ = 0 := by
    rw [Int.ceil_eq_iff]; norm_num
  rw [this, zero_add]

theorem align_int_mul (m n : ℤ) (s : ℚ) (hs : 0 < s) :
    QwtLinearScaleEngine.align ⟨(m : ℚ) * s, (n : ℚ) * s⟩ s = ⟨(m : ℚ) * s, (n : ℚ) * s⟩ := by
  unfold QwtLinearScaleEngine.align
  simp only [floorEps_int_mul m s hs, ceilEps_int_mul n s hs, ite_self]

theorem strip_eq_self (l : List ℚ) (I : QwtInterval) (f t : ℚ) (hf : l.head? = some f)
    (ht : l.getLast? = some t) (hcf : contains I f = true) (hct : contains I t = true) :
    strip l I = l := by
  have hval : I.isValid = true := by
    rw [contains_iff] at hcf
    simp [QwtInterval.isValid, hcf.1]
  have hne : l ≠ [] := by
    intro h; rw [h] at hf; simp at hf
  have hlen : (l.length == 0) = false := by
    cases l with
    | nil => exact absurd rfl hne
    | cons x xs => rfl
  unfold strip
  simp only [hval, hlen, Bool.not_true, Bool.or_self, Bool.false_eq_true, if_false, hf, ht, hcf,
    hct, Bool.and_self, if_true]

theorem contains_left (a b : ℚ) (h : a ≤ b) : contains ⟨a, b⟩ a = true := by
  rw [contains_iff]
  refine ⟨h, ?_, ?_⟩ <;> simp only <;> nlinarith

theorem contains_right (a b : ℚ) (h : a ≤ b) : contains ⟨a, b⟩ b = true := by
  rw [contains_iff]
  refine ⟨h, ?_, ?_⟩ <;> simp only <;> nlinarith

theorem buildMajorTicks_head (B : QwtInterval) (s : ℚ) :
    (QwtLinearScaleEngine.buildMajorTicks B s).head? = some B.minValue := by
  simp [QwtLinearScaleEngine.buildMajorTicks]

theorem buildMajorTicks_last (B : QwtInterval) (s : ℚ) :
    (QwtLinearScaleEngine.buildMajorTicks B s).getLast? = some B.maxValue := by
  unfold QwtLinearScaleEngine.buildMajorTicks
  simp only
  rw [List.getLast?_concat]

/-- C3 (counterexample): `divideScale(0.5, 99.5, 5, 3, 0)` of the linear engine has
the major ticks `[20, 40, 60, 80]`; the first one is not `0.5` and the last one is
not `99.5`, also not up to the tolerance. -/
theorem C3_counterexample :
    (QwtLinearScaleEngine.divideScale (1 / 2) (199 / 2) 5 3 0).majorTicks = [20, 40, 60, 80]
      ∧ spansInterval (1 / 2) (199 / 2)
          (QwtLinearScaleEngine.divideScale (1 / 2) (199 / 2) 5 3 0).majorTicks = false := by
  decide!


/-! ### Major ticks of an interval that is its own alignment -/

theorem log_usedStepSize_pos (M : Libm) (I : QwtInterval) (maxMaj : ℤ) (step : ℚ) :
    0 < QwtLog10ScaleEngine.usedStepSize M I maxMaj step := by
  have key : ∀ d : ℚ, 0 < (if d < 1 then 1 else d) := by
    intro d
    split
    · norm_num
    · rename_i h
      linarith [not_lt.mp h]
  unfold QwtLog10ScaleEngine.usedStepSize
  simp only
  by_cases h : |step| = 0
  · rw [if_pos h]
    exact key _
  · rw [if_neg h]
    exact lt_of_le_of_ne (abs_nonneg _) (Ne.symm h)

theorem log_buildMajorTicks_head (M : Libm) (B : QwtInterval) (s : ℚ) :
    (QwtLog10ScaleEngine.buildMajorTicks M B s).head? = some B.minValue := by
  simp [QwtLog10ScaleEngine.buildMajorTicks]

theorem log_buildMajorTicks_last (M : Libm) (B : QwtInterval) (s : ℚ) :
    (QwtLog10ScaleEngine.buildMajorTicks M B s).getLast? = some B.maxValue := by
  unfold QwtLog10ScaleEngine.buildMajorTicks
  simp only
  rw [List.getLast?_concat]

theorem spansInterval_of_head_last (a b : ℚ) (l : List ℚ) (h1 : l.head? = some a)
    (h2 : l.getLast? = some b) : spansInterval a b l = true := by
  unfold spansInterval
  rw [h1, h2]
  simp only [Bool.and_eq_true, beq_iff_eq]
  constructor <;> rw [fuzzy_eq_zero_iff] <;> simp [abs_nonneg]

theorem linear_major_span (a b : ℚ) (maxMajSteps maxMinSteps : ℤ)
    (stepSize : ℚ) (m n : ℤ) (hab : a < b)
    (ha : a = (m : ℚ) * QwtLinearScaleEngine.usedStepSize ⟨a, b⟩ maxMajSteps stepSize)
    (hb : b = (n : ℚ) * QwtLinearScaleEngine.usedStepSize ⟨a, b⟩ maxMajSteps stepSize) :
    (QwtLinearScaleEngine.divideScale a b maxMajSteps maxMinSteps stepSize).majorTicks.head?
        = some a
      ∧ (QwtLinearScaleEngine.divideScale a b maxMajSteps maxMinSteps
          stepSize).majorTicks.getLast? = some b := by
  obtain ⟨hs, hd⟩ := linear_divideScale_of_lt a b hab maxMajSteps maxMinSteps stepSize
  set s := QwtLinearScaleEngine.usedStepSize ⟨a, b⟩ maxMajSteps stepSize with hsdef
  have hal : QwtLinearScaleEngine.align ⟨a, b⟩ s = ⟨a, b⟩ := by
    have := align_int_mul m n s hs
    rw [← ha, ← hb] at this
    exact this
  have hstrip : strip (QwtLinearScaleEngine.buildMajorTicks ⟨a, b⟩ s) ⟨a, b⟩
      = QwtLinearScaleEngine.buildMajorTicks ⟨a, b⟩ s :=
    strip_eq_self _ _ a b (buildMajorTicks_head _ _) (buildMajorTicks_last _ _)
      (contains_left a b hab.le) (contains_right a b hab.le)
  have hsa : snapTick s a = a := by rw [ha]; exact snapTick_of_int_mul s hs m
  have hsb : snapTick s b = b := by rw [hb]; exact snapTick_of_int_mul s hs n
  have hmaj : (QwtLinearScaleEngine.divideScale a b maxMajSteps maxMinSteps stepSize).majorTicks
      = snapZero s (QwtLinearScaleEngine.buildMajorTicks ⟨a, b⟩ s) := by
    rw [hd]
    simp only [QwtScaleDiv.ofTicks, QwtLinearScaleEngine.buildTicks, hal, hstrip]
  constructor
  · rw [hmaj, snapZero, List.head?_map, buildMajorTicks_head]
    simp [hsa]
  · rw [hmaj, snapZero, List.getLast?_map, buildMajorTicks_last]
    simp [hsb]

theorem log_major_span (M : Libm) (a b : ℚ) (maxMajSteps maxMinSteps : ℤ) (stepSize : ℚ)
    (hab : a < b) (hc : QwtLog10ScaleEngine.clamped a b = ⟨a, b⟩) (hdec : ¬ (b / a < 10))
    (hal : QwtLog10ScaleEngine.align M ⟨a, b⟩
      (QwtLog10ScaleEngine.usedStepSize M ⟨a, b⟩ maxMajSteps stepSize) = ⟨a, b⟩) :
    (QwtLog10ScaleEngine.divideScale M a b maxMajSteps maxMinSteps stepSize).majorTicks.head?
        = some a
      ∧ (QwtLog10ScaleEngine.divideScale M a b maxMajSteps maxMinSteps
          stepSize).majorTicks.getLast? = some b := by
  have hs := log_usedStepSize_pos M ⟨a, b⟩ maxMajSteps stepSize
  set s := QwtLog10ScaleEngine.usedStepSize M ⟨a, b⟩ maxMajSteps stepSize with hsdef
  have hw : ¬ (QwtInterval.mk a b).width ≤ 0 := by
    rw [width_of_lt a b hab]; linarith
  have hstrip : strip (QwtLog10ScaleEngine.buildMajorTicks M ⟨a, b⟩ s) ⟨a, b⟩
      = QwtLog10ScaleEngine.buildMajorTicks M ⟨a, b⟩ s :=
    strip_eq_self _ _ a b (log_buildMajorTicks_head _ _ _) (log_buildMajorTicks_last _ _ _)
      (contains_left a b hab.le) (contains_right a b hab.le)
  have hmaj : (QwtLog10ScaleEngine.divideScale M a b maxMajSteps maxMinSteps
      stepSize).majorTicks = QwtLog10ScaleEngine.buildMajorTicks M ⟨a, b⟩ s := by
    simp only [QwtLog10ScaleEngine.divideScale, hc, hw, hdec, if_false, gt_iff_lt,
      not_lt.mpr hab.le, QwtLog10ScaleEngine.scaleDivFor, ne_eq, ← hsdef, hs.ne',
      not_false_eq_true, if_true, QwtScaleDiv.ofTicks, QwtLog10ScaleEngine.buildTicks, hal,
      hstrip]
  rw [hmaj]
  exact ⟨log_buildMajorTicks_head _ _ _, log_buildMajorTicks_last _ _ _⟩

/-- C3 (as amended): for every `a < b`, the major tick list returned by `divideScale`
is not empty, starts with `a` and ends with `b`, when the interval lies on the step
raster: for the linear engine when `a` and `b` are integer multiples of the step size
in use (the absolute value of the caller's step size, or the step size computed from
`maxMajSteps`), and for the log10 engine on its own path (limits inside
`[LOG_MIN, LOG_MAX]`, at least one decade) when `align` returns the interval
unchanged. -/
theorem C3_major_ticks_span_raster_interval (M : Libm) (a b : ℚ)
    (maxMajSteps maxMinSteps : ℤ) (stepSize : ℚ) (hab : a < b) :
    (∀ m n : ℤ,
        a = (m : ℚ) * QwtLinearScaleEngine.usedStepSize ⟨a, b⟩ maxMajSteps stepSize →
        b = (n : ℚ) * QwtLinearScaleEngine.usedStepSize ⟨a, b⟩ maxMajSteps stepSize →
        (QwtLinearScaleEngine.divideScale a b maxMajSteps maxMinSteps
            stepSize).majorTicks.head? = some a
          ∧ (QwtLinearScaleEngine.divideScale a b maxMajSteps maxMinSteps
            stepSize).majorTicks.getLast? = some b
          ∧ spansInterval a b (QwtLinearScaleEngine.divideScale a b maxMajSteps maxMinSteps
            stepSize).majorTicks = true)
      ∧ (QwtLog10ScaleEngine.clamped a b = ⟨a, b⟩ → ¬ (b / a < 10) →
        QwtLog10ScaleEngine.align M ⟨a, b⟩
          (QwtLog10ScaleEngine.usedStepSize M ⟨a, b⟩ maxMajSteps stepSize) = ⟨a, b⟩ →
        (QwtLog10ScaleEngine.divideScale M a b maxMajSteps maxMinSteps
            stepSize).majorTicks.head? = some a
          ∧ (QwtLog10ScaleEngine.divideScale M a b maxMajSteps maxMinSteps
            stepSize).majorTicks.getLast? = some b
          ∧ spansInterval a b (QwtLog10ScaleEngine.divideScale M a b maxMajSteps maxMinSteps
            stepSize).majorTicks = true) := by
  constructor
  · intro m n ha hb
    obtain ⟨h1, h2⟩ := linear_major_span a b maxMajSteps maxMinSteps stepSize m n hab ha hb
    exact ⟨h1, h2, spansInterval_of_head_last a b _ h1 h2⟩
  · intro hc hdec hal
    obtain ⟨h1, h2⟩ := log_major_span M a b maxMajSteps maxMinSteps stepSize hab hc hdec hal
    exact ⟨h1, h2, spansInterval_of_head_last a b _ h1 h2⟩

/-- Witness for C3 (as amended): the linear `divideScale(0, 100, 5, 3, 0)`, with
`0 = 0 * 20` and `100 = 5 * 20`, and the log10 `divideScale(1, 1000, 5, 0, 0)` with the
instance `decadeLibm`, whose alignment to whole decades is `[1, 1000]` itself. -/
theorem C3_major_ticks_span_raster_interval_witness :
    ((QwtLinearScaleEngine.divideScale 0 100 5 3 0).majorTicks.head? = some 0
        ∧ (QwtLinearScaleEngine.divideScale 0 100 5 3 0).majorTicks.getLast? = some 100
        ∧ spansInterval 0 100 (QwtLinearScaleEngine.divideScale 0 100 5 3 0).majorTicks = true)
      ∧ ((QwtLog10ScaleEngine.divideScale decadeLibm 1 1000 5 0 0).majorTicks.head? = some 1
        ∧ (QwtLog10ScaleEngine.divideScale decadeLibm 1 1000 5 0 0).majorTicks.getLast?
            = some 1000
        ∧ spansInterval 1 1000
            (QwtLog10ScaleEngine.divideScale decadeLibm 1 1000 5 0 0).majorTicks = true) :=
  ⟨(C3_major_ticks_span_raster_interval decadeLibm 0 100 5 3 0 (by norm_num)).1 0 5
      (by decide!) (by decide!),
    (C3_major_ticks_span_raster_interval decadeLibm 1 1000 5 0 0 (by norm_num)).2
      (by decide!) (by norm_num) (by decide!)⟩

/-! ### Counting the major ticks inside the interval -/

theorem nat_sorted_span : ∀ (l : List ℕ), l.Pairwise (· < ·) → ∀ i0 il : ℕ,
    l.head? = some i0 → l.getLast? = some il → i0 + (l.length - 1) ≤ il := by
  intro l
  induction l with
  | nil => intro _ i0 il h; simp at h
  | cons x r ih =>
    intro hp i0 il h0 hl
    cases r with
    | nil =>
      simp only [List.head?_cons, Option.some.injEq] at h0
      simp only [List.getLast?_singleton, Option.some.injEq] at hl
      simp only [List.length_singleton]
      omega
    | cons y r2 =>
      simp only [List.head?_cons, Option.some.injEq] at h0
      rw [List.getLast?_cons_cons] at hl
      rw [List.pairwise_cons] at hp
      have hxy : x < y := hp.1 y (List.mem_cons_self _ _)
      have := ih hp.2 y il (by simp) hl
      simp only [List.length_cons] at this ⊢
      omega

theorem prog_count (s : ℚ) (hs : 0 < s) (x0 lo hi : ℚ) (p : ℚ → Bool) (M : ℕ)
    (h : ∀ i : ℕ, i < M → p (x0 + ((i : ℚ) + 1) * s) = true →
      lo ≤ x0 + ((i : ℚ) + 1) * s ∧ x0 + ((i : ℚ) + 1) * s ≤ hi) :
    (((List.range M).map (fun (i : ℕ) => x0 + ((i : ℚ) + 1) * s)).filter p).length = 0
      ∨ (((((List.range M).map (fun (i : ℕ) => x0 + ((i : ℚ) + 1) * s)).filter p).length : ℚ)
          - 1) * s ≤ hi - lo := by
  rw [List.filter_map, List.length_map]
  set F := (List.range M).filter (p ∘ fun (i : ℕ) => x0 + ((i : ℚ) + 1) * s) with hF
  have hsorted : F.Pairwise (· < ·) := List.Pairwise.filter _ (List.pairwise_lt_range M)
  rcases List.eq_nil_or_concat F with hnil | ⟨F', il, hcat⟩
  · left; rw [hnil]; rfl
  · right
    rw [List.concat_eq_append] at hcat
    have hlast : F.getLast? = some il := by rw [hcat, List.getLast?_concat]
    cases hF0 : F with
    | nil => rw [hF0] at hcat; simp at hcat
    | cons i0 r =>
      have hhead : F.head? = some i0 := by rw [hF0]; rfl
      have hspan := nat_sorted_span F hsorted i0 il hhead hlast
      have hi0 : i0 ∈ F := by rw [hF0]; exact List.mem_cons_self _ _
      have hil : il ∈ F := by rw [hcat]; simp
      rw [hF, List.mem_filter, List.mem_range] at hi0 hil
      have b0 := h i0 hi0.1 hi0.2
      have bl := h il hil.1 hil.2
      have hlen : 1 ≤ F.length := by rw [hF0]; simp
      rw [← hF0]
      have hq : ((F.length : ℚ) - 1) ≤ (il : ℚ) - (i0 : ℚ) := by
        have : ((i0 + (F.length - 1) : ℕ) : ℚ) ≤ (il : ℚ) := by exact_mod_cast hspan
        rw [Nat.cast_add, Nat.cast_sub hlen, Nat.cast_one] at this
        linarith
      have := mul_le_mul_of_nonneg_right hq hs.le
      nlinarith [b0.1, bl.2]

theorem strip_length_le_filter (l : List ℚ) (I : QwtInterval) (hl : l.Pairwise (· ≤ ·)) :
    (strip l I).length ≤ (l.filter (contains I)).length := by
  have hall := strip_mem_contains l I (bracket_of_sorted l hl)
  have hsub := strip_sublist l I
  have hfil : (strip l I).filter (contains I) = strip l I :=
    List.filter_eq_self.mpr hall
  rw [← hfil]
  exact (List.Sublist.filter _ hsub).length_le

theorem linear_major_count (I : QwtInterval) (s : ℚ) (hs : 0 < s)
    (hI : I.minValue ≤ I.maxValue) :
    (strip (QwtLinearScaleEngine.buildMajorTicks (QwtLinearScaleEngine.align I s) s) I).length
        ≤ 2
      ∨ (((strip (QwtLinearScaleEngine.buildMajorTicks (QwtLinearScaleEngine.align I s) s)
            I).length : ℚ) - 3 / 2) * s
          ≤ (I.maxValue - I.minValue) * (1 + 2 * (1 / 1000000)) := by
  set B := QwtLinearScaleEngine.align I s with hBdef
  have hB : B.minValue ≤ B.maxValue := align_valid I s hs hI
  have hsorted := buildMajorTicks_sorted B s hs hB
  have hle := strip_length_le_filter _ I hsorted
  set c := (strip (QwtLinearScaleEngine.buildMajorTicks B s) I).length with hc
  set m := (QwtLinearScaleEngine.majorNumTicks B s - 2).toNat with hm
  have hG : QwtLinearScaleEngine.buildMajorTicks B s
      = [B.minValue] ++ (List.range m).map (fun (j : ℕ) => B.minValue + ((j : ℚ) + 1) * s)
          ++ [B.maxValue] := rfl
  rw [hG, List.filter_append, List.filter_append, List.length_append, List.length_append] at hle
  set cm := (((List.range m).map (fun (j : ℕ) => B.minValue + ((j : ℚ) + 1) * s)).filter
    (contains I)).length with hcm
  have hinner : ∀ j : ℕ, j < m → B.minValue + ((j : ℚ) + 1) * s ≤ B.maxValue - s / 2 :=
    fun j hj => major_inner_le B s hs hB j hj
  have hge : ∀ j : ℕ, B.minValue + s ≤ B.minValue + ((j : ℚ) + 1) * s := by
    intro j
    have : (0 : ℚ) ≤ (j : ℚ) * s := mul_nonneg (by positivity) hs.le
    linarith
  by_cases h1 : contains I B.minValue = true
  · by_cases h2 : contains I B.maxValue = true
    · -- both limits of the aligned interval are inside
      have hcount := prog_count s hs B.minValue
        (I.minValue - 1 / 1000000 * (I.maxValue - I.minValue) + s)
        (I.maxValue + 1 / 1000000 * (I.maxValue - I.minValue) - s / 2) (contains I) m
        (by
          intro i hi _
          rw [contains_iff] at h1 h2
          exact ⟨by linarith [hge i, h1.2.1], by linarith [hinner i hi, h2.2.2]⟩)
      rw [← hcm] at hcount
      simp only [List.filter_cons, h1, h2, if_true, List.filter_nil, List.length_singleton]
        at hle
      rcases hcount with h0 | hk
      · left; omega
      · right
        have : (c : ℚ) ≤ (cm : ℚ) + 2 := by exact_mod_cast (by omega : c ≤ cm + 2)
        nlinarith
    · have hcount := prog_count s hs B.minValue
        (I.minValue - 1 / 1000000 * (I.maxValue - I.minValue) + s)
        (I.maxValue + 1 / 1000000 * (I.maxValue - I.minValue)) (contains I) m
        (by
          intro i hi hp
          rw [contains_iff] at h1 hp
          exact ⟨by linarith [hge i, h1.2.1], hp.2.2⟩)
      rw [← hcm] at hcount
      simp only [List.filter_cons, h1, h2, if_true, List.filter_nil, List.length_singleton,
        List.length_nil, Bool.false_eq_true, if_false] at hle
      rcases hcount with h0 | hk
      · left; omega
      · right
        have : (c : ℚ) ≤ (cm : ℚ) + 1 := by exact_mod_cast (by omega : c ≤ cm + 1)
        nlinarith
  · by_cases h2 : contains I B.maxValue = true
    · have hcount := prog_count s hs B.minValue
        (I.minValue - 1 / 1000000 * (I.maxValue - I.minValue))
        (I.maxValue + 1 / 1000000 * (I.maxValue - I.minValue) - s / 2) (contains I) m
        (by
          intro i hi hp
          rw [contains_iff] at h2 hp
          exact ⟨hp.2.1, by linarith [hinner i hi, h2.2.2]⟩)
      rw [← hcm] at hcount
      simp only [List.filter_cons, h1, h2, if_true, List.filter_nil, List.length_singleton,
        List.length_nil, Bool.false_eq_true, if_false] at hle
      rcases hcount with h0 | hk
      · left; omega
      · right
        have : (c : ℚ) ≤ (cm : ℚ) + 1 := by exact_mod_cast (by omega : c ≤ cm + 1)
        nlinarith
    · have hcount := prog_count s hs B.minValue
        (I.minValue - 1 / 1000000 * (I.maxValue - I.minValue))
        (I.maxValue + 1 / 1000000 * (I.maxValue - I.minValue)) (contains I) m
        (by
          intro i hi hp
          rw [contains_iff] at hp
          exact ⟨hp.2.1, hp.2.2⟩)
      rw [← hcm] at hcount
      simp only [List.filter_cons, h1, h2, if_true, List.filter_nil, List.length_singleton,
        List.length_nil, Bool.false_eq_true, if_false] at hle
      rcases hcount with h0 | hk
      · left; omega
      · right
        have : (c : ℚ) ≤ (cm : ℚ) := by exact_mod_cast (by omega : c ≤ cm)
        nlinarith

/-- C9: for every `a < b` and `maxMajSteps >= 1`, the linear `divideScale` with an
auto-computed step size (`stepSize = 0`) returns at most `maxMajSteps + 1` major
ticks. -/
theorem C9_linear_auto_step_major_count (a b : ℚ) (maxMajSteps maxMinSteps : ℤ)
    (hab : a < b) (hmaj : 1 ≤ maxMajSteps) :
    ((QwtLinearScaleEngine.divideScale a b maxMajSteps maxMinSteps 0).majorTicks.length : ℤ)
      ≤ maxMajSteps + 1 := by
  obtain ⟨hs, hd⟩ := linear_divideScale_of_lt a b hab maxMajSteps maxMinSteps 0
  have hcap := linear_major_length a b maxMajSteps maxMinSteps 0
  rw [hd] at hcap ⊢
  simp only [QwtScaleDiv.ofTicks, QwtLinearScaleEngine.buildTicks, snapZero_length] at hcap ⊢
  set s := QwtLinearScaleEngine.usedStepSize ⟨a, b⟩ maxMajSteps 0 with hsdef
  set c := (strip (QwtLinearScaleEngine.buildMajorTicks (QwtLinearScaleEngine.align ⟨a, b⟩ s) s)
    ⟨a, b⟩).length with hc
  by_cases hbig : 9999 ≤ maxMajSteps
  · omega
  · have hn : maxMajSteps < 9999 := by omega
    have hsge : (b - a - 1 / 1000000 * (b - a)) / (maxMajSteps : ℚ) ≤ s := by
      have h1 := le_divideInterval (b - a) maxMajSteps (by linarith) (by omega)
      have h2 : s = divideInterval (b - a) maxMajSteps := by
        rw [hsdef]
        simp only [QwtLinearScaleEngine.usedStepSize, abs_zero, if_true, width_of_lt a b hab,
          not_lt.mpr hmaj, if_false]
      rw [h2]; exact h1
    have hnpos : (0 : ℚ) < (maxMajSteps : ℚ) := by exact_mod_cast (by omega : 0 < maxMajSteps)
    have hnq : (maxMajSteps : ℚ) < 9999 := by exact_mod_cast hn
    rw [div_le_iff₀ hnpos] at hsge
    rcases linear_major_count ⟨a, b⟩ s hs hab.le with h2 | hk
    · rw [← hc] at h2; omega
    · rw [← hc] at hk
      simp only at hk
      by_contra hcon
      have hcge : maxMajSteps + 2 ≤ (c : ℤ) := by omega
      have hcq : (maxMajSteps : ℚ) + 2 ≤ (c : ℚ) := by exact_mod_cast hcge
      have hw : 0 < b - a := by linarith
      -- (n + 1/2) s ≤ w (1 + 2e) and w (1 - e) ≤ n s
      have h3 : ((maxMajSteps : ℚ) + 1 / 2) * s ≤ (b - a) * (1 + 2 * (1 / 1000000)) := by
        have : ((maxMajSteps : ℚ) + 1 / 2) * s ≤ ((c : ℚ) - 3 / 2) * s :=
          mul_le_mul_of_nonneg_right (by linarith) hs.le
        linarith
      have h4 : (b - a) * (1 - 1 / 1000000) ≤ s * (maxMajSteps : ℚ) := by linarith
      have h5 : s * (maxMajSteps : ℚ) * 9 ≤ (b - a) * 9 * 10000 := by
        nlinarith
      nlinarith

/-- Witness for C9: `divideScale(0, 100, 5, 3, 0)` has `6 <= 5 + 1` major ticks. -/
theorem C9_linear_auto_step_major_count_witness :
    ((QwtLinearScaleEngine.divideScale 0 100 5 3 0).majorTicks.length : ℤ) ≤ 5 + 1 :=
  C9_linear_auto_step_major_count 0 100 5 3 (by norm_num) (by norm_num)

/-! ### The log10 engine on its own path -/

theorem strip_cases (l : List ℚ) (I : QwtInterval) :
    strip l I = []
      ∨ (strip l I = l ∧ ∃ f t, l.head? = some f ∧ l.getLast? = some t
          ∧ contains I f = true ∧ contains I t = true)
      ∨ strip l I = l.filter (contains I) := by
  unfold strip
  split
  · exact Or.inl rfl
  · split
    · rename_i first last hf hl
      split
      · rename_i hc
        rw [Bool.and_eq_true] at hc
        exact Or.inr (Or.inl ⟨rfl, first, last, hf, hl, hc.1, hc.2⟩)
      · exact Or.inr (Or.inr rfl)
    · exact Or.inl rfl

theorem strip_head_last_contained (l : List ℚ) (I : QwtInterval) (t : ℚ)
    (h : (strip l I).head? = some t ∨ (strip l I).getLast? = some t) :
    contains I t = true := by
  rcases strip_cases l I with h0 | ⟨h1, f, u, hf, hu, hcf, hcu⟩ | h2
  · rw [h0] at h; simp at h
  · rw [h1] at h
    rcases h with h | h
    · rw [hf] at h; rw [← Option.some.inj h]; exact hcf
    · rw [hu] at h; rw [← Option.some.inj h]; exact hcu
  · have hmem : t ∈ strip l I := by
      rcases h with h | h
      · rw [List.head?_eq_some_iff] at h
        obtain ⟨ys, hys⟩ := h
        rw [hys]; exact List.mem_cons_self _ _
      · rw [List.getLast?_eq_some_iff] at h
        obtain ⟨ys, hys⟩ := h
        rw [hys]; simp
    rw [h2, List.mem_filter] at hmem
    exact hmem.2

theorem foldl_append_flatMap (F : ℚ → List ℚ) (l : List ℚ) :
    ∀ acc : List ℚ, l.foldl (fun acc v => acc ++ F v) acc = acc ++ l.flatMap F := by
  induction l with
  | nil => intro acc; simp
  | cons v vs ih => intro acc; rw [List.foldl_cons, ih]; simp [List.flatMap_cons]

theorem kLoop_pos (kmax kstep : ℤ) (hstep : 0 ≤ kstep) :
    ∀ (fuel : ℕ) (k0 : ℤ), 0 < k0 → ∀ x ∈ QwtLog10ScaleEngine.kLoop kmax kstep fuel k0, 0 < x := by
  intro fuel
  induction fuel with
  | zero => intro k0 _ x hx; simp [QwtLog10ScaleEngine.kLoop] at hx
  | succ n ih =>
    intro k0 hk0 x hx
    unfold QwtLog10ScaleEngine.kLoop at hx
    split at hx
    · rcases List.mem_cons.mp hx with rfl | hx
      · exact hk0
      · exact ih (k0 + kstep) (by omega) x hx
    · simp at hx

theorem factorLoop_pos (mf : ℚ) (hmf : 0 < mf) :
    ∀ (fuel : ℕ) (val : ℚ), 0 < val → ∀ x ∈ QwtLog10ScaleEngine.factorLoop mf fuel val, 0 < x := by
  intro fuel
  induction fuel with
  | zero => intro val _ x hx; simp [QwtLog10ScaleEngine.factorLoop] at hx
  | succ n ih =>
    intro val hval x hx
    unfold QwtLog10ScaleEngine.factorLoop at hx
    rcases List.mem_cons.mp hx with rfl | hx
    · exact mul_pos hval hmf
    · exact ih (val * mf) (mul_pos hval hmf) x hx

theorem log_buildMajorTicks_pos (M : Libm) (hexp : ∀ y, 0 < M.exp y) (B : QwtInterval)
    (s : ℚ) (h1 : 0 < B.minValue) (h2 : 0 < B.maxValue) :
    ∀ t ∈ QwtLog10ScaleEngine.buildMajorTicks M B s, 0 < t := by
  intro t ht
  unfold QwtLog10ScaleEngine.buildMajorTicks at ht
  simp only [List.mem_append, List.mem_singleton, List.mem_map] at ht
  rcases ht with (rfl | ⟨j, _, rfl⟩) | rfl
  · exact h1
  · exact hexp _
  · exact h2

theorem log_buildMinorTicks_pos (M : Libm) (majors : List ℚ) (maxMin : ℤ) (s : ℚ)
    (hmaj : ∀ v ∈ majors, 0 < v) :
    ∀ t ∈ QwtLog10ScaleEngine.buildMinorTicks M majors maxMin s, 0 < t := by
  intro t ht
  unfold QwtLog10ScaleEngine.buildMinorTicks at ht
  by_cases h1 : s < 11 / 10
  · rw [if_pos h1] at ht
    by_cases h2 : maxMin < 1
    · rw [if_pos h2] at ht; simp at ht
    · rw [if_neg h2] at ht
      simp only [foldl_append_flatMap, List.nil_append, List.mem_flatMap, List.mem_map] at ht
      obtain ⟨v, hv, k, hk, rfl⟩ := ht
      have hkpos : 0 < k := by
        refine kLoop_pos _ _ ?_ _ _ ?_ k hk
        · split
          · norm_num
          · split
            · norm_num
            · split <;> norm_num
        · split
          · norm_num
          · split
            · norm_num
            · split <;> norm_num
      have : (0 : ℚ) < (k : ℚ) := by exact_mod_cast hkpos
      exact mul_pos (hmaj v hv) this
  · rw [if_neg h1] at ht
    by_cases h2 : divideInterval s maxMin = 0
    · simp only [h2, if_true] at ht; simp at ht
    · simp only [h2, if_false] at ht
      split_ifs at ht
      all_goals first
        | (simp at ht; done)
        | (rw [foldl_append_flatMap, List.nil_append, List.mem_flatMap] at ht
           obtain ⟨v, hv, hx⟩ := ht
           refine factorLoop_pos _ ?_ _ v (hmaj v hv) t hx
           exact lt_of_lt_of_le (by norm_num : (0 : ℚ) < 10) (le_max_right _ _))

theorem mem_strip (l : List ℚ) (I : QwtInterval) (t : ℚ) (h : t ∈ strip l I) : t ∈ l :=
  (strip_sublist l I).subset h

theorem log_buildTicks_pos (M : Libm) (hexp : ∀ y, 0 < M.exp y) (hpow : ∀ y, 0 < M.pow10 y)
    (I : QwtInterval) (s : ℚ) (maxMin : ℤ) :
    ∀ t, (t ∈ (QwtLog10ScaleEngine.buildTicks M I s maxMin).1
        ∨ t ∈ (QwtLog10ScaleEngine.buildTicks M I s maxMin).2.1
        ∨ t ∈ (QwtLog10ScaleEngine.buildTicks M I s maxMin).2.2) → 0 < t := by
  have hmaj : ∀ v ∈ QwtLog10ScaleEngine.buildMajorTicks M (QwtLog10ScaleEngine.align M I s) s,
      0 < v :=
    log_buildMajorTicks_pos M hexp _ s (hpow _) (hpow _)
  intro t ht
  simp only [QwtLog10ScaleEngine.buildTicks] at ht
  rcases ht with ht | ht | ht
  · have := mem_strip _ _ _ ht
    split at this
    · exact log_buildMinorTicks_pos M _ maxMin s hmaj t this
    · simp at this
  · have := mem_strip _ _ _ ht
    simp at this
  · exact hmaj t (mem_strip _ _ _ ht)

theorem clamped_bounds (x1 x2 : ℚ) (hw : 0 < (QwtLog10ScaleEngine.clamped x1 x2).width) :
    LOG_MIN ≤ (QwtLog10ScaleEngine.clamped x1 x2).minValue
      ∧ (QwtLog10ScaleEngine.clamped x1 x2).minValue ≤ LOG_MAX
      ∧ LOG_MIN ≤ (QwtLog10ScaleEngine.clamped x1 x2).maxValue
      ∧ (QwtLog10ScaleEngine.clamped x1 x2).maxValue ≤ LOG_MAX := by
  have hlohi : LOG_MIN ≤ LOG_MAX := by decide!
  unfold QwtLog10ScaleEngine.clamped at hw ⊢
  unfold QwtInterval.limited at hw ⊢
  split at hw
  · exfalso
    have : QwtInterval.invalid.width = 0 := by decide!
    rw [this] at hw
    exact lt_irrefl _ hw
  · rename_i h
    rw [if_neg h]
    simp only
    refine ⟨?_, min_le_right _ _, ?_, min_le_right _ _⟩
    · exact le_min (le_max_right _ _) hlohi
    · exact le_min (le_max_right _ _) hlohi

theorem log_scaleDivFor_spec (M : Libm) (hexp : ∀ y, 0 < M.exp y) (hpow : ∀ y, 0 < M.pow10 y)
    (I : QwtInterval) (s : ℚ) (maxMin : ℤ) :
    QwtLog10ScaleEngine.scaleDivFor M I s maxMin = QwtScaleDiv.empty
      ∨ ((QwtLog10ScaleEngine.scaleDivFor M I s maxMin).lowerBound = I.minValue
        ∧ (QwtLog10ScaleEngine.scaleDivFor M I s maxMin).upperBound = I.maxValue
        ∧ (∀ t, (t ∈ (QwtLog10ScaleEngine.scaleDivFor M I s maxMin).minorTicks
            ∨ t ∈ (QwtLog10ScaleEngine.scaleDivFor M I s maxMin).mediumTicks
            ∨ t ∈ (QwtLog10ScaleEngine.scaleDivFor M I s maxMin).majorTicks) → 0 < t)
        ∧ (∀ l ∈ [(QwtLog10ScaleEngine.scaleDivFor M I s maxMin).minorTicks,
              (QwtLog10ScaleEngine.scaleDivFor M I s maxMin).mediumTicks,
              (QwtLog10ScaleEngine.scaleDivFor M I s maxMin).majorTicks],
            ∀ t, (l.head? = some t ∨ l.getLast? = some t) → contains I t = true)) := by
  unfold QwtLog10ScaleEngine.scaleDivFor
  split
  · right
    refine ⟨rfl, rfl, ?_, ?_⟩
    · simp only [QwtScaleDiv.ofTicks]
      exact log_buildTicks_pos M hexp hpow I s maxMin
    simp only [QwtScaleDiv.ofTicks]
    intro l hl t ht
    simp only [List.mem_cons, List.mem_singleton, List.not_mem_nil, or_false] at hl
    simp only [QwtLog10ScaleEngine.buildTicks] at hl
    rcases hl with rfl | rfl | rfl <;> exact strip_head_last_contained _ I t ht
  · exact Or.inl rfl

/-- C8 (as amended): when the interval limited to `[LOG_MIN, LOG_MAX]` spans at least
one decade (the log10 engine's own path), the scale division returned by
`QwtLog10ScaleEngine::divideScale` is either empty or has both bounds inside
`[LOG_MIN, LOG_MAX]`; every tick is strictly positive (for a C library whose `exp` and
`pow` are positive), and the first and the last tick of each list pass the test of
`strip`, that is, lie in the limited interval up to the tolerance `1e-6 * width`. -/
theorem C8_log10_own_path_stays_in_domain (M : Libm) (hexp : ∀ y, 0 < M.exp y)
    (hpow : ∀ y, 0 < M.pow10 y) (x1 x2 : ℚ) (maxMajSteps maxMinSteps : ℤ) (stepSize : ℚ)
    (hdecade : ¬ ((QwtLog10ScaleEngine.clamped x1 x2).maxValue
      / (QwtLog10ScaleEngine.clamped x1 x2).minValue < 10)) :
    QwtLog10ScaleEngine.divideScale M x1 x2 maxMajSteps maxMinSteps stepSize = QwtScaleDiv.empty
      ∨ (LOG_MIN ≤ (QwtLog10ScaleEngine.divideScale M x1 x2 maxMajSteps maxMinSteps
            stepSize).lowerBound
        ∧ (QwtLog10ScaleEngine.divideScale M x1 x2 maxMajSteps maxMinSteps
            stepSize).lowerBound ≤ LOG_MAX
        ∧ LOG_MIN ≤ (QwtLog10ScaleEngine.divideScale M x1 x2 maxMajSteps maxMinSteps
            stepSize).upperBound
        ∧ (QwtLog10ScaleEngine.divideScale M x1 x2 maxMajSteps maxMinSteps
            stepSize).upperBound ≤ LOG_MAX
        ∧ (∀ t, (t ∈ (QwtLog10ScaleEngine.divideScale M x1 x2 maxMajSteps maxMinSteps
                stepSize).minorTicks
            ∨ t ∈ (QwtLog10ScaleEngine.divideScale M x1 x2 maxMajSteps maxMinSteps
                stepSize).mediumTicks
            ∨ t ∈ (QwtLog10ScaleEngine.divideScale M x1 x2 maxMajSteps maxMinSteps
                stepSize).majorTicks) → 0 < t)
        ∧ (∀ l ∈ [(QwtLog10ScaleEngine.divideScale M x1 x2 maxMajSteps maxMinSteps
                stepSize).minorTicks,
              (QwtLog10ScaleEngine.divideScale M x1 x2 maxMajSteps maxMinSteps
                stepSize).mediumTicks,
              (QwtLog10ScaleEngine.divideScale M x1 x2 maxMajSteps maxMinSteps
                stepSize).majorTicks],
            ∀ t, (l.head? = some t ∨ l.getLast? = some t) →
              contains (QwtLog10ScaleEngine.clamped x1 x2) t = true)) := by
  unfold QwtLog10ScaleEngine.divideScale
  simp only
  by_cases hw : (QwtLog10ScaleEngine.clamped x1 x2).width ≤ 0
  · rw [if_pos hw]; exact Or.inl rfl
  · rw [if_neg hw, if_neg hdecade]
    obtain ⟨b1, b2, b3, b4⟩ := clamped_bounds x1 x2 (not_le.mp hw)
    rcases log_scaleDivFor_spec M hexp hpow (QwtLog10ScaleEngine.clamped x1 x2)
        (QwtLog10ScaleEngine.usedStepSize M (QwtLog10ScaleEngine.clamped x1 x2) maxMajSteps
          stepSize) maxMinSteps with h0 | ⟨hlo, hhi, hpos, hends⟩
    · left
      rw [h0]
      split <;> rfl
    · right
      split
      · simp only [QwtScaleDiv.invert]
        rw [hlo, hhi]
        exact ⟨b3, b4, b1, b2, hpos, hends⟩
      · rw [hlo, hhi]
        exact ⟨b1, b2, b3, b4, hpos, hends⟩

/-- Witness for C8 (as amended): the call `divideScale(1, 1000, 5, 9, 0)` with the
instance `decadeLibm`; the interval spans three decades. -/
theorem C8_log10_own_path_stays_in_domain_witness :
    QwtLog10ScaleEngine.divideScale decadeLibm 1 1000 5 9 0 = QwtScaleDiv.empty
      ∨ (LOG_MIN ≤ (QwtLog10ScaleEngine.divideScale decadeLibm 1 1000 5 9 0).lowerBound
        ∧ (QwtLog10ScaleEngine.divideScale decadeLibm 1 1000 5 9 0).lowerBound ≤ LOG_MAX
        ∧ LOG_MIN ≤ (QwtLog10ScaleEngine.divideScale decadeLibm 1 1000 5 9 0).upperBound
        ∧ (QwtLog10ScaleEngine.divideScale decadeLibm 1 1000 5 9 0).upperBound ≤ LOG_MAX
        ∧ (∀ t, (t ∈ (QwtLog10ScaleEngine.divideScale decadeLibm 1 1000 5 9 0).minorTicks
            ∨ t ∈ (QwtLog10ScaleEngine.divideScale decadeLibm 1 1000 5 9 0).mediumTicks
            ∨ t ∈ (QwtLog10ScaleEngine.divideScale decadeLibm 1 1000 5 9 0).majorTicks) →
            0 < t)
        ∧ (∀ l ∈ [(QwtLog10ScaleEngine.divideScale decadeLibm 1 1000 5 9 0).minorTicks,
              (QwtLog10ScaleEngine.divideScale decadeLibm 1 1000 5 9 0).mediumTicks,
              (QwtLog10ScaleEngine.divideScale decadeLibm 1 1000 5 9 0).majorTicks],
            ∀ t, (l.head? = some t ∨ l.getLast? = some t) →
              contains (QwtLog10ScaleEngine.clamped 1 1000) t = true)) :=
  C8_log10_own_path_stays_in_domain decadeLibm
    (fun y => zpow_pos (by norm_num) _) (fun y => zpow_pos (by norm_num) _)
    1 1000 5 9 0 (by decide!)

theorem strip_head_of_contained (l : List ℚ) (I : QwtInterval) (f : ℚ)
    (hf : l.head? = some f) (hc : contains I f = true) : (strip l I).head? = some f := by
  have hval : I.isValid = true := by
    rw [contains_iff] at hc
    simp [QwtInterval.isValid, hc.1]
  cases l with
  | nil => simp at hf
  | cons x xs =>
    simp only [List.head?_cons, Option.some.injEq] at hf
    subst hf
    unfold strip
    simp only [hval, Bool.not_true, List.length_cons, Bool.false_or]
    have : (xs.length + 1 == 0) = false := rfl
    rw [this]
    simp only [Bool.false_eq_true, if_false, List.head?_cons]
    split
    · split
      · rfl
      · rw [List.filter_cons, if_pos hc]; rfl
    · rename_i hno
      exact (hno x ((x :: xs).getLast (by simp)) rfl
        (List.getLast?_eq_getLast _ (by simp))).elim

theorem inLogDomain_false_of_lower (d : QwtScaleDiv) (h : d.lowerBound < LOG_MIN) :
    inLogDomain d = false := by
  unfold inLogDomain
  rw [Bool.and_eq_false_iff]
  left
  rw [decide_eq_false_iff_not]
  intro hh
  exact absurd hh.1 (not_le.mpr h)

theorem inLogDomain_false_of_major (d : QwtScaleDiv) (t : ℚ) (ht : t ∈ d.majorTicks)
    (h : t < LOG_MIN) : inLogDomain d = false := by
  unfold inLogDomain
  rw [Bool.and_eq_false_iff]
  right
  rw [List.all_eq_false]
  refine ⟨t, by simp [ht], ?_⟩
  rw [decide_eq_true_iff]
  intro hh
  exact absurd hh.1 (not_le.mpr h)

theorem decadeLibm_log10_tiny : decadeLibm.log10 (1 / 10 ^ 100) = -100 := by
  have h : (1 / 10 ^ 100 : ℚ) = ((10 : ℕ) : ℚ) ^ (-100 : ℤ) := by norm_num
  show ((Int.log 10 (1 / 10 ^ 100 : ℚ) : ℤ) : ℚ) = -100
  rw [h, Int.log_zpow (by norm_num : 1 < 10)]
  norm_num

/-- C8 (counterexample): with a step of three decades, `divideScale(1e-100, 1, 5, 0, 3)`
of the log10 engine starts its major ticks at `1e-102`, below `LOG_MIN`; and
`divideScale(0, 5e-100, 5, 0, 0)`, whose limited interval spans less than a decade, is
answered by the linear engine on the raw limits and has the lower bound `0`. Neither
result is empty. -/
theorem C8_counterexample :
    (QwtLog10ScaleEngine.divideScale decadeLibm (1 / 10 ^ 100) 1 5 0 3).majorTicks.head?
        = some (1 / 10 ^ 102)
      ∧ QwtLog10ScaleEngine.divideScale decadeLibm (1 / 10 ^ 100) 1 5 0 3 ≠ QwtScaleDiv.empty
      ∧ inLogDomain (QwtLog10ScaleEngine.divideScale decadeLibm (1 / 10 ^ 100) 1 5 0 3) = false
      ∧ (QwtLog10ScaleEngine.divideScale decadeLibm 0 (5 / 10 ^ 100) 5 0 0).lowerBound = 0
      ∧ QwtLog10ScaleEngine.divideScale decadeLibm 0 (5 / 10 ^ 100) 5 0 0 ≠ QwtScaleDiv.empty
      ∧ inLogDomain (QwtLog10ScaleEngine.divideScale decadeLibm 0 (5 / 10 ^ 100) 5 0 0)
          = false := by
  -- the own path of the log10 engine
  have hc : QwtLog10ScaleEngine.clamped (1 / 10 ^ 100) 1 = ⟨1 / 10 ^ 100, 1⟩ := by decide!
  have hw : ¬ (QwtInterval.mk (1 / 10 ^ 100) 1).width ≤ 0 := by decide!
  have hr : ¬ ((1 : ℚ) / (1 / 10 ^ 100) < 10) := by norm_num
  have hg : ¬ ((1 / 10 ^ 100 : ℚ) > 1) := by norm_num
  have hstep : QwtLog10ScaleEngine.usedStepSize decadeLibm ⟨1 / 10 ^ 100, 1⟩ 5 3 = 3 := by
    decide!
  have hal : (QwtLog10ScaleEngine.align decadeLibm ⟨1 / 10 ^ 100, 1⟩ 3).minValue
      = 1 / 10 ^ 102 := by
    have a1 : QwtScaleArithmetic.floorEps (-100) 3 = -102 := by decide!
    have c1 : qwtFuzzyCompare (1 / 10 ^ 100) (-102) 3 = 1 := by decide!
    have p1 : decadeLibm.pow10 (-102) = 1 / 10 ^ 102 := by decide!
    simp only [QwtLog10ScaleEngine.align, QwtLog10ScaleEngine.log10,
      QwtLog10ScaleEngine.pow10, decadeLibm_log10_tiny, a1, c1, one_ne_zero, if_false, p1]
  have hcont : contains ⟨1 / 10 ^ 100, 1⟩ (1 / 10 ^ 102) = true := by decide!
  have hd : QwtLog10ScaleEngine.divideScale decadeLibm (1 / 10 ^ 100) 1 5 0 3
      = QwtScaleDiv.ofTicks ⟨1 / 10 ^ 100, 1⟩
          (QwtLog10ScaleEngine.buildTicks decadeLibm ⟨1 / 10 ^ 100, 1⟩ 3 0).1
          (QwtLog10ScaleEngine.buildTicks decadeLibm ⟨1 / 10 ^ 100, 1⟩ 3 0).2.1
          (QwtLog10ScaleEngine.buildTicks decadeLibm ⟨1 / 10 ^ 100, 1⟩ 3 0).2.2 := by
    simp only [QwtLog10ScaleEngine.divideScale, hc, hw, hr, hg, if_false, hstep,
      QwtLog10ScaleEngine.scaleDivFor, ne_eq, OfNat.ofNat_ne_zero, not_false_eq_true, if_true]
  have hhead : (QwtLog10ScaleEngine.divideScale decadeLibm (1 / 10 ^ 100) 1 5 0 3).majorTicks.head?
      = some (1 / 10 ^ 102) := by
    rw [hd]
    simp only [QwtScaleDiv.ofTicks, QwtLog10ScaleEngine.buildTicks]
    apply strip_head_of_contained _ _ _ _ hcont
    rw [← hal]
    simp [QwtLog10ScaleEngine.buildMajorTicks]
  have hmem : (1 / 10 ^ 102 : ℚ)
      ∈ (QwtLog10ScaleEngine.divideScale decadeLibm (1 / 10 ^ 100) 1 5 0 3).majorTicks := by
    rw [List.head?_eq_some_iff] at hhead
    obtain ⟨ys, hys⟩ := hhead
    rw [hys]; exact List.mem_cons_self _ _
  -- the path through the linear engine
  obtain ⟨_, hlin⟩ := linear_divideScale_of_lt 0 (5 / 10 ^ 100) (by norm_num) 5 0 0
  have hc2 : QwtLog10ScaleEngine.clamped 0 (5 / 10 ^ 100) = ⟨1 / 10 ^ 100, 5 / 10 ^ 100⟩ := by
    decide!
  have hw2 : ¬ (QwtInterval.mk (1 / 10 ^ 100) (5 / 10 ^ 100)).width ≤ 0 := by decide!
  have hr2 : ((5 / 10 ^ 100 : ℚ) / (1 / 10 ^ 100) < 10) := by norm_num
  have hd2 : QwtLog10ScaleEngine.divideScale decadeLibm 0 (5 / 10 ^ 100) 5 0 0
      = QwtLinearScaleEngine.divideScale 0 (5 / 10 ^ 100) 5 0 0 := by
    simp only [QwtLog10ScaleEngine.divideScale, hc2, hw2, hr2, if_false, if_true, ne_eq,
      not_true_eq_false]
  have hlow : (QwtLog10ScaleEngine.divideScale decadeLibm 0 (5 / 10 ^ 100) 5 0 0).lowerBound
      = 0 := by
    rw [hd2, hlin]; rfl
  refine ⟨hhead, ?_, ?_, hlow, ?_, ?_⟩
  · intro h
    rw [h] at hhead
    simp [QwtScaleDiv.empty] at hhead
  · exact inLogDomain_false_of_major _ _ hmem (by decide!)
  · intro h
    have hv : (QwtLog10ScaleEngine.divideScale decadeLibm 0 (5 / 10 ^ 100) 5 0 0).isValid
        = true := by
      rw [hd2, hlin]; rfl
    rw [h] at hv
    simp [QwtScaleDiv.empty] at hv
  · apply inLogDomain_false_of_lower
    rw [hlow]
    decide!

/-! ### The number of sub-ticks per major step -/

theorem minorStep_spec (maxMin : ℤ) (s ms : ℚ) (nt : ℤ) (hs : 0 < s) (h1 : 1 ≤ maxMin)
    (h2 : maxMin ≤ 499999)
    (h : QwtLinearScaleEngine.minorStep maxMin s = some (ms, nt)) :
    0 < ms ∧ (nt : ℚ) * ms ≤ s ∧ nt ≤ max 1 (maxMin - 1) := by
  have hms := minorStep_pos maxMin s hs ms nt h
  refine ⟨hms, ?_⟩
  have hmpos : (0 : ℚ) < (maxMin : ℚ) := by exact_mod_cast (by omega : 0 < maxMin)
  have hmle : (maxMin : ℚ) ≤ 499999 := by exact_mod_cast h2
  have hm0pos := divideInterval_pos s maxMin hs (by omega)
  have hm0ge := le_divideInterval s maxMin hs (by omega)
  rw [div_le_iff₀ hmpos] at hm0ge
  unfold QwtLinearScaleEngine.minorStep at h
  simp only [hm0pos.ne', if_false] at h
  set m0 := divideInterval s maxMin with hm0
  split at h
  · -- the minor steps do not fit: one tick in the middle
    simp only [Option.some.injEq, Prod.mk.injEq] at h
    obtain ⟨rfl, rfl⟩ := h
    refine ⟨by push_cast; linarith, le_max_left _ _⟩
  · rename_i hfit
    simp only [Option.some.injEq, Prod.mk.injEq] at h
    obtain ⟨rfl, rfl⟩ := h
    rw [fuzzy_pos_iff, not_lt, abs_of_pos hs, abs_of_pos hm0pos,
      abs_of_pos (mul_pos (by norm_num) hs)] at hfit
    have hdiv : 0 < s / m0 := div_pos hs hm0pos
    rw [abs_of_pos hdiv] at hfit ⊢
    unfold qCeil at hfit ⊢
    have hcast : (((⌈s / m0⌉ - 1 + 1 : ℤ)) : ℚ) = (⌈s / m0⌉ : ℚ) := by push_cast; ring
    rw [hcast] at hfit
    constructor
    · push_cast
      nlinarith
    · apply le_max_of_le_right
      have hceil : ⌈s / m0⌉ ≤ maxMin := by
        rw [Int.ceil_le, div_le_iff₀ hm0pos]
        by_contra hcon
        rw [not_le] at hcon
        have hgt : (maxMin : ℚ) < s / m0 := by rw [lt_div_iff₀ hm0pos]; exact hcon
        have hc2 : maxMin + 1 ≤ ⌈s / m0⌉ := by
          have := Int.lt_ceil.mpr hgt
          omega
        have hc3 : (maxMin : ℚ) + 1 ≤ (⌈s / m0⌉ : ℚ) := by exact_mod_cast hc2
        have hc4 : ((maxMin : ℚ) + 1) * m0 ≤ (⌈s / m0⌉ : ℚ) * m0 :=
          mul_le_mul_of_nonneg_right hc3 hm0pos.le
        nlinarith
      omega

/-! ### List lemmas for counting ticks between adjacent major ticks -/

theorem adjacent_sorted : ∀ (S : List ℚ), S.Pairwise (· < ·) → ∀ u w : ℚ,
    (u, w) ∈ S.zip S.tail → u < w ∧ ∀ v ∈ S, v ≤ u ∨ w ≤ v := by
  intro S
  induction S with
  | nil => intro _ u w h; simp at h
  | cons x r ih =>
    intro hp u w h
    cases r with
    | nil => simp at h
    | cons y r2 =>
      rw [List.pairwise_cons] at hp
      simp only [List.tail_cons, List.zip_cons_cons, List.mem_cons, Prod.mk.injEq] at h
      rcases h with ⟨rfl, rfl⟩ | h
      · refine ⟨hp.1 w (List.mem_cons_self _ _), ?_⟩
        intro v hv
        rcases List.mem_cons.mp hv with rfl | hv
        · exact Or.inl le_rfl
        · right
          have hp2 := hp.2
          rw [List.pairwise_cons] at hp2
          rcases List.mem_cons.mp hv with rfl | hv
          · exact le_rfl
          · exact (hp2.1 v hv).le
      · have key := ih hp.2 u w (by simpa using h)
        refine ⟨key.1, ?_⟩
        intro v hv
        rcases List.mem_cons.mp hv with rfl | hv
        · left
          have hu : u ∈ y :: r2 := (List.of_mem_zip h).1
          exact (hp.1 u hu).le
        · exact key.2 v hv

theorem length_filter_flatMap (β : ℚ → Bool) (F : ℚ → List ℚ) (G : List ℚ) :
    ((G.flatMap F).filter β).length = (G.map (fun v => ((F v).filter β).length)).sum := by
  induction G with
  | nil => simp
  | cons x r ih =>
    rw [List.flatMap_cons, List.filter_append, List.length_append, ih]
    simp

theorem sum_map_eq_zero (G : List ℚ) (f : ℚ → ℕ) (h : ∀ v ∈ G, f v = 0) :
    (G.map f).sum = 0 := by
  induction G with
  | nil => simp
  | cons x r ih =>
    rw [List.map_cons, List.sum_cons, h x (List.mem_cons_self _ _),
      ih (fun v hv => h v (List.mem_cons_of_mem _ hv))]

theorem sum_map_le_of_single (G : List ℚ) (f : ℚ → ℕ) (u : ℚ) (K : ℕ) (hnd : G.Nodup)
    (h0 : ∀ v ∈ G, v ≠ u → f v = 0) (hK : f u ≤ K) : (G.map f).sum ≤ K := by
  induction G with
  | nil => simp
  | cons x r ih =>
    rw [List.nodup_cons] at hnd
    rw [List.map_cons, List.sum_cons]
    by_cases hx : x = u
    · subst hx
      have : (r.map f).sum = 0 := by
        apply sum_map_eq_zero
        intro v hv
        apply h0 v (List.mem_cons_of_mem _ hv)
        intro hvx
        rw [hvx] at hv
        exact hnd.1 hv
      rw [this]
      exact hK
    · rw [h0 x (List.mem_cons_self _ _) hx, zero_add]
      exact ih hnd.2 (fun v hv => h0 v (List.mem_cons_of_mem _ hv))

theorem length_filter_beq_partition (p : ℕ → Bool) (l : List ℕ) :
    (l.filter (fun j => p j == false)).length + (l.filter (fun j => p j == true)).length
      = l.length := by
  induction l with
  | nil => simp
  | cons x r ih =>
    rw [List.filter_cons, List.filter_cons]
    cases hp : p x
    · rw [if_pos (by decide), if_neg (by decide)]
      simp only [List.length_cons]
      omega
    · rw [if_neg (by decide), if_pos (by decide)]
      simp only [List.length_cons]
      omega

theorem subTickIndices_length (med : ℤ) (n : ℕ) (k : ℤ) :
    (subTickIndices med false n k).length + (subTickIndices med true n k).length = n := by
  unfold subTickIndices
  rw [length_filter_beq_partition (fun j => decide (k + (j : ℤ) = med)) (List.range n),
    List.length_range]

/-! ### The raster of the major ticks -/

theorem buildMajorTicks_mem (B : QwtInterval) (s v : ℚ)
    (hv : v ∈ QwtLinearScaleEngine.buildMajorTicks B s) :
    (∃ i : ℕ, i ≤ (QwtLinearScaleEngine.majorNumTicks B s - 2).toNat
        ∧ v = B.minValue + (i : ℚ) * s)
      ∨ v = B.maxValue := by
  unfold QwtLinearScaleEngine.buildMajorTicks at hv
  simp only [List.mem_append, List.mem_singleton, List.mem_map, List.mem_range] at hv
  rcases hv with (rfl | ⟨j, hj, rfl⟩) | rfl
  · exact Or.inl ⟨0, Nat.zero_le _, by simp⟩
  · exact Or.inl ⟨j + 1, hj, by push_cast; ring⟩
  · exact Or.inr rfl

theorem buildMajorTicks_strict (B : QwtInterval) (s : ℚ) (hs : 0 < s)
    (hB : B.minValue < B.maxValue) :
    (QwtLinearScaleEngine.buildMajorTicks B s).Pairwise (· < ·) := by
  unfold QwtLinearScaleEngine.buildMajorTicks
  simp only
  rw [List.append_assoc, List.pairwise_append]
  refine ⟨List.pairwise_singleton _ _, ?_, ?_⟩
  · rw [List.pairwise_append]
    refine ⟨?_, List.pairwise_singleton _ _, ?_⟩
    · rw [List.pairwise_map]
      refine List.Pairwise.imp ?_ (List.pairwise_lt_range _)
      intro a b hab
      have : (a : ℚ) < (b : ℚ) := by exact_mod_cast hab
      nlinarith
    · intro a ha b hb
      rw [List.mem_map] at ha
      obtain ⟨j, hj, rfl⟩ := ha
      rw [List.mem_range] at hj
      rw [List.mem_singleton] at hb
      subst hb
      have := major_inner_le B s hs hB.le j hj
      linarith
  · intro a ha b hb
    rw [List.mem_singleton] at ha
    subst ha
    rw [List.mem_append] at hb
    rcases hb with hb | hb
    · rw [List.mem_map] at hb
      obtain ⟨j, _, rfl⟩ := hb
      have : (0 : ℚ) < ((j : ℚ) + 1) * s := mul_pos (by positivity) hs
      linarith
    · rw [List.mem_singleton] at hb
      subst hb
      exact hB

theorem buildMajorTicks_le_max (B : QwtInterval) (s : ℚ) (hs : 0 < s)
    (hB : B.minValue ≤ B.maxValue) :
    ∀ v ∈ QwtLinearScaleEngine.buildMajorTicks B s, v ≤ B.maxValue := by
  intro v hv
  exact ((bracket_of_sorted _ (buildMajorTicks_sorted B s hs hB)) B.minValue B.maxValue
    (buildMajorTicks_head B s) (buildMajorTicks_last B s) v hv).2

theorem buildMajorTicks_gap (B : QwtInterval) (s : ℚ) (hs : 0 < s) (v u : ℚ)
    (hv : v ∈ QwtLinearScaleEngine.buildMajorTicks B s)
    (hu : u ∈ QwtLinearScaleEngine.buildMajorTicks B s) (hvu : v < u)
    (humax : u < B.maxValue) : v + s ≤ u := by
  rcases buildMajorTicks_mem B s u hu with ⟨i, _, rfl⟩ | rfl
  · rcases buildMajorTicks_mem B s v hv with ⟨k, _, rfl⟩ | rfl
    · have hlt : (k : ℚ) < (i : ℚ) := by
        by_contra hcon
        rw [not_lt] at hcon
        have := mul_le_mul_of_nonneg_right hcon hs.le
        linarith
      have hki : k + 1 ≤ i := by exact_mod_cast hlt
      have hq : (k : ℚ) + 1 ≤ (i : ℚ) := by exact_mod_cast hki
      have := mul_le_mul_of_nonneg_right hq hs.le
      linarith
    · linarith
  · exact absurd humax (lt_irrefl _)

/-! ### Sub-ticks between adjacent major ticks -/

theorem snapTick_idem (s t : ℚ) : snapTick s (snapTick s t) = snapTick s t := by
  by_cases h : qwtFuzzyCompare t 0 s = 0
  · have h0 : snapTick s t = 0 := by unfold snapTick; rw [if_pos h]
    rw [h0]
    unfold snapTick
    split <;> rfl
  · have h0 : snapTick s t = t := by unfold snapTick; rw [if_neg h]
    rw [h0, h0]

theorem zip_tail_map (f : ℚ → ℚ) (l : List ℚ) :
    (l.map f).zip (l.map f).tail = (l.zip l.tail).map (Prod.map f f) := by
  rw [← List.map_tail, List.zip_map]

theorem ticksBetween_snapZero_strip_le (p q s : ℚ) (L : List ℚ) (I : QwtInterval)
    (hL : ∀ x ∈ L, snapTick s x = x) :
    ticksBetween p q (snapZero s (strip L I))
      ≤ (L.filter (fun t => decide (p < t ∧ t < q))).length := by
  unfold ticksBetween snapZero
  rw [List.filter_map, List.length_map]
  have h1 : ((strip L I).filter ((fun t => decide (p < t ∧ t < q)) ∘ snapTick s)).length
      ≤ (L.filter ((fun t => decide (p < t ∧ t < q)) ∘ snapTick s)).length :=
    (List.Sublist.filter _ (strip_sublist L I)).length_le
  have h2 : L.filter ((fun t => decide (p < t ∧ t < q)) ∘ snapTick s)
      = L.filter (fun t => decide (p < t ∧ t < q)) := by
    apply List.filter_congr
    intro x hx
    simp only [Function.comp, hL x hx]
  rw [h2] at h1
  exact h1

theorem subTicks_snap_fixed (ms s : ℚ) (js : List ℕ) (G : List ℚ) :
    ∀ x ∈ G.flatMap (subTicks ms s js), snapTick s x = x := by
  intro x hx
  rw [List.mem_flatMap] at hx
  obtain ⟨v, _, hx⟩ := hx
  unfold subTicks at hx
  rw [List.mem_map] at hx
  obtain ⟨j, _, rfl⟩ := hx
  exact snapTick_idem s _

theorem subTicks_filter_nil (ms s p q u w v : ℚ) (nt : ℤ) (med : ℤ) (bl : Bool)
    (hms : 0 < ms) (hnt : (nt : ℚ) * ms ≤ s) (hp : p = snapTick s u) (hq : q = snapTick s w)
    (hv : v + s ≤ u ∨ w ≤ v) :
    (subTicks ms s (subTickIndices med bl nt.toNat 0) v).filter
      (fun t => decide (p < t ∧ t < q)) = [] := by
  rw [List.filter_eq_nil_iff]
  intro x hx
  unfold subTicks at hx
  rw [List.mem_map] at hx
  obtain ⟨j, hj, rfl⟩ := hx
  unfold subTickIndices at hj
  rw [List.mem_filter, List.mem_range] at hj
  have hjn : ((j : ℤ) + 1) ≤ nt := by omega
  have hjq : ((j : ℚ) + 1) ≤ (nt : ℚ) := by exact_mod_cast hjn
  have hjms : ((j : ℚ) + 1) * ms ≤ s :=
    le_trans (mul_le_mul_of_nonneg_right hjq hms.le) hnt
  have hpos : (0 : ℚ) ≤ ((j : ℚ) + 1) * ms := mul_nonneg (by positivity) hms.le
  rw [decide_eq_true_iff, not_and_or]
  rcases hv with hv | hv
  · left
    rw [hp, not_lt]
    exact snapTick_mono s (by linarith)
  · right
    rw [hq, not_lt]
    exact snapTick_mono s (by linarith)

theorem buildTicks_subdivision (a b : ℚ) (hab : a < b) (s : ℚ) (hs : 0 < s) (maxMin : ℤ)
    (h1 : 1 ≤ maxMin) (h2 : maxMin ≤ 499999) (p q : ℚ)
    (hpq : (p, q) ∈ (QwtLinearScaleEngine.buildTicks ⟨a, b⟩ s maxMin).2.2.zip
      (QwtLinearScaleEngine.buildTicks ⟨a, b⟩ s maxMin).2.2.tail) :
    ((ticksBetween p q (QwtLinearScaleEngine.buildTicks ⟨a, b⟩ s maxMin).1
        + ticksBetween p q (QwtLinearScaleEngine.buildTicks ⟨a, b⟩ s maxMin).2.1 : ℕ) : ℤ)
      ≤ max 1 (maxMin - 1) := by
  set I : QwtInterval := ⟨a, b⟩ with hI
  set B := QwtLinearScaleEngine.align I s with hB
  have hBlt : B.minValue < B.maxValue :=
    lt_of_le_of_lt (align_min_le I s hs) (lt_of_lt_of_le hab (le_align_max I s hs))
  set G := QwtLinearScaleEngine.buildMajorTicks B s with hG
  have hGstrict : G.Pairwise (· < ·) := buildMajorTicks_strict B s hs hBlt
  have hGsorted : G.Pairwise (· ≤ ·) := buildMajorTicks_sorted B s hs hBlt.le
  have hmaxmin : maxMin > 0 := by omega
  simp only [QwtLinearScaleEngine.buildTicks, hmaxmin, if_true] at hpq ⊢
  rw [← hB, ← hG] at hpq ⊢
  -- the adjacent major ticks before the snapping
  unfold snapZero at hpq
  rw [zip_tail_map, List.mem_map] at hpq
  obtain ⟨⟨u, w⟩, huw, hpair⟩ := hpq
  simp only [Prod.map, Prod.mk.injEq] at hpair
  obtain ⟨hp, hq⟩ := hpair
  have hSstrict : (strip G I).Pairwise (· < ·) :=
    List.Pairwise.sublist (strip_sublist G I) hGstrict
  obtain ⟨huw_lt, hadj⟩ := adjacent_sorted (strip G I) hSstrict u w huw
  have huS : u ∈ strip G I := (List.of_mem_zip huw).1
  have hwS : w ∈ strip G I := List.mem_of_mem_tail (List.of_mem_zip huw).2
  have huG : u ∈ G := mem_strip G I u huS
  have hwG : w ∈ G := mem_strip G I w hwS
  have hcont := strip_mem_contains G I (bracket_of_sorted G hGsorted)
  have hall : ∀ v ∈ G, v ≤ u ∨ w ≤ v := by
    intro v hv
    rcases strip_cases G I with h0 | ⟨h3, _⟩ | h4
    · rw [h0] at huS; simp at huS
    · rw [h3] at hadj; exact hadj v hv
    · by_cases hc : contains I v = true
      · apply hadj v
        rw [h4, List.mem_filter]
        exact ⟨hv, hc⟩
      · rcases le_or_lt v u with h5 | h5
        · exact Or.inl h5
        · rcases le_or_lt w v with h6 | h6
          · exact Or.inr h6
          · exact absurd (contains_convex I u v w (hcont u huS) (hcont w hwS) h5.le h6.le) hc
  have humax : u < B.maxValue :=
    lt_of_lt_of_le huw_lt (buildMajorTicks_le_max B s hs hBlt.le w hwG)
  have hside : ∀ v ∈ G, v ≠ u → (v + s ≤ u ∨ w ≤ v) := by
    intro v hv hne
    rcases hall v hv with h5 | h5
    · exact Or.inl (buildMajorTicks_gap B s hs v u hv huG (lt_of_le_of_ne h5 hne) humax)
    · exact Or.inr h5
  -- the sub-ticks
  rw [buildMinorTicks_eq]
  cases hstep : QwtLinearScaleEngine.minorStep maxMin s with
  | none =>
    simp only
    have h0 : strip [] I = [] := by simp [strip]
    rw [h0]
    simp only [ticksBetween, snapZero, List.map_nil, List.filter_nil, List.length_nil]
    have : (1 : ℤ) ≤ max 1 (maxMin - 1) := le_max_left _ _
    omega
  | some pr =>
    obtain ⟨ms, nt⟩ := pr
    simp only
    obtain ⟨hms, hnt, hbound⟩ := minorStep_spec maxMin s ms nt hs h1 h2 hstep
    set med : ℤ := if Int.tmod nt 2 ≠ 0 then Int.tdiv nt 2 else -1 with hmed
    have hA := ticksBetween_snapZero_strip_le p q s
      (G.flatMap (subTicks ms s (subTickIndices med false nt.toNat 0))) I
      (subTicks_snap_fixed ms s _ G)
    have hM := ticksBetween_snapZero_strip_le p q s
      (G.flatMap (subTicks ms s (subTickIndices med true nt.toNat 0))) I
      (subTicks_snap_fixed ms s _ G)
    rw [length_filter_flatMap] at hA hM
    have hsum : (G.map (fun v =>
          ((subTicks ms s (subTickIndices med false nt.toNat 0) v).filter
              (fun t => decide (p < t ∧ t < q))).length
            + ((subTicks ms s (subTickIndices med true nt.toNat 0) v).filter
              (fun t => decide (p < t ∧ t < q))).length)).sum ≤ nt.toNat := by
      apply sum_map_le_of_single G _ u nt.toNat hGstrict.nodup
      · intro v hv hne
        rw [subTicks_filter_nil ms s p q u w v nt med false hms hnt hp.symm hq.symm
            (hside v hv hne),
          subTicks_filter_nil ms s p q u w v nt med true hms hnt hp.symm hq.symm
            (hside v hv hne)]
        rfl
      · have l1 := List.length_filter_le (fun t => decide (p < t ∧ t < q))
          (subTicks ms s (subTickIndices med false nt.toNat 0) u)
        have l2 := List.length_filter_le (fun t => decide (p < t ∧ t < q))
          (subTicks ms s (subTickIndices med true nt.toNat 0) u)
        have l3 := subTickIndices_length med nt.toNat 0
        simp only [subTicks, List.length_map] at l1 l2 ⊢
        omega
    rw [List.sum_map_add] at hsum
    have hb1 : (1 : ℤ) ≤ max 1 (maxMin - 1) := le_max_left _ _
    omega

/-- C10 (counterexample): `divideScale(0, 6, 5, 1, 3)` of the linear engine has the
major ticks `[0, 3, 6]` and the medium ticks `[1.5, 4.5]`: with `maxMinSteps = 1` one
tick lies between two adjacent major ticks, more than `maxMinSteps - 1 = 0`. -/
theorem C10_counterexample :
    (QwtLinearScaleEngine.divideScale 0 6 5 1 3).majorTicks = [0, 3, 6]
      ∧ (QwtLinearScaleEngine.divideScale 0 6 5 1 3).mediumTicks = [3 / 2, 9 / 2]
      ∧ subdivisionBounded (1 - 1) (QwtLinearScaleEngine.divideScale 0 6 5 1 3) = false := by
  decide!

/-- C10 (as amended): for the linear engine, every `a < b` and
`1 <= maxMinSteps <= 499999` (auto-computed or caller-supplied step size), the number
of minor plus medium ticks strictly between two adjacent major ticks of the result is
at most `max(1, maxMinSteps - 1)`. -/
theorem C10_linear_subdivision_bounded (a b : ℚ) (maxMajSteps maxMinSteps : ℤ) (stepSize : ℚ)
    (hab : a < b) (h1 : 1 ≤ maxMinSteps) (h2 : maxMinSteps ≤ 499999) :
    subdivisionBounded (max 1 (maxMinSteps - 1))
      (QwtLinearScaleEngine.divideScale a b maxMajSteps maxMinSteps stepSize) = true := by
  obtain ⟨hs, hd⟩ := linear_divideScale_of_lt a b hab maxMajSteps maxMinSteps stepSize
  rw [hd]
  unfold subdivisionBounded
  simp only [QwtScaleDiv.ofTicks]
  rw [List.all_eq_true]
  intro pq hpq
  rw [decide_eq_true_iff]
  exact buildTicks_subdivision a b hab _ hs maxMinSteps h1 h2 pq.1 pq.2 hpq

/-- Witness for C10 (as amended): `divideScale(0, 100, 5, 3, 0)`, with one medium tick
between adjacent major ticks and `max(1, 3 - 1) = 2`. -/
theorem C10_linear_subdivision_bounded_witness :
    subdivisionBounded (max 1 (3 - 1)) (QwtLinearScaleEngine.divideScale 0 100 5 3 0) = true :=
  C10_linear_subdivision_bounded 0 100 5 3 0 (by norm_num) (by norm_num) (by norm_num)

/-! ### The aligned interval lies on the step raster -/

open QwtScaleTransformation in
theorem configured_paint_last (logCnv : ℚ → ℚ → ℚ → ℚ → ℚ) (m0 : QwtScaleMap)
    (s1 s2 p1 p2 : ℚ) :
    QwtScaleMap.setPaintInterval logCnv (QwtScaleMap.setScaleInterval logCnv m0 s1 s2) p1 p2
      = { d_s1 := s1, d_s2 := s2, d_p1 := p1, d_p2 := p2,
          d_cnv := (match m0.d_transformation.type with
            | .Linear => (p2 - p1) / (s2 - s1)
            | .Log10 => logCnv s1 s2 p1 p2
            | .Other => m0.d_cnv),
          d_transformation := m0.d_transformation } := by
  unfold QwtScaleMap.setPaintInterval QwtScaleMap.setScaleInterval QwtScaleMap.newFactor
  cases h : m0.d_transformation.type <;> simp [h]

open QwtScaleTransformation in
theorem configured_scale_last (logCnv : ℚ → ℚ → ℚ → ℚ → ℚ) (m0 : QwtScaleMap)
    (s1 s2 p1 p2 : ℚ) :
    QwtScaleMap.setScaleInterval logCnv (QwtScaleMap.setPaintInterval logCnv m0 p1 p2) s1 s2
      = QwtScaleMap.setPaintInterval logCnv (QwtScaleMap.setScaleInterval logCnv m0 s1 s2)
          p1 p2 := by
  unfold QwtScaleMap.setPaintInterval QwtScaleMap.setScaleInterval QwtScaleMap.newFactor
  cases h : m0.d_transformation.type <;> simp [h]

/-- C13 (counterexample): with the scale interval `(1, 0)` and the paint interval `(0, 0)`
the sign of `p2 - p1` is zero and the sign of `s2 - s1` is negative, so the signs differ,
and `isInverting` is false. -/
theorem C13_counterexample :
    QwtScaleMap.isInverting ⟨1, 0, 0, 0, 0, QwtScaleTransformation.linear⟩ = false
      ∧ SignType.sign ((0 : ℚ) - 0) ≠ SignType.sign ((0 : ℚ) - 1) := by
  constructor
  · simp [QwtScaleMap.isInverting]
  · simp

/-- C13 (as amended): `isInverting` is true exactly when one of the two differences `p2 - p1`
and `s2 - s1` is positive and the other is not; when neither difference is zero, that is
exactly when their signs differ. -/
theorem C13_isInverting_iff (m : QwtScaleMap) :
    (m.isInverting = true ↔
        ((SignType.sign (m.d_p2 - m.d_p1) = 1) ↔ ¬ (SignType.sign (m.d_s2 - m.d_s1) = 1)))
      ∧ (m.d_p1 ≠ m.d_p2 → m.d_s1 ≠ m.d_s2 →
        (m.isInverting = true ↔
          SignType.sign (m.d_p2 - m.d_p1) ≠ SignType.sign (m.d_s2 - m.d_s1))) := by
  have key : m.isInverting = true ↔ ((m.d_p1 < m.d_p2) ↔ ¬ (m.d_s1 < m.d_s2)) := by
    unfold QwtScaleMap.isInverting
    by_cases hp : m.d_p1 < m.d_p2 <;> by_cases hs : m.d_s1 < m.d_s2 <;> simp [hp, hs]
  refine ⟨?_, fun hp hs => ?_⟩
  · rw [key, sign_eq_one_iff, sign_eq_one_iff, sub_pos, sub_pos]
  · rw [key]
    rcases lt_or_gt_of_ne hp with h1 | h1 <;> rcases lt_or_gt_of_ne hs with h2 | h2
    · simp [h1, h2, sign_pos (sub_pos.mpr h1), sign_pos (sub_pos.mpr h2)]
    · simp [h1, not_lt.mpr h2.le, sign_pos (sub_pos.mpr h1), sign_neg (sub_neg.mpr h2)]
    · simp [h2, not_lt.mpr h1.le, sign_pos (sub_pos.mpr h2), sign_neg (sub_neg.mpr h1)]
    · simp [not_lt.mpr h1.le, not_lt.mpr h2.le, sign_neg (sub_neg.mpr h1),
        sign_neg (sub_neg.mpr h2)]

/-- Witness for C13 (as amended): the scale interval `(0, 10)` painted on `(100, 0)`. -/
theorem C13_isInverting_iff_witness :
    (QwtScaleMap.isInverting ⟨0, 10, 100, 0, -10, QwtScaleTransformation.linear⟩ = true ↔
      SignType.sign ((0 : ℚ) - 100) ≠ SignType.sign ((10 : ℚ) - 0))
      ∧ QwtScaleMap.isInverting ⟨0, 10, 100, 0, -10, QwtScaleTransformation.linear⟩ = true :=
  ⟨(C13_isInverting_iff ⟨0, 10, 100, 0, -10, QwtScaleTransformation.linear⟩).2
      (by norm_num) (by norm_num),
    by simp [QwtScaleMap.isInverting]⟩

/-! ### The round trip through a Linear scale map -/

theorem linear_round_trip (M : Libm) (logCnv : ℚ → ℚ → ℚ → ℚ → ℚ) (m0 : QwtScaleMap)
    (s1 s2 p1 p2 : ℚ) (hs : s1 ≠ s2) (hp : p1 ≠ p2)
    (hl : m0.d_transformation = QwtScaleTransformation.linear) (x : ℚ) :
    QwtScaleMap.invTransform
        (QwtScaleMap.setPaintInterval logCnv (QwtScaleMap.setScaleInterval logCnv m0 s1 s2)
          p1 p2)
        (QwtScaleMap.transform M
          (QwtScaleMap.setPaintInterval logCnv (QwtScaleMap.setScaleInterval logCnv m0 s1 s2)
            p1 p2) x) = x := by
  rw [configured_paint_last]
  have hs' : s2 - s1 ≠ 0 := sub_ne_zero.mpr (Ne.symm hs)
  have hp' : p2 - p1 ≠ 0 := sub_ne_zero.mpr (Ne.symm hp)
  simp only [QwtScaleMap.transform, QwtScaleMap.invTransform, hl,
    QwtScaleTransformation.linear, QwtScaleTransformation.type,
    QwtScaleTransformation.linearInvXForm, if_true]
  field_simp
  ring

/-- C14 (counterexample): the Linear map with the scale interval `(0, 10)` and the paint
interval `(5, 5)` transforms both `0` and `10` to `5`, and `invTransform` sends `5` back
to `0`: the round trip of `x = 10` gives `0`. -/
theorem C14_counterexample :
    QwtScaleMap.transform decadeLibm
        (QwtScaleMap.setPaintInterval (logDistanceFactor decadeLibm)
          (QwtScaleMap.setScaleInterval (logDistanceFactor decadeLibm) linearMap0 0 10) 5 5) 0
        = 5
      ∧ QwtScaleMap.transform decadeLibm
        (QwtScaleMap.setPaintInterval (logDistanceFactor decadeLibm)
          (QwtScaleMap.setScaleInterval (logDistanceFactor decadeLibm) linearMap0 0 10) 5 5) 10
        = 5
      ∧ QwtScaleMap.invTransform
        (QwtScaleMap.setPaintInterval (logDistanceFactor decadeLibm)
          (QwtScaleMap.setScaleInterval (logDistanceFactor decadeLibm) linearMap0 0 10) 5 5)
        (QwtScaleMap.transform decadeLibm
          (QwtScaleMap.setPaintInterval (logDistanceFactor decadeLibm)
            (QwtScaleMap.setScaleInterval (logDistanceFactor decadeLibm) linearMap0 0 10) 5 5)
          10) ≠ 10 := by
  rw [configured_paint_last]
  simp [QwtScaleMap.transform, QwtScaleMap.invTransform, linearMap0,
    QwtScaleTransformation.linear, QwtScaleTransformation.type,
    QwtScaleTransformation.linearInvXForm]

/-- C14 (as amended): on a map with the Linear transformation, configured (in either order)
with a scale interval `s1 ≠ s2` and a paint interval `p1 ≠ p2`,
`invTransform (transform x) = x` for every `x`, in particular for `x` between `s1` and
`s2`. -/
theorem C14_linear_round_trip (M : Libm) (logCnv : ℚ → ℚ → ℚ → ℚ → ℚ) (m0 : QwtScaleMap)
    (s1 s2 p1 p2 : ℚ) (hs : s1 ≠ s2) (hp : p1 ≠ p2)
    (hl : m0.d_transformation = QwtScaleTransformation.linear) :
    ∀ m ∈ [QwtScaleMap.setPaintInterval logCnv
              (QwtScaleMap.setScaleInterval logCnv m0 s1 s2) p1 p2,
            QwtScaleMap.setScaleInterval logCnv
              (QwtScaleMap.setPaintInterval logCnv m0 p1 p2) s1 s2],
      ∀ x : ℚ, QwtScaleMap.invTransform m (QwtScaleMap.transform M m x) = x := by
  intro m hm x
  have hm' : m = QwtScaleMap.setPaintInterval logCnv
      (QwtScaleMap.setScaleInterval logCnv m0 s1 s2) p1 p2 := by
    simp only [List.mem_cons, List.mem_singleton, List.mem_nil_iff, or_false] at hm
    rcases hm with h | h
    · exact h
    · rw [h, configured_scale_last]
  subst hm'
  exact linear_round_trip M logCnv m0 s1 s2 p1 p2 hs hp hl x

/-- Witness for C14 (as amended): the scale interval `(0, 10)` painted on `(100, 0)`, at `x = 4`. -/
theorem C14_linear_round_trip_witness :
    QwtScaleMap.invTransform
        (QwtScaleMap.setPaintInterval (logDistanceFactor decadeLibm)
          (QwtScaleMap.setScaleInterval (logDistanceFactor decadeLibm) linearMap0 0 10)
          100 0)
        (QwtScaleMap.transform decadeLibm
          (QwtScaleMap.setPaintInterval (logDistanceFactor decadeLibm)
            (QwtScaleMap.setScaleInterval (logDistanceFactor decadeLibm) linearMap0 0 10)
            100 0) 4) = 4 :=
  C14_linear_round_trip decadeLibm (logDistanceFactor decadeLibm) linearMap0 0 10 100 0
    (by norm_num) (by norm_num) rfl _ (List.mem_cons_self _ _) 4

/-! ### Set operations on intervals -/

theorem isValid_iff (i : QwtInterval) : i.isValid = true ↔ i.minValue ≤ i.maxValue := by
  simp [QwtInterval.isValid]

theorem isValid_false_iff (i : QwtInterval) : i.isValid = false ↔ i.maxValue < i.minValue := by
  simp [QwtInterval.isValid]

theorem unite_of_valid (a b : QwtInterval) (ha : a.isValid = true) (hb : b.isValid = true) :
    a.unite b = ⟨min a.minValue b.minValue, max a.maxValue b.maxValue⟩ := by
  unfold QwtInterval.unite
  simp only [ha, hb, Bool.not_true, Bool.false_eq_true, if_false]
  congr 1
  · rcases lt_trichotomy a.minValue b.minValue with h | h | h
    · rw [if_pos h, min_eq_left h.le]
    · rw [if_neg (by linarith), if_neg (by linarith), h, min_self]
    · rw [if_neg (by linarith), if_pos h, min_eq_right h.le]
  · rcases lt_trichotomy a.maxValue b.maxValue with h | h | h
    · rw [if_neg (by simp only [gt_iff_lt]; linarith), if_pos h, max_eq_right h.le]
    · rw [if_neg (by simp only [gt_iff_lt]; linarith),
        if_neg (by simp only [gt_iff_lt]; linarith), h, max_self]
    · rw [if_pos h, max_eq_left h.le]

/-- C15: `a.unite b` is `[min(a.min, b.min), max(a.max, b.max)]` when both intervals are
valid, the valid one of the two, unchanged, when exactly one is valid, and the invalid
interval `[0, -1]` when both are invalid. -/
theorem C15_unite (a b : QwtInterval) :
    (a.isValid = true → b.isValid = true →
        a.unite b = ⟨min a.minValue b.minValue, max a.maxValue b.maxValue⟩)
      ∧ (a.isValid = true → b.isValid = false → a.unite b = a)
      ∧ (a.isValid = false → b.isValid = true → a.unite b = b)
      ∧ (a.isValid = false → b.isValid = false → a.unite b = ⟨0, -1⟩) := by
  refine ⟨unite_of_valid a b, ?_, ?_, ?_⟩
  · intro ha hb
    simp [QwtInterval.unite, ha, hb]
  · intro ha hb
    simp [QwtInterval.unite, ha, hb]
  · intro ha hb
    simp [QwtInterval.unite, ha, hb, QwtInterval.invalid]

/-- Witness for C15: `[0, 2]` and `[1, 5]` are valid, `[3, 1]` and `[7, 2]` are not. -/
theorem C15_unite_witness :
    QwtInterval.unite ⟨0, 2⟩ ⟨1, 5⟩ = ⟨min 0 1, max 2 5⟩
      ∧ QwtInterval.unite ⟨0, 2⟩ ⟨3, 1⟩ = ⟨0, 2⟩
      ∧ QwtInterval.unite ⟨3, 1⟩ ⟨1, 5⟩ = ⟨1, 5⟩
      ∧ QwtInterval.unite ⟨3, 1⟩ ⟨7, 2⟩ = ⟨0, -1⟩ :=
  ⟨(C15_unite ⟨0, 2⟩ ⟨1, 5⟩).1 (by decide!) (by decide!),
    (C15_unite ⟨0, 2⟩ ⟨3, 1⟩).2.1 (by decide!) (by decide!),
    (C15_unite ⟨3, 1⟩ ⟨1, 5⟩).2.2.1 (by decide!) (by decide!),
    (C15_unite ⟨3, 1⟩ ⟨7, 2⟩).2.2.2 (by decide!) (by decide!)⟩

theorem intersect_of_valid (a b : QwtInterval) (ha : a.isValid = true)
    (hb : b.isValid = true) :
    a.intersect b
      = if (a.minValue ≤ b.minValue ∧ a.maxValue < b.minValue)
            ∨ (b.minValue ≤ a.minValue ∧ b.maxValue < a.minValue) then QwtInterval.invalid
        else ⟨max a.minValue b.minValue, min a.maxValue b.maxValue⟩ := by
  have ha' := (isValid_iff a).mp ha
  have hb' := (isValid_iff b).mp hb
  unfold QwtInterval.intersect
  simp only [ha, hb, Bool.not_true, Bool.or_self, Bool.false_eq_true, if_false, gt_iff_lt]
  by_cases hsw : b.minValue < a.minValue
  · simp only [if_pos hsw]
    by_cases hno : b.maxValue < a.minValue
    · rw [if_pos hno, if_pos (Or.inr ⟨hsw.le, hno⟩)]
    · have hnov : ¬ ((a.minValue ≤ b.minValue ∧ a.maxValue < b.minValue)
          ∨ (b.minValue ≤ a.minValue ∧ b.maxValue < a.minValue)) := by
        rintro (⟨h1, _⟩ | ⟨_, h2⟩)
        · linarith
        · exact hno h2
      rw [if_neg hno, if_neg hnov, max_eq_left hsw.le]
      congr 1
      rcases lt_trichotomy b.maxValue a.maxValue with h | h | h
      · rw [if_pos h, min_eq_right h.le]
      · rw [if_neg (by linarith), if_neg (by linarith), h, min_self]
      · rw [if_neg (by linarith), if_pos h, min_eq_left h.le]
  · simp only [if_neg hsw]
    have hle : a.minValue ≤ b.minValue := not_lt.mp hsw
    by_cases hno : a.maxValue < b.minValue
    · rw [if_pos hno, if_pos (Or.inl ⟨hle, hno⟩)]
    · have hnov : ¬ ((a.minValue ≤ b.minValue ∧ a.maxValue < b.minValue)
          ∨ (b.minValue ≤ a.minValue ∧ b.maxValue < a.minValue)) := by
        rintro (⟨_, h2⟩ | ⟨h1, h2⟩)
        · exact hno h2
        · linarith
      rw [if_neg hno, if_neg hnov, max_eq_right hle]
      congr 1
      rcases lt_trichotomy a.maxValue b.maxValue with h | h | h
      · rw [if_pos h, min_eq_left h.le]
      · rw [if_neg (by linarith), if_neg (by linarith), h, min_self]
      · rw [if_neg (by linarith), if_pos h, min_eq_right h.le]

/-- C16: `a.intersect b` is the invalid interval `[0, -1]` when one of the two is invalid
or when the one with the smaller minimum has its maximum strictly below the minimum of
the other; otherwise it is `[max(a.min, b.min), min(a.max, b.max)]`. -/
theorem C16_intersect (a b : QwtInterval) :
    ((a.isValid = false ∨ b.isValid = false) → a.intersect b = ⟨0, -1⟩)
      ∧ (a.isValid = true → b.isValid = true →
          ((a.minValue ≤ b.minValue ∧ a.maxValue < b.minValue)
            ∨ (b.minValue ≤ a.minValue ∧ b.maxValue < a.minValue)) →
          a.intersect b = ⟨0, -1⟩)
      ∧ (a.isValid = true → b.isValid = true →
          ¬ ((a.minValue ≤ b.minValue ∧ a.maxValue < b.minValue)
            ∨ (b.minValue ≤ a.minValue ∧ b.maxValue < a.minValue)) →
          a.intersect b = ⟨max a.minValue b.minValue, min a.maxValue b.maxValue⟩) := by
  refine ⟨?_, ?_, ?_⟩
  · rintro (h | h) <;> simp [QwtInterval.intersect, h, QwtInterval.invalid]
  · intro ha hb h
    rw [intersect_of_valid a b ha hb, if_pos h]
    rfl
  · intro ha hb h
    rw [intersect_of_valid a b ha hb, if_neg h]

/-- Witness for C16: `[3, 1]` is invalid, `[0, 2]` and `[3, 5]` do not overlap,
`[0, 4]` and `[3, 5]` overlap in `[3, 4]`. -/
theorem C16_intersect_witness :
    QwtInterval.intersect ⟨3, 1⟩ ⟨0, 2⟩ = ⟨0, -1⟩
      ∧ QwtInterval.intersect ⟨3, 5⟩ ⟨0, 2⟩ = ⟨0, -1⟩
      ∧ QwtInterval.intersect ⟨0, 4⟩ ⟨3, 5⟩ = ⟨max 0 3, min 4 5⟩ :=
  ⟨(C16_intersect ⟨3, 1⟩ ⟨0, 2⟩).1 (Or.inl (by decide!)),
    (C16_intersect ⟨3, 5⟩ ⟨0, 2⟩).2.1 (by decide!) (by decide!)
      (Or.inr ⟨by norm_num, by norm_num⟩),
    (C16_intersect ⟨0, 4⟩ ⟨3, 5⟩).2.2 (by decide!) (by decide!) (by norm_num)⟩

/-- C17 (counterexample): the invalid interval `[0, -1]` symmetrized around `5` is returned
unchanged; it is not `[5 - 6, 5 + 6]`, where `6 = max(|5 - (-1)|, |5 - 0|)`. -/
theorem C17_counterexample :
    QwtInterval.symmetrize ⟨0, -1⟩ 5 = ⟨0, -1⟩
      ∧ QwtInterval.symmetrize ⟨0, -1⟩ 5
        ≠ ⟨5 - max |(5 : ℚ) - (-1)| |(5 : ℚ) - 0|, 5 + max |(5 : ℚ) - (-1)| |(5 : ℚ) - 0|⟩ := by
  have h : QwtInterval.symmetrize ⟨0, -1⟩ 5 = ⟨0, -1⟩ := by decide!
  refine ⟨h, ?_⟩
  rw [h]
  intro hc
  have h2 := congrArg QwtInterval.maxValue hc
  have h3 : (0 : ℚ) ≤ max |(5 : ℚ) - (-1)| |(5 : ℚ) - 0| := le_max_of_le_left (abs_nonneg _)
  simp only at h2
  linarith

/-- C17 (as amended): for every valid interval `i` and every value `v`, `i.symmetrize v` is
`[v - delta, v + delta]` with `delta = max(|v - i.max|, |v - i.min|)`; `v` is its centre;
and one of its limits is the limit of `i` that is farther from `v` (`i.max` when
`|v - i.min| ≤ |v - i.max|`, `i.min` when `|v - i.max| ≤ |v - i.min|`).  An invalid
interval is returned unchanged. -/
theorem C17_symmetrize (i : QwtInterval) (v : ℚ) :
    (i.isValid = true →
        i.symmetrize v
            = ⟨v - max |v - i.maxValue| |v - i.minValue|,
                v + max |v - i.maxValue| |v - i.minValue|⟩
          ∧ ((i.symmetrize v).minValue + (i.symmetrize v).maxValue) / 2 = v
          ∧ (|v - i.minValue| ≤ |v - i.maxValue| →
            (i.symmetrize v).minValue = i.maxValue ∨ (i.symmetrize v).maxValue = i.maxValue)
          ∧ (|v - i.maxValue| ≤ |v - i.minValue| →
            (i.symmetrize v).minValue = i.minValue ∨ (i.symmetrize v).maxValue = i.minValue))
      ∧ (i.isValid = false → i.symmetrize v = i) := by
  constructor
  · intro hv
    have hv' := (isValid_iff i).mp hv
    have h : i.symmetrize v
        = ⟨v - max |v - i.maxValue| |v - i.minValue|,
            v + max |v - i.maxValue| |v - i.minValue|⟩ := by
      simp [QwtInterval.symmetrize, hv]
    rw [h]
    refine ⟨rfl, by simp, ?_, ?_⟩
    · intro hfar
      simp only
      rw [max_eq_left hfar]
      rcases le_total 0 (v - i.maxValue) with h0 | h0
      · left
        rw [abs_of_nonneg h0]
        ring
      · right
        rw [abs_of_nonpos h0]
        ring
    · intro hfar
      simp only
      rw [max_eq_right hfar]
      rcases le_total 0 (v - i.minValue) with h0 | h0
      · left
        rw [abs_of_nonneg h0]
        ring
      · right
        rw [abs_of_nonpos h0]
        ring
  · intro hv
    simp [QwtInterval.symmetrize, hv]

/-- Witness for C17 (as amended): `[0, 10]` symmetrized around `2` is `[-6, 10]`, whose upper
limit is the limit `10` of `[0, 10]` that is farther from `2`. -/
theorem C17_symmetrize_witness :
    QwtInterval.symmetrize ⟨0, 10⟩ 2 = ⟨-6, 10⟩
      ∧ QwtInterval.symmetrize ⟨0, 10⟩ 2
          = ⟨2 - max |(2 : ℚ) - 10| |(2 : ℚ) - 0|, 2 + max |(2 : ℚ) - 10| |(2 : ℚ) - 0|⟩
      ∧ ((QwtInterval.symmetrize ⟨0, 10⟩ 2).minValue
          + (QwtInterval.symmetrize ⟨0, 10⟩ 2).maxValue) / 2 = 2
      ∧ ((QwtInterval.symmetrize ⟨0, 10⟩ 2).minValue = 10
          ∨ (QwtInterval.symmetrize ⟨0, 10⟩ 2).maxValue = 10)
      ∧ QwtInterval.symmetrize ⟨3, 1⟩ 2 = ⟨3, 1⟩ :=
  ⟨by decide!, ((C17_symmetrize ⟨0, 10⟩ 2).1 (by decide!)).1,
    ((C17_symmetrize ⟨0, 10⟩ 2).1 (by decide!)).2.1,
    ((C17_symmetrize ⟨0, 10⟩ 2).1 (by decide!)).2.2.1 (by decide!),
    (C17_symmetrize ⟨3, 1⟩ 2).2 (by decide!)⟩

/-- C18: `i.limited lo hi` is the invalid interval `[0, -1]` when `i` is invalid or
`lo > hi`; otherwise it is valid, each of its limits is the limit of `i` clamped into
`[lo, hi]` (`lo` below `lo`, `hi` above `hi`, unchanged in between), and both limits lie
in `[lo, hi]`. -/
theorem C18_limited (i : QwtInterval) (lo hi : ℚ) :
    ((i.isValid = false ∨ lo > hi) → i.limited lo hi = ⟨0, -1⟩)
      ∧ (i.isValid = true → lo ≤ hi →
        (i.limited lo hi).isValid = true
          ∧ (i.limited lo hi).minValue
              = (if i.minValue < lo then lo else if hi < i.minValue then hi else i.minValue)
          ∧ (i.limited lo hi).maxValue
              = (if i.maxValue < lo then lo else if hi < i.maxValue then hi else i.maxValue)
          ∧ lo ≤ (i.limited lo hi).minValue ∧ (i.limited lo hi).minValue ≤ hi
          ∧ lo ≤ (i.limited lo hi).maxValue ∧ (i.limited lo hi).maxValue ≤ hi) := by
  have clamp : ∀ x : ℚ, lo ≤ hi →
      min (max x lo) hi = (if x < lo then lo else if hi < x then hi else x) := by
    intro x hlh
    by_cases h1 : x < lo
    · rw [if_pos h1, max_eq_right h1.le, min_eq_left hlh]
    · rw [if_neg h1, max_eq_left (not_lt.mp h1)]
      by_cases h2 : hi < x
      · rw [if_pos h2, min_eq_right h2.le]
      · rw [if_neg h2, min_eq_left (not_lt.mp h2)]
  constructor
  · rintro (h | h)
    · simp [QwtInterval.limited, h, QwtInterval.invalid]
    · simp [QwtInterval.limited, h, QwtInterval.invalid]
  · intro hv hlh
    have hv' := (isValid_iff i).mp hv
    have h : i.limited lo hi
        = ⟨min (max i.minValue lo) hi, min (max i.maxValue lo) hi⟩ := by
      simp [QwtInterval.limited, hv, not_lt.mpr hlh]
    rw [h]
    refine ⟨?_, clamp _ hlh, clamp _ hlh, ?_, ?_, ?_, ?_⟩
    · rw [isValid_iff]
      exact min_le_min (max_le_max hv' le_rfl) le_rfl
    · exact le_min (le_max_right _ _) hlh
    · exact min_le_right _ _
    · exact le_min (le_max_right _ _) hlh
    · exact min_le_right _ _

/-- Witness for C18: `[0, 10]` limited to `[2, 5]` is `[2, 5]`, and limiting the
invalid interval `[3, 1]` gives `[0, -1]`. -/
theorem C18_limited_witness :
    QwtInterval.limited ⟨3, 1⟩ 2 5 = ⟨0, -1⟩
      ∧ QwtInterval.limited ⟨0, 10⟩ 2 5 = ⟨2, 5⟩
      ∧ (QwtInterval.limited ⟨0, 10⟩ 2 5).isValid = true
      ∧ (2 : ℚ) ≤ (QwtInterval.limited ⟨0, 10⟩ 2 5).minValue
      ∧ (QwtInterval.limited ⟨0, 10⟩ 2 5).maxValue ≤ 5 :=
  ⟨(C18_limited ⟨3, 1⟩ 2 5).1 (Or.inl (by decide!)), by decide!,
    ((C18_limited ⟨0, 10⟩ 2 5).2 (by decide!) (by norm_num)).1,
    ((C18_limited ⟨0, 10⟩ 2 5).2 (by decide!) (by norm_num)).2.2.2.1,
    ((C18_limited ⟨0, 10⟩ 2 5).2 (by decide!) (by norm_num)).2.2.2.2.2.2⟩

/-! ### The legend rectangle -/

theorem layoutLegend_height (d : QwtPlotLayout.PrivateData) (rect : QRectF)
    (hpos : d.legendPos = LegendPosition.TopLegend
      ∨ d.legendPos = LegendPosition.BottomLegend) :
    (QwtPlotLayout.layoutLegend d rect).height
      = ((max (min d.layoutData.legend.hint.height (toInt (rect.height * d.legendRatio)))
          d.layoutData.legend.hScrollBarHeight : ℤ) : ℚ) := by
  unfold QwtPlotLayout.layoutLegend
  rcases hpos with h | h <;>
    simp [h, QRectF.height, QRectF.setHeight, QRectF.setY]

theorem layoutLegend_width (d : QwtPlotLayout.PrivateData) (rect : QRectF)
    (hpos : d.legendPos = LegendPosition.LeftLegend
      ∨ d.legendPos = LegendPosition.RightLegend) :
    (QwtPlotLayout.layoutLegend d rect).width
      = ((min d.layoutData.legend.hint.width (toInt (rect.width * d.legendRatio))
          + (if (d.layoutData.legend.hint.height : ℚ) > rect.height
              then d.layoutData.legend.vScrollBarWidth else 0) : ℤ) : ℚ) := by
  unfold QwtPlotLayout.layoutLegend
  rcases hpos with h | h <;>
    by_cases hh : (d.layoutData.legend.hint.height : ℚ) > rect.height <;>
    simp [h, hh, QRectF.width, QRectF.setWidth, QRectF.setX]

theorem create_legend (pos0 : LegendPosition) (r0 : ℚ) (ld0 : QwtPlotLayout.LayoutData) :
    (QwtPlotLayout.create pos0 r0 ld0).legendPos = LegendPosition.BottomLegend
      ∧ (QwtPlotLayout.create pos0 r0 ld0).legendRatio = 33 / 100
      ∧ (QwtPlotLayout.create pos0 r0 ld0).layoutData = ld0 := by
  simp only [QwtPlotLayout.create, QwtPlotLayout.invalidate,
    QwtPlotLayout.setLegendPositionDefault, QwtPlotLayout.setLegendPosition]
  norm_num

theorem toInt_intCast (n : ℤ) : toInt (n : ℚ) = n := by
  unfold toInt
  split <;> simp

theorem legend_scenario (pos0 : LegendPosition) (r0 : ℚ) (ld0 : QwtPlotLayout.LayoutData)
    (legend : QwtLegend) (x y : ℚ) (hs : legend.sizeHint = ⟨400, 200⟩)
    (hfw : legend.heightForWidth 400 = 0 ∨ legend.heightForWidth 400 = 200)
    (hsb : legend.hScrollBarHeight ≤ 99) :
    (QwtPlotLayout.harvest (QwtPlotLayout.create pos0 r0 ld0) (some legend)
        ⟨x, y, 400, 300⟩).layoutData.legend.hint = ⟨400, 200⟩
      ∧ (QwtPlotLayout.layoutLegend
          (QwtPlotLayout.harvest (QwtPlotLayout.create pos0 r0 ld0) (some legend)
            ⟨x, y, 400, 300⟩) ⟨x, y, 400, 300⟩).height = 99 := by
  obtain ⟨hp, hr, _⟩ := create_legend pos0 r0 ld0
  have h400 : toInt (400 : ℚ) = 400 := toInt_intCast 400
  have h99 : toInt ((300 : ℚ) * (33 / 100)) = 99 := by
    have : (300 : ℚ) * (33 / 100) = ((99 : ℤ) : ℚ) := by norm_num
    rw [this, toInt_intCast]
  have hhint : (QwtPlotLayout.harvest (QwtPlotLayout.create pos0 r0 ld0) (some legend)
        ⟨x, y, 400, 300⟩).layoutData.legend.hint = ⟨400, 200⟩ := by
    rcases hfw with h | h <;>
      simp [QwtPlotLayout.harvest, QwtPlotLayout.LayoutData.initLegend, hp, hs, QSize.width,
        QSize.height, QRectF.width, QRectF.height, h400, h] <;>
      norm_num
  have hsbar : (QwtPlotLayout.harvest (QwtPlotLayout.create pos0 r0 ld0) (some legend)
        ⟨x, y, 400, 300⟩).layoutData.legend.hScrollBarHeight = legend.hScrollBarHeight := by
    simp [QwtPlotLayout.harvest, QwtPlotLayout.LayoutData.initLegend, hp]
  refine ⟨hhint, ?_⟩
  rw [layoutLegend_height _ _ (Or.inr (by simp [QwtPlotLayout.harvest, hp])), hhint, hsbar]
  have hr' : (QwtPlotLayout.harvest (QwtPlotLayout.create pos0 r0 ld0) (some legend)
        ⟨x, y, 400, 300⟩).legendRatio = 33 / 100 := by
    simp [QwtPlotLayout.harvest, hr]
  rw [hr']
  simp only [QRectF.height, QSize.height, h99]
  rw [min_eq_right (by norm_num), max_eq_left hsb]
  norm_num

/-- C19 (counterexample): a freshly constructed layout (legend at Bottom, ratio `0.33`),
a legend with size hint `400 x 200` and scroll bar hints of `16`, and a `400 x 30`
rectangle: the legend height is `16`, the height of the horizontal scroll bar, while
`min(200, int(30 * 0.33))` is `9`.  With the legend at Left, ratio `0.5`, a legend hint of
`100 x 400` and the `400 x 300` rectangle, the width is `132`, the harvested hint width
`116` plus the `16` of the vertical scroll bar, while `min(116, int(400 * 0.5))` is
`116`. -/
theorem C19_counterexample :
    (QwtPlotLayout.layoutLegend
        (QwtPlotLayout.harvest (QwtPlotLayout.create LegendPosition.LeftLegend 7 layoutData0)
          (some wideLegend) ⟨0, 0, 400, 30⟩) ⟨0, 0, 400, 30⟩).height = 16
      ∧ ((min (QwtPlotLayout.harvest
            (QwtPlotLayout.create LegendPosition.LeftLegend 7 layoutData0)
            (some wideLegend) ⟨0, 0, 400, 30⟩).layoutData.legend.hint.height
          (toInt ((30 : ℚ) * (33 / 100))) : ℤ) : ℚ) = 9
      ∧ (QwtPlotLayout.layoutLegend
        (QwtPlotLayout.harvest
          (QwtPlotLayout.setLegendPosition
            (QwtPlotLayout.create LegendPosition.LeftLegend 7 layoutData0)
            LegendPosition.LeftLegend (1 / 2))
          (some tallLegend) ⟨0, 0, 400, 300⟩) ⟨0, 0, 400, 300⟩).width = 132
      ∧ ((min (QwtPlotLayout.harvest
            (QwtPlotLayout.setLegendPosition
              (QwtPlotLayout.create LegendPosition.LeftLegend 7 layoutData0)
              LegendPosition.LeftLegend (1 / 2))
            (some tallLegend) ⟨0, 0, 400, 300⟩).layoutData.legend.hint.width
          (toInt ((400 : ℚ) * (1 / 2))) : ℤ) : ℚ) = 116 := by
  decide!

/-- C19 (as amended): with the legend at Top or Bottom, `layoutLegend` returns a rectangle
whose height is `max(min(hint height, int(bounding height * legendRatio)), height of the
horizontal scroll bar)`; with the legend at Left or Right its width is
`min(hint width, int(bounding width * legendRatio))`, plus the width of the vertical
scroll bar when the hint is higher than the bounding rectangle.  For a freshly constructed
layout (Bottom, ratio `0.33`), a `400 x 300` rectangle and a legend with size hint
`400 x 200` whose horizontal scroll bar is at most `99` high, the legend height is `99`. -/
theorem C19_layoutLegend_dimension (d : QwtPlotLayout.PrivateData) (rect : QRectF) :
    ((d.legendPos = LegendPosition.TopLegend ∨ d.legendPos = LegendPosition.BottomLegend) →
        (QwtPlotLayout.layoutLegend d rect).height
          = ((max (min d.layoutData.legend.hint.height (toInt (rect.height * d.legendRatio)))
              d.layoutData.legend.hScrollBarHeight : ℤ) : ℚ))
      ∧ ((d.legendPos = LegendPosition.LeftLegend ∨ d.legendPos = LegendPosition.RightLegend) →
        (QwtPlotLayout.layoutLegend d rect).width
          = ((min d.layoutData.legend.hint.width (toInt (rect.width * d.legendRatio))
              + (if (d.layoutData.legend.hint.height : ℚ) > rect.height
                  then d.layoutData.legend.vScrollBarWidth else 0) : ℤ) : ℚ))
      ∧ (∀ (pos0 : LegendPosition) (r0 : ℚ) (ld0 : QwtPlotLayout.LayoutData)
          (legend : QwtLegend) (x y : ℚ),
        legend.sizeHint = ⟨400, 200⟩ →
        (legend.heightForWidth 400 = 0 ∨ legend.heightForWidth 400 = 200) →
        legend.hScrollBarHeight ≤ 99 →
        (QwtPlotLayout.layoutLegend
          (QwtPlotLayout.harvest (QwtPlotLayout.create pos0 r0 ld0) (some legend)
            ⟨x, y, 400, 300⟩) ⟨x, y, 400, 300⟩).height = 99) :=
  ⟨layoutLegend_height d rect, layoutLegend_width d rect,
    fun pos0 r0 ld0 legend x y hs hfw hsb =>
      (legend_scenario pos0 r0 ld0 legend x y hs hfw hsb).2⟩

/-- Witness for C19 (as amended): the `400 x 300` rectangle and the legend of size hint
`400 x 200` with scroll bar hints of `16`: the height is `99` at Bottom and at Top with
ratio `0.33`, and the width is `200` at Left with ratio `0.5`. -/
theorem C19_layoutLegend_dimension_witness :
    (QwtPlotLayout.layoutLegend
        (QwtPlotLayout.harvest (QwtPlotLayout.create LegendPosition.LeftLegend 7 layoutData0)
          (some wideLegend) ⟨0, 0, 400, 300⟩) ⟨0, 0, 400, 300⟩).height = 99
      ∧ (QwtPlotLayout.layoutLegend
          (QwtPlotLayout.harvest
            (QwtPlotLayout.setLegendPosition
              (QwtPlotLayout.create LegendPosition.LeftLegend 7 layoutData0)
              LegendPosition.TopLegend (33 / 100))
            (some wideLegend) ⟨0, 0, 400, 300⟩) ⟨0, 0, 400, 300⟩).height = 99
      ∧ (QwtPlotLayout.layoutLegend
          (QwtPlotLayout.harvest
            (QwtPlotLayout.setLegendPosition
              (QwtPlotLayout.create LegendPosition.LeftLegend 7 layoutData0)
              LegendPosition.LeftLegend (1 / 2))
            (some wideLegend) ⟨0, 0, 400, 300⟩) ⟨0, 0, 400, 300⟩).width = 200 :=
  ⟨(C19_layoutLegend_dimension
      (QwtPlotLayout.harvest (QwtPlotLayout.create LegendPosition.LeftLegend 7 layoutData0)
        (some wideLegend) ⟨0, 0, 400, 300⟩) ⟨0, 0, 400, 300⟩).2.2
      LegendPosition.LeftLegend 7 layoutData0 wideLegend 0 0 rfl (Or.inl rfl) (by decide),
    ((C19_layoutLegend_dimension
      (QwtPlotLayout.harvest
        (QwtPlotLayout.setLegendPosition
          (QwtPlotLayout.create LegendPosition.LeftLegend 7 layoutData0)
          LegendPosition.TopLegend (33 / 100))
        (some wideLegend) ⟨0, 0, 400, 300⟩) ⟨0, 0, 400, 300⟩).1
      (Or.inl (by decide!))).trans (by decide!),
    ((C19_layoutLegend_dimension
      (QwtPlotLayout.harvest
        (QwtPlotLayout.setLegendPosition
          (QwtPlotLayout.create LegendPosition.LeftLegend 7 layoutData0)
          LegendPosition.LeftLegend (1 / 2))
        (some wideLegend) ⟨0, 0, 400, 300⟩) ⟨0, 0, 400, 300⟩).2.1
      (Or.inl (by decide!))).trans (by decide!)⟩

/-! ### The legend ratio -/

theorem setLegendPosition_ratio (d : QwtPlotLayout.PrivateData) (pos : LegendPosition)
    (ratio : ℚ) :
    (QwtPlotLayout.setLegendPosition d pos ratio).legendPos = pos
      ∧ (QwtPlotLayout.setLegendPosition d pos ratio).legendRatio
        = (if pos = LegendPosition.ExternalLegend then min ratio 1
            else if ratio > 1 then 1
            else if ratio ≤ 0 then
              (if pos = LegendPosition.TopLegend ∨ pos = LegendPosition.BottomLegend
                then 33 / 100 else 1 / 2)
            else ratio) := by
  unfold QwtPlotLayout.setLegendPosition
  by_cases h1 : ratio > 1
  · have h0 : ¬ ((1 : ℚ) ≤ 0) := by norm_num
    cases pos <;> simp [h1, h0, min_eq_right h1.le]
  · have h1' : ratio ≤ 1 := not_lt.mp h1
    by_cases h0 : ratio ≤ 0 <;> cases pos <;> simp [h1, h0, min_eq_left h1']

theorem setLegendPosition_inv (d : QwtPlotLayout.PrivateData) (pos : LegendPosition)
    (ratio : ℚ) :
    (QwtPlotLayout.setLegendPosition d pos ratio).legendRatio ≤ 1
      ∧ ((QwtPlotLayout.setLegendPosition d pos ratio).legendPos
          ≠ LegendPosition.ExternalLegend →
        0 < (QwtPlotLayout.setLegendPosition d pos ratio).legendRatio) := by
  obtain ⟨hp, hr⟩ := setLegendPosition_ratio d pos ratio
  rw [hp, hr]
  constructor
  · split_ifs <;> first | exact min_le_right _ _ | linarith
  · intro hne
    rw [if_neg hne]
    split_ifs <;> linarith

theorem apply_inv (d : QwtPlotLayout.PrivateData) (c : QwtPlotLayout.Call) :
    (QwtPlotLayout.Call.apply d c).legendRatio ≤ 1
      ∧ ((QwtPlotLayout.Call.apply d c).legendPos ≠ LegendPosition.ExternalLegend →
        0 < (QwtPlotLayout.Call.apply d c).legendRatio) := by
  cases c with
  | setLegendPosition pos ratio => exact setLegendPosition_inv d pos ratio
  | setLegendPositionDefault pos => exact setLegendPosition_inv d pos 0
  | setLegendRatio ratio => exact setLegendPosition_inv d _ ratio

theorem run_inv (calls : List QwtPlotLayout.Call) (d : QwtPlotLayout.PrivateData)
    (hd : d.legendRatio ≤ 1 ∧ (d.legendPos ≠ LegendPosition.ExternalLegend → 0 < d.legendRatio)) :
    (QwtPlotLayout.run d calls).legendRatio ≤ 1
      ∧ ((QwtPlotLayout.run d calls).legendPos ≠ LegendPosition.ExternalLegend →
        0 < (QwtPlotLayout.run d calls).legendRatio) := by
  induction calls generalizing d with
  | nil => exact hd
  | cons c cs ih => exact ih (QwtPlotLayout.Call.apply d c) (apply_inv d c)

/-- C20 (counterexample): on a freshly constructed layout the call
`setLegendPosition( ExternalLegend )` leaves the legend ratio `0`, and
`setLegendPosition( ExternalLegend, -1 )` leaves it `-1`. -/
theorem C20_counterexample :
    QwtPlotLayout.legendRatio
        (QwtPlotLayout.run (QwtPlotLayout.create LegendPosition.LeftLegend 7 layoutData0)
          [QwtPlotLayout.Call.setLegendPositionDefault LegendPosition.ExternalLegend]) = 0
      ∧ QwtPlotLayout.legendRatio
        (QwtPlotLayout.run (QwtPlotLayout.create LegendPosition.LeftLegend 7 layoutData0)
          [QwtPlotLayout.Call.setLegendPosition LegendPosition.ExternalLegend (-1)]) = -1 := by
  decide!

/-- C20 (as amended): after construction and after every sequence of the three calls, the
legend ratio is at most `1`, and it is positive whenever the legend position is not
`ExternalLegend`.  After construction the position is Bottom and the ratio `0.33`.  A call
`setLegendPosition( pos, ratio )` stores the position, and as ratio it stores `1` for a
ratio above `1`, the default (`0.33` for Top and Bottom, `0.5` for Left and Right) for a
ratio `<= 0`, and the ratio itself otherwise; for `ExternalLegend` it stores
`min(ratio, 1)`, also when that is `<= 0`. -/
theorem C20_legendRatio_range (pos0 : LegendPosition) (r0 : ℚ)
    (ld0 : QwtPlotLayout.LayoutData) (calls : List QwtPlotLayout.Call) :
    QwtPlotLayout.legendRatio (QwtPlotLayout.run (QwtPlotLayout.create pos0 r0 ld0) calls) ≤ 1
      ∧ (QwtPlotLayout.legendPosition (QwtPlotLayout.run (QwtPlotLayout.create pos0 r0 ld0) calls)
          ≠ LegendPosition.ExternalLegend →
        0 < QwtPlotLayout.legendRatio
          (QwtPlotLayout.run (QwtPlotLayout.create pos0 r0 ld0) calls))
      ∧ QwtPlotLayout.legendPosition (QwtPlotLayout.create pos0 r0 ld0)
          = LegendPosition.BottomLegend
      ∧ QwtPlotLayout.legendRatio (QwtPlotLayout.create pos0 r0 ld0) = 33 / 100
      ∧ (∀ (d : QwtPlotLayout.PrivateData) (pos : LegendPosition) (ratio : ℚ),
          QwtPlotLayout.legendPosition (QwtPlotLayout.setLegendPosition d pos ratio) = pos
            ∧ QwtPlotLayout.legendRatio (QwtPlotLayout.setLegendPosition d pos ratio)
              = (if pos = LegendPosition.ExternalLegend then min ratio 1
                  else if ratio > 1 then 1
                  else if ratio ≤ 0 then
                    (if pos = LegendPosition.TopLegend ∨ pos = LegendPosition.BottomLegend
                      then 33 / 100 else 1 / 2)
                  else ratio)) := by
  obtain ⟨hp, hr, _⟩ := create_legend pos0 r0 ld0
  have h := run_inv calls (QwtPlotLayout.create pos0 r0 ld0)
    ⟨by rw [hr]; norm_num, fun _ => by rw [hr]; norm_num⟩
  exact ⟨h.1, h.2, hp, hr, setLegendPosition_ratio⟩

/-- Witness for C20 (as amended): from a freshly constructed layout, the calls
`setLegendPosition( LeftLegend, -3 )`, `setLegendRatio( 5 )` leave the ratio `1` at the
position Left. -/
theorem C20_legendRatio_range_witness :
    QwtPlotLayout.legendRatio
        (QwtPlotLayout.run (QwtPlotLayout.create LegendPosition.ExternalLegend (-4) layoutData0)
          [QwtPlotLayout.Call.setLegendPosition LegendPosition.LeftLegend (-3),
            QwtPlotLayout.Call.setLegendRatio 5]) = 1
      ∧ 0 < QwtPlotLayout.legendRatio
        (QwtPlotLayout.run (QwtPlotLayout.create LegendPosition.ExternalLegend (-4) layoutData0)
          [QwtPlotLayout.Call.setLegendPosition LegendPosition.LeftLegend (-3),
            QwtPlotLayout.Call.setLegendRatio 5]) :=
  ⟨by decide!,
    (C20_legendRatio_range LegendPosition.ExternalLegend (-4) layoutData0
      [QwtPlotLayout.Call.setLegendPosition LegendPosition.LeftLegend (-3),
        QwtPlotLayout.Call.setLegendRatio 5]).2.1 (by decide!)⟩

/-! ### `align` returns a superset on the step raster -/

/-- C26: for every valid interval `[lo, hi]` and every `stepSize > 0`, `align` returns an
interval `[x1, x2]` with `x1 <= lo` and `hi <= x2`, where `x1` is `lo` itself or an integer
multiple of `stepSize`, and `x2` is `hi` itself or an integer multiple of `stepSize`. -/
theorem C26_align_superset_on_raster (I : QwtInterval) (stepSize : ℚ)
    (hv : I.isValid = true) (hs : 0 < stepSize) :
    (QwtLinearScaleEngine.align I stepSize).minValue ≤ I.minValue
      ∧ I.maxValue ≤ (QwtLinearScaleEngine.align I stepSize).maxValue
      ∧ ((QwtLinearScaleEngine.align I stepSize).minValue = I.minValue
        ∨ ∃ k : ℤ, (QwtLinearScaleEngine.align I stepSize).minValue = (k : ℚ) * stepSize)
      ∧ ((QwtLinearScaleEngine.align I stepSize).maxValue = I.maxValue
        ∨ ∃ k : ℤ, (QwtLinearScaleEngine.align I stepSize).maxValue = (k : ℚ) * stepSize)
      ∧ (QwtLinearScaleEngine.align I stepSize).isValid = true := by
  have h1 := align_min_le I stepSize hs
  have h2 := le_align_max I stepSize hs
  have hv' : I.minValue ≤ I.maxValue := by simpa [QwtInterval.isValid] using hv
  refine ⟨h1, h2, ?_, ?_, ?_⟩
  · unfold QwtLinearScaleEngine.align
    simp only
    split
    · exact Or.inl rfl
    · exact Or.inr ⟨⌊(I.minValue + _eps * stepSize) / stepSize⌋, rfl⟩
  · unfold QwtLinearScaleEngine.align
    simp only
    split
    · exact Or.inl rfl
    · exact Or.inr ⟨⌈(I.maxValue - _eps * stepSize) / stepSize⌉, rfl⟩
  · simp only [QwtInterval.isValid, decide_eq_true_eq]
    linarith

/-- Witness for C26: `[3, 47]` aligned to the step `20` is `[0, 60]`. -/
theorem C26_align_superset_on_raster_witness :
    QwtLinearScaleEngine.align ⟨3, 47⟩ 20 = ⟨0, 60⟩
      ∧ (QwtLinearScaleEngine.align ⟨3, 47⟩ 20).minValue ≤ 3
      ∧ (47 : ℚ) ≤ (QwtLinearScaleEngine.align ⟨3, 47⟩ 20).maxValue
      ∧ ((QwtLinearScaleEngine.align ⟨3, 47⟩ 20).minValue = 3
        ∨ ∃ k : ℤ, (QwtLinearScaleEngine.align ⟨3, 47⟩ 20).minValue = (k : ℚ) * 20)
      ∧ ((QwtLinearScaleEngine.align ⟨3, 47⟩ 20).maxValue = 47
        ∨ ∃ k : ℤ, (QwtLinearScaleEngine.align ⟨3, 47⟩ 20).maxValue = (k : ℚ) * 20)
      ∧ (QwtLinearScaleEngine.align ⟨3, 47⟩ 20).isValid = true :=
  ⟨by decide!, C26_align_superset_on_raster ⟨3, 47⟩ 20 (by decide!) (by norm_num)⟩

/-! ### `strip` and the filter by `contains` -/

theorem contains_of_invalid (I : QwtInterval) (hv : I.isValid = false) (t : ℚ) :
    contains I t = false := by
  simp [contains, hv]

theorem bracket_of_nonDecreasing (l : List ℚ) (h : l.Pairwise (· ≤ ·)) :
    ∀ f t, l.head? = some f → l.getLast? = some t → ∀ x ∈ l, f ≤ x ∧ x ≤ t := by
  intro f t hf ht x hx
  constructor
  · cases l with
    | nil => simp at hx
    | cons a as =>
      simp only [List.head?_cons, Option.some.injEq] at hf
      subst hf
      rcases List.mem_cons.mp hx with h1 | h1
      · rw [h1]
      · exact (List.pairwise_cons.mp h).1 x h1
  · rcases List.eq_nil_or_concat l with h0 | ⟨as, a, h1⟩
    · rw [h0] at hx; simp at hx
    · rw [List.concat_eq_append] at h1
      subst h1
      simp at ht
      subst ht
      rcases List.mem_append.mp hx with h2 | h2
      · exact (List.pairwise_append.mp h).2.2 x h2 a (List.mem_singleton_self a)
      · rw [List.mem_singleton.mp h2]

theorem strip_eq_filter_of_bracket (l : List ℚ) (I : QwtInterval)
    (hb : ∀ f t, l.head? = some f → l.getLast? = some t → ∀ x ∈ l, f ≤ x ∧ x ≤ t) :
    strip l I = l.filter (contains I) := by
  unfold strip
  split
  · rename_i hc
    simp only [Bool.or_eq_true, Bool.not_eq_true', beq_iff_eq, List.length_eq_zero] at hc
    symm
    rw [List.filter_eq_nil_iff]
    intro x hx
    rcases hc with hc | hc
    · simp [contains_of_invalid I hc]
    · rw [hc] at hx
      simp at hx
  · split
    · rename_i f t hf ht
      split
      · rename_i hc
        rw [Bool.and_eq_true] at hc
        symm
        rw [List.filter_eq_self]
        intro x hx
        obtain ⟨hx1, hx2⟩ := hb f t hf ht x hx
        exact contains_convex I f x t hc.1 hc.2 hx1 hx2
      · rfl
    · rename_i hnone
      cases l with
      | nil => simp
      | cons a as =>
        exfalso
        rcases List.eq_nil_or_concat (a :: as) with h3 | ⟨bs, b, h3⟩
        · exact List.cons_ne_nil _ _ h3
        · rw [List.concat_eq_append] at h3
          exact hnone a b (by simp) (by rw [h3]; simp)

/-- C27 (counterexample): for the interval `[0, 10]` the tick list `[1, 100, 2]` is
returned unchanged, because its first and its last tick are contained, although
`contains` does not hold for the tick `100`. -/
theorem C27_counterexample :
    strip [1, 100, 2] ⟨0, 10⟩ = [1, 100, 2]
      ∧ contains ⟨0, 10⟩ 100 = false
      ∧ List.filter (contains ⟨0, 10⟩) [1, 100, 2] = [1, 2] := by
  decide!

/-- C27 (as amended): `strip` returns the empty list for an invalid interval; for a valid
interval it returns the tick list unchanged when its first and its last tick are
contained, and otherwise the sub-list (in order) of the ticks for which `contains` holds.
For a non-decreasing tick list the result is in every case exactly that sub-list. -/
theorem C27_strip_filters_contained (ticks : List ℚ) (interval : QwtInterval) :
    (interval.isValid = false → strip ticks interval = [])
      ∧ (interval.isValid = true →
          ∀ first last, ticks.head? = some first → ticks.getLast? = some last →
            (contains interval first = true ∧ contains interval last = true →
              strip ticks interval = ticks)
            ∧ (¬ (contains interval first = true ∧ contains interval last = true) →
              strip ticks interval = ticks.filter (contains interval)))
      ∧ (ticks.Pairwise (· ≤ ·) →
          strip ticks interval = ticks.filter (contains interval)) := by
  refine ⟨fun hv => by simp [strip, hv], ?_,
    fun hs => strip_eq_filter_of_bracket ticks interval (bracket_of_nonDecreasing ticks hs)⟩
  intro hv first last hf hl
  have hne : ticks ≠ [] := by
    intro h0
    rw [h0] at hf
    simp at hf
  constructor
  · intro hc
    unfold strip
    simp [hv, hne, hf, hl, hc.1, hc.2]
  · intro hc
    unfold strip
    simp only [hv, Bool.not_true, Bool.false_or, beq_iff_eq, List.length_eq_zero, hne,
      if_false, hf, hl]
    rw [if_neg]
    rw [Bool.and_eq_true]
    exact hc

/-- Witness for C27 (as amended): the non-decreasing list `[-5, 1, 2, 100]` stripped to
`[0, 10]` is `[1, 2]`; the list `[1, 100, 2]` is returned unchanged; and the invalid
interval `[3, 1]` gives the empty list. -/
theorem C27_strip_filters_contained_witness :
    strip [-5, 1, 2, 100] ⟨0, 10⟩ = [1, 2]
      ∧ strip [1, 100, 2] ⟨3, 1⟩ = []
      ∧ strip [1, 100, 2] ⟨0, 10⟩ = [1, 100, 2]
      ∧ strip [-5, 1, 2, 100] ⟨0, 10⟩ = List.filter (contains ⟨0, 10⟩) [-5, 1, 2, 100]
      ∧ strip [100, 2, 1] ⟨0, 10⟩ = List.filter (contains ⟨0, 10⟩) [100, 2, 1] :=
  ⟨by decide!,
    (C27_strip_filters_contained [1, 100, 2] ⟨3, 1⟩).1 (by decide!),
    ((C27_strip_filters_contained [1, 100, 2] ⟨0, 10⟩).2.1 (by decide!) 1 2 rfl rfl).1
      ⟨by decide!, by decide!⟩,
    (C27_strip_filters_contained [-5, 1, 2, 100] ⟨0, 10⟩).2.2 (by decide),
    ((C27_strip_filters_contained [100, 2, 1] ⟨0, 10⟩).2.1 (by decide!) 100 1 rfl rfl).2
      (by decide!)⟩

/-! ### Medium ticks of the linear engine -/

theorem divideInterval_zero (n : ℤ) : divideInterval 0 n = 0 := by
  unfold divideInterval QwtScaleArithmetic.divideEps QwtScaleArithmetic.ceil125
  split <;> simp

theorem minorStep_numTicks_nonneg (maxMin : ℤ) (s ms : ℚ) (nt : ℤ)
    (h : QwtLinearScaleEngine.minorStep maxMin s = some (ms, nt)) : 0 ≤ nt := by
  unfold QwtLinearScaleEngine.minorStep at h
  simp only at h
  split at h
  · exact absurd h (by simp)
  · rename_i hms
    split at h
    · simp only [Option.some.injEq, Prod.mk.injEq] at h
      omega
    · simp only [Option.some.injEq, Prod.mk.injEq] at h
      obtain ⟨h1, h2⟩ := h
      have hs : s ≠ 0 := by
        intro h0
        rw [h0] at hms
        exact hms (divideInterval_zero maxMin)
      have hpos : 0 < |s / divideInterval s maxMin| := abs_pos.mpr (div_ne_zero hs hms)
      have : 0 < qCeil |s / divideInterval s maxMin| := by
        unfold qCeil
        exact Int.ceil_pos.mpr hpos
      omega

theorem range_filter_eq (n m : ℕ) (hm : m < n) :
    (List.range n).filter (fun (j : ℕ) => decide ((0 : ℤ) + (j : ℤ) = (m : ℤ)) == true) = [m] := by
  induction n with
  | zero => omega
  | succ k ih =>
    rw [List.range_succ, List.filter_append]
    by_cases hk : m < k
    · rw [ih hk]
      simp
      omega
    · have hmk : m = k := by omega
      subst hmk
      have h0 : (List.range m).filter
          (fun (j : ℕ) => decide ((0 : ℤ) + (j : ℤ) = (m : ℤ)) == true) = [] := by
        rw [List.filter_eq_nil_iff]
        intro j hj
        have := List.mem_range.mp hj
        simp
        omega
      rw [h0]
      simp

theorem range_filter_none (n : ℕ) (med : ℤ) (hmed : med < 0) :
    (List.range n).filter (fun (j : ℕ) => decide ((0 : ℤ) + (j : ℤ) = med) == true) = []
      ∧ (List.range n).filter (fun (j : ℕ) => decide ((0 : ℤ) + (j : ℤ) = med) == false)
          = List.range n := by
  constructor
  · rw [List.filter_eq_nil_iff]
    intro j _
    simp
    omega
  · rw [List.filter_eq_self]
    intro j _
    simp
    omega

theorem buildMinorTicks_odd (majors : List ℚ) (maxMin : ℤ) (s ms : ℚ) (nt : ℤ)
    (h : QwtLinearScaleEngine.minorStep maxMin s = some (ms, nt))
    (hodd : Int.tmod nt 2 ≠ 0) :
    (QwtLinearScaleEngine.buildMinorTicks majors maxMin s).2
        = majors.map (fun v => snapTick s (v + (((Int.tdiv nt 2 : ℤ) : ℚ) + 1) * ms))
      ∧ (QwtLinearScaleEngine.buildMinorTicks majors maxMin s).1
        = majors.flatMap (subTicks ms s
            ((List.range nt.toNat).filter (fun (j : ℕ) => decide ((j : ℤ) ≠ Int.tdiv nt 2)))) := by
  have hnn := minorStep_numTicks_nonneg maxMin s ms nt h
  rw [buildMinorTicks_eq, h]
  simp only [hodd, ne_eq, not_false_eq_true, if_true]
  have hpos : 1 ≤ nt := by
    by_contra hc
    have : nt = 0 := by omega
    rw [this] at hodd
    simp at hodd
  have hdiv : Int.tdiv nt 2 = nt / 2 := Int.tdiv_eq_ediv hnn (by norm_num)
  obtain ⟨m, hm⟩ := Int.eq_ofNat_of_zero_le (by rw [hdiv]; omega : 0 ≤ Int.tdiv nt 2)
  have hlt : m < nt.toNat := by omega
  rw [hm]
  constructor
  · have hidx : subTickIndices (m : ℤ) true nt.toNat 0 = [m] := by
      unfold subTickIndices
      exact range_filter_eq nt.toNat m hlt
    rw [hidx]
    induction majors with
    | nil => rfl
    | cons v vs ih =>
      rw [List.flatMap_cons, ih, List.map_cons]
      simp [subTicks]
  · have hidx : subTickIndices (m : ℤ) false nt.toNat 0
        = (List.range nt.toNat).filter (fun (j : ℕ) => decide ((j : ℤ) ≠ (m : ℤ))) := by
      unfold subTickIndices
      apply List.filter_congr
      intro j _
      by_cases hj : (j : ℤ) = (m : ℤ) <;> simp [hj]
    rw [hidx]

theorem buildMinorTicks_even (majors : List ℚ) (maxMin : ℤ) (s ms : ℚ) (nt : ℤ)
    (h : QwtLinearScaleEngine.minorStep maxMin s = some (ms, nt))
    (heven : Int.tmod nt 2 = 0) :
    (QwtLinearScaleEngine.buildMinorTicks majors maxMin s).2 = []
      ∧ (QwtLinearScaleEngine.buildMinorTicks majors maxMin s).1
        = majors.flatMap (subTicks ms s (List.range nt.toNat)) := by
  rw [buildMinorTicks_eq, h]
  simp only [heven, ne_eq, not_true_eq_false, if_false]
  obtain ⟨h1, h2⟩ := range_filter_none nt.toNat (-1) (by norm_num)
  unfold subTickIndices
  rw [h1, h2]
  simp [subTicks]

/-- C25: let `minStep` and `numTicks` be the step and the number of sub-ticks per major
step that `buildMinorTicks` settles on.  When `numTicks` is odd, the medium list holds for
each major tick `v` the sub-tick with index `numTicks / 2`,
`v + (numTicks / 2 + 1) * minStep`, and the minor list holds the sub-ticks of all other
indices; when `numTicks` is even, the medium list is empty and the minor list holds all
sub-ticks.  For `divideScale(0, 100, 5, 3, 0)` the medium ticks are `[10, 30, 50, 70, 90]`
and there are no minor ticks. -/
theorem C25_medium_tick_is_middle_subtick (majorTicks : List ℚ) (maxMinSteps : ℤ)
    (stepSize minStep : ℚ) (numTicks : ℤ)
    (h : QwtLinearScaleEngine.minorStep maxMinSteps stepSize = some (minStep, numTicks)) :
    (Int.tmod numTicks 2 ≠ 0 →
        (QwtLinearScaleEngine.buildMinorTicks majorTicks maxMinSteps stepSize).2
            = majorTicks.map
                (fun v => snapTick stepSize
                  (v + (((Int.tdiv numTicks 2 : ℤ) : ℚ) + 1) * minStep))
          ∧ (QwtLinearScaleEngine.buildMinorTicks majorTicks maxMinSteps stepSize).1
            = majorTicks.flatMap (subTicks minStep stepSize
                ((List.range numTicks.toNat).filter
                  (fun (j : ℕ) => decide ((j : ℤ) ≠ Int.tdiv numTicks 2)))))
      ∧ (Int.tmod numTicks 2 = 0 →
        (QwtLinearScaleEngine.buildMinorTicks majorTicks maxMinSteps stepSize).2 = []
          ∧ (QwtLinearScaleEngine.buildMinorTicks majorTicks maxMinSteps stepSize).1
            = majorTicks.flatMap (subTicks minStep stepSize (List.range numTicks.toNat)))
      ∧ (QwtLinearScaleEngine.divideScale 0 100 5 3 0).mediumTicks = [10, 30, 50, 70, 90]
      ∧ (QwtLinearScaleEngine.divideScale 0 100 5 3 0).minorTicks = [] :=
  ⟨buildMinorTicks_odd majorTicks maxMinSteps stepSize minStep numTicks h,
    buildMinorTicks_even majorTicks maxMinSteps stepSize minStep numTicks h,
    by decide!, by decide!⟩

/-- Witness for C25: with the step size `20` and `maxMinSteps = 3` the sub-step is `10`
with one sub-tick per major step, which is the medium tick; with `maxMinSteps = 5` the
sub-step is `5` with three sub-ticks, of which the second is the medium tick; with the
step size `10` and `maxMinSteps = 5` the sub-step is `2` with four sub-ticks, all minor. -/
theorem C25_medium_tick_is_middle_subtick_witness :
    (QwtLinearScaleEngine.buildMinorTicks [0, 20, 40] 3 20).2 = [10, 30, 50]
      ∧ (QwtLinearScaleEngine.buildMinorTicks [0, 20, 40] 3 20).1 = []
      ∧ (QwtLinearScaleEngine.buildMinorTicks [0, 20] 5 20).2 = [10, 30]
      ∧ (QwtLinearScaleEngine.buildMinorTicks [0, 20] 5 20).1 = [5, 15, 25, 35]
      ∧ (QwtLinearScaleEngine.buildMinorTicks [0, 10] 5 10).2 = []
      ∧ (QwtLinearScaleEngine.buildMinorTicks [0, 10] 5 10).1 = [2, 4, 6, 8, 12, 14, 16, 18] :=
  ⟨(((C25_medium_tick_is_middle_subtick [0, 20, 40] 3 20 10 1 (by decide!)).1
      (by decide)).1).trans (by decide!),
    (((C25_medium_tick_is_middle_subtick [0, 20, 40] 3 20 10 1 (by decide!)).1
      (by decide)).2).trans (by decide!),
    (((C25_medium_tick_is_middle_subtick [0, 20] 5 20 5 3 (by decide!)).1
      (by decide)).1).trans (by decide!),
    (((C25_medium_tick_is_middle_subtick [0, 20] 5 20 5 3 (by decide!)).1
      (by decide)).2).trans (by decide!),
    ((C25_medium_tick_is_middle_subtick [0, 10] 5 10 2 4 (by decide!)).2.1 (by decide)).1,
    (((C25_medium_tick_is_middle_subtick [0, 10] 5 10 2 4 (by decide!)).2.1
      (by decide)).2).trans (by decide!)⟩

/-! ### Containment in an intersection -/

theorem interval_contains_iff (i : QwtInterval) (v : ℚ) :
    i.contains v = true ↔ i.minValue ≤ i.maxValue ∧ i.minValue ≤ v ∧ v ≤ i.maxValue := by
  unfold QwtInterval.contains
  by_cases hv : i.minValue ≤ i.maxValue
  · have hval : i.isValid = true := (isValid_iff i).mpr hv
    simp only [hval, Bool.not_true, Bool.false_eq_true, if_false, gt_iff_lt]
    by_cases h1 : v < i.minValue
    · simp [h1, not_le.mpr h1]
    · by_cases h2 : i.maxValue < v
      · simp [h2, not_le.mpr h2]
      · simp [h1, h2, hv, not_lt.mp h1, not_lt.mp h2]
  · have hval : i.isValid = false := (isValid_false_iff i).mpr (not_le.mp hv)
    simp [hval, hv]

/-- C28: for all intervals `a` and `b` and every value `v`, `a.intersect(b).contains(v)`
holds if and only if `a.contains(v)` and `b.contains(v)` both hold; hence
`a.intersect(b)` and `b.intersect(a)` contain the same values, and a value contained in
the intersection is contained in both operands. -/
theorem C28_intersect_contains (a b : QwtInterval) (v : ℚ) :
    ((a.intersect b).contains v = true ↔ (a.contains v = true ∧ b.contains v = true))
      ∧ ((a.intersect b).contains v = (b.intersect a).contains v)
      ∧ ((a.intersect b).contains v = true → a.contains v = true)
      ∧ ((a.intersect b).contains v = true → b.contains v = true) := by
  have key : ∀ a b : QwtInterval,
      ((a.intersect b).contains v = true ↔ (a.contains v = true ∧ b.contains v = true)) := by
    intro a b
    by_cases ha : a.isValid = true
    · by_cases hb : b.isValid = true
      · have ha' := (isValid_iff a).mp ha
        have hb' := (isValid_iff b).mp hb
        rw [intersect_of_valid a b ha hb, interval_contains_iff a, interval_contains_iff b]
        split
        · rename_i hno
          have : QwtInterval.contains QwtInterval.invalid v = false := by
            simp [QwtInterval.contains, QwtInterval.invalid, QwtInterval.isValid]
          rw [this]
          simp only [Bool.false_eq_true, false_iff]
          rintro ⟨⟨_, h1, h2⟩, _, h3, h4⟩
          rcases hno with ⟨_, h5⟩ | ⟨_, h5⟩ <;> linarith
        · rename_i hov
          rw [interval_contains_iff]
          simp only [max_le_iff, le_min_iff]
          constructor
          · rintro ⟨_, ⟨h1, h2⟩, h3, h4⟩
            exact ⟨⟨ha', h1, h3⟩, hb', h2, h4⟩
          · rintro ⟨⟨_, h1, h3⟩, _, h2, h4⟩
            exact ⟨⟨⟨by linarith, by linarith⟩, by linarith, by linarith⟩, ⟨h1, h2⟩, h3, h4⟩
      · have hb' : b.isValid = false := by simpa using hb
        have h1 : a.intersect b = QwtInterval.invalid := by
          simp [QwtInterval.intersect, hb']
        have h2 : b.contains v = false := by simp [QwtInterval.contains, hb']
        rw [h1, h2]
        simp [QwtInterval.contains, QwtInterval.invalid, QwtInterval.isValid]
    · have ha' : a.isValid = false := by simpa using ha
      have h1 : a.intersect b = QwtInterval.invalid := by
        simp [QwtInterval.intersect, ha']
      have h2 : a.contains v = false := by simp [QwtInterval.contains, ha']
      rw [h1, h2]
      simp [QwtInterval.contains, QwtInterval.invalid, QwtInterval.isValid]
  refine ⟨key a b, ?_, fun h => ((key a b).mp h).1, fun h => ((key a b).mp h).2⟩
  rw [Bool.eq_iff_iff, key a b, key b a, and_comm]

/-- Witness for C28: `[0, 4]` and `[3, 5]` intersect in `[3, 4]`, which contains `7/2`, and
so do both operands. -/
theorem C28_intersect_contains_witness :
    QwtInterval.contains (QwtInterval.intersect ⟨0, 4⟩ ⟨3, 5⟩) (7 / 2) = true
      ∧ QwtInterval.contains ⟨0, 4⟩ (7 / 2) = true
      ∧ QwtInterval.contains ⟨3, 5⟩ (7 / 2) = true :=
  ⟨by decide!,
    (C28_intersect_contains ⟨0, 4⟩ ⟨3, 5⟩ (7 / 2)).2.2.1 (by decide!),
    (C28_intersect_contains ⟨0, 4⟩ ⟨3, 5⟩ (7 / 2)).2.2.2 (by decide!)⟩

/-- C29: for all intervals `a` and `b`, `a.intersects(b)` returns true if and only if
`a.intersect(b)` is a valid interval. -/
theorem C29_intersects_iff_intersect_valid (a b : QwtInterval) :
    a.intersects b = true ↔ (a.intersect b).isValid = true := by
  have hinv : QwtInterval.invalid.isValid = false := by
    simp [QwtInterval.invalid, QwtInterval.isValid]
  by_cases ha : a.isValid = true
  · by_cases hb : b.isValid = true
    · have ha' := (isValid_iff a).mp ha
      have hb' := (isValid_iff b).mp hb
      rw [intersect_of_valid a b ha hb]
      unfold QwtInterval.intersects
      simp only [ha, hb, Bool.not_true, Bool.or_self, Bool.false_eq_true, if_false, gt_iff_lt]
      by_cases hsw : b.minValue < a.minValue
      · simp only [if_pos hsw]
        by_cases hno : b.maxValue < a.minValue
        · rw [if_pos (Or.inr ⟨hsw.le, hno⟩), hinv,
            if_neg (by linarith), if_neg (by intro h; linarith)]
        · have hnov : ¬ ((a.minValue ≤ b.minValue ∧ a.maxValue < b.minValue)
              ∨ (b.minValue ≤ a.minValue ∧ b.maxValue < a.minValue)) := by
            rintro (⟨h1, _⟩ | ⟨_, h2⟩)
            · linarith
            · exact hno h2
          rw [if_neg hnov, isValid_iff]
          simp only [max_le_iff, le_min_iff]
          constructor
          · intro _
            exact ⟨⟨ha', by linarith⟩, by linarith, hb'⟩
          · intro _
            rcases lt_or_eq_of_le (not_lt.mp hno) with h | h
            · rw [if_pos h]
            · rw [if_neg (by linarith), if_pos h.symm]
      · simp only [if_neg hsw]
        have hle : a.minValue ≤ b.minValue := not_lt.mp hsw
        by_cases hno : a.maxValue < b.minValue
        · rw [if_pos (Or.inl ⟨hle, hno⟩), hinv,
            if_neg (by linarith), if_neg (by intro h; linarith)]
        · have hnov : ¬ ((a.minValue ≤ b.minValue ∧ a.maxValue < b.minValue)
              ∨ (b.minValue ≤ a.minValue ∧ b.maxValue < a.minValue)) := by
            rintro (⟨_, h2⟩ | ⟨h1, h2⟩)
            · exact hno h2
            · linarith
          rw [if_neg hnov, isValid_iff]
          simp only [max_le_iff, le_min_iff]
          constructor
          · intro _
            exact ⟨⟨ha', by linarith⟩, by linarith, hb'⟩
          · intro _
            rcases lt_or_eq_of_le (not_lt.mp hno) with h | h
            · rw [if_pos h]
            · rw [if_neg (by linarith), if_pos h.symm]
    · have hb' : b.isValid = false := by simpa using hb
      have h1 : a.intersect b = QwtInterval.invalid := by
        simp [QwtInterval.intersect, hb']
      rw [h1, hinv]
      simp [QwtInterval.intersects, hb']
  · have ha' : a.isValid = false := by simpa using ha
    have h1 : a.intersect b = QwtInterval.invalid := by
      simp [QwtInterval.intersect, ha']
    rw [h1, hinv]
    simp [QwtInterval.intersects, ha']

/-! ### The colour stops of the linear colour map -/

open QwtLinearColorMap in
theorem findUpperLoop_split (A B : List ColorStop) (pos : ℚ)
    (hA : ∀ a ∈ A, a.pos ≤ pos) (hB : ∀ b ∈ B, ¬ b.pos ≤ pos) :
    ∀ (fuel index n : ℕ), n ≤ fuel → index ≤ A.length → A.length ≤ index + n →
      ColorStops.findUpperLoop (A ++ B) pos fuel index n = A.length := by
  intro fuel
  induction fuel with
  | zero =>
    intro index n hn h1 h2
    simp only [ColorStops.findUpperLoop]
    omega
  | succ k ih =>
    intro index n hn h1 h2
    unfold ColorStops.findUpperLoop
    by_cases hn0 : n > 0
    · simp only [hn0, if_true]
      by_cases hmid : index + n / 2 < A.length
      · rw [List.getElem?_append_left hmid, List.getElem?_eq_getElem hmid]
        simp only
        rw [if_pos (hA _ (List.getElem_mem _))]
        exact ih _ _ (by omega) (by omega) (by omega)
      · have hmid' : A.length ≤ index + n / 2 := not_lt.mp hmid
        rw [List.getElem?_append_right hmid']
        cases hb : B[index + n / 2 - A.length]? with
        | none =>
          simp only
          exact ih _ _ (by omega) h1 hmid'
        | some b =>
          simp only
          have hbm : b ∈ B := List.getElem?_mem hb
          rw [if_neg (hB b hbm)]
          exact ih _ _ (by omega) h1 hmid'
    · simp only [hn0, if_false]
      omega

open QwtLinearColorMap in
theorem dropWhile_above (stops : List ColorStop) (pos : ℚ)
    (hs : stops.Pairwise (fun a b => a.pos ≤ b.pos)) :
    ∀ b ∈ stops.dropWhile (fun s => decide (s.pos ≤ pos)), ¬ b.pos ≤ pos := by
  intro b hb
  have hne : stops.dropWhile (fun s => decide (s.pos ≤ pos)) ≠ [] := by
    intro h0
    rw [h0] at hb
    simp at hb
  have hhead := List.head_dropWhile_not (fun s => decide (s.pos ≤ pos)) stops hne
  have hsorted : (stops.dropWhile (fun s => decide (s.pos ≤ pos))).Pairwise
      (fun a b => a.pos ≤ b.pos) := List.Pairwise.sublist (List.dropWhile_sublist _) hs
  simp only [decide_eq_false_iff_not] at hhead
  cases hd : stops.dropWhile (fun s => decide (s.pos ≤ pos)) with
  | nil => exact absurd hd hne
  | cons x xs =>
    simp only [hd, List.head_cons] at hhead
    rw [hd] at hb hsorted
    rcases List.mem_cons.mp hb with h1 | h1
    · rw [h1]; exact hhead
    · have := (List.pairwise_cons.mp hsorted).1 b h1
      intro hc
      exact hhead (le_trans this hc)

open QwtLinearColorMap in
theorem takeWhile_below (stops : List ColorStop) (pos : ℚ) :
    ∀ a ∈ stops.takeWhile (fun s => decide (s.pos ≤ pos)), a.pos ≤ pos := by
  intro a ha
  simpa using List.mem_takeWhile_imp ha

open QwtLinearColorMap in
theorem findUpper_eq (s : ColorStops) (pos : ℚ)
    (hs : s._stops.Pairwise (fun a b => a.pos ≤ b.pos)) :
    s.findUpper pos = (s._stops.takeWhile (fun s => decide (s.pos ≤ pos))).length := by
  unfold ColorStops.findUpper
  have hsplit := List.takeWhile_append_dropWhile (fun s => decide (s.pos ≤ pos)) s._stops
  have hlen : s._stops.length
      = (s._stops.takeWhile (fun s => decide (s.pos ≤ pos))).length
        + (s._stops.dropWhile (fun s => decide (s.pos ≤ pos))).length := by
    have := congrArg List.length hsplit
    rw [List.length_append] at this
    omega
  have key := findUpperLoop_split _ _ pos (takeWhile_below s._stops pos)
    (dropWhile_above s._stops pos hs) s._stops.length 0 s._stops.length le_rfl
    (Nat.zero_le _) (by omega)
  rw [hsplit] at key
  exact key

open QwtLinearColorMap in
theorem insert_stops (s : ColorStops) (pos : ℚ) (c : QColor)
    (hs : s._stops.Pairwise (fun a b => a.pos ≤ b.pos)) :
    (s.insert pos c)._stops
      = s._stops.takeWhile (fun s => decide (s.pos ≤ pos)) ++ [ColorStop.ofColor pos c]
        ++ s._stops.dropWhile (fun s => decide (s.pos ≤ pos)) := by
  unfold ColorStops.insert
  rw [findUpper_eq s pos hs]
  simp only
  have hsplit := List.takeWhile_append_dropWhile (fun s => decide (s.pos ≤ pos)) s._stops
  have ht := List.take_left (s._stops.takeWhile (fun s => decide (s.pos ≤ pos)))
    (s._stops.dropWhile (fun s => decide (s.pos ≤ pos)))
  have hd := List.drop_left (s._stops.takeWhile (fun s => decide (s.pos ≤ pos)))
    (s._stops.dropWhile (fun s => decide (s.pos ≤ pos)))
  rw [hsplit] at ht hd
  rw [ht, hd]

open QwtLinearColorMap in
theorem insert_wellFormed (s : ColorStops) (pos : ℚ) (c : QColor) (hw : s.WellFormed)
    (h0 : 0 ≤ pos) (h1 : pos ≤ 1) : (s.insert pos c).WellFormed := by
  obtain ⟨hs, hhead, hlast⟩ := hw
  have hsplit := List.takeWhile_append_dropWhile (fun s => decide (s.pos ≤ pos)) s._stops
  have hA := takeWhile_below s._stops pos
  have hB := dropWhile_above s._stops pos hs
  unfold ColorStops.WellFormed
  rw [insert_stops s pos c hs]
  set A := s._stops.takeWhile (fun s => decide (s.pos ≤ pos)) with hAdef
  set B := s._stops.dropWhile (fun s => decide (s.pos ≤ pos)) with hBdef
  have hsA : A.Pairwise (fun a b => a.pos ≤ b.pos) :=
    List.Pairwise.sublist (List.takeWhile_sublist _) hs
  have hsB : B.Pairwise (fun a b => a.pos ≤ b.pos) :=
    List.Pairwise.sublist (List.dropWhile_sublist _) hs
  have hAne : A ≠ [] := by
    intro hnil
    rw [hnil, List.nil_append] at hsplit
    cases hB' : B with
    | nil =>
      rw [hB'] at hsplit
      rw [← hsplit] at hhead
      simp at hhead
    | cons x xs =>
      rw [hB'] at hsplit
      rw [← hsplit] at hhead
      simp only [List.head?_cons, Option.map_some', Option.some.injEq] at hhead
      have := hB x (by rw [hB']; exact List.mem_cons_self _ _)
      rw [hhead] at this
      exact this h0
  refine ⟨?_, ?_, ?_⟩
  · rw [List.pairwise_append, List.pairwise_append]
    refine ⟨⟨hsA, List.pairwise_singleton _ _, ?_⟩, hsB, ?_⟩
    · intro a ha b hb
      rw [List.mem_singleton.mp hb]
      exact hA a ha
    · intro a ha b hb
      have hb' : pos < b.pos := not_le.mp (hB b hb)
      rcases List.mem_append.mp ha with h | h
      · exact le_trans (hA a h) hb'.le
      · rw [List.mem_singleton.mp h]
        exact hb'.le
  · rw [← hsplit] at hhead
    cases hA' : A with
    | nil => exact absurd hA' hAne
    | cons x xs =>
      rw [hA'] at hhead
      simpa using hhead
  · rw [← hsplit] at hlast
    cases hB' : B with
    | nil =>
      rw [hB', List.append_nil] at hlast
      rcases List.eq_nil_or_concat A with hnil | ⟨as, a, hcat⟩
      · exact absurd hnil hAne
      · rw [List.concat_eq_append] at hcat
        have ha : a.pos ≤ pos := hA a (by rw [hcat]; simp)
        rw [hcat] at hlast
        simp at hlast
        rw [hlast] at ha
        simp [ColorStop.ofColor]
        linarith
    | cons x xs =>
      rw [hB'] at hlast
      rcases List.eq_nil_or_concat (x :: xs) with hnil | ⟨bs, b, hcat⟩
      · exact absurd hnil (List.cons_ne_nil _ _)
      · rw [List.concat_eq_append] at hcat
        rw [hcat] at hlast
        simp at hlast
        have hre : A ++ [ColorStop.ofColor pos c] ++ (x :: xs)
            = (A ++ [ColorStop.ofColor pos c] ++ bs) ++ [b] := by
          rw [hcat]
          simp
        rw [hre, List.getLast?_append]
        simpa using hlast

open QwtLinearColorMap in
theorem setColorInterval_stops (d : PrivateData) (c1 c2 : QColor) :
    (setColorInterval d c1 c2).colorStops._stops
      = [ColorStop.ofColor 0 c1, ColorStop.ofColor 1 c2] := by
  simp [setColorInterval, ColorStops.insert, ColorStops.findUpper, ColorStops.findUpperLoop,
    ColorStop.ofColor]

open QwtLinearColorMap in
theorem setColorInterval_wellFormed (d : PrivateData) (c1 c2 : QColor) :
    (setColorInterval d c1 c2).colorStops.WellFormed := by
  unfold ColorStops.WellFormed
  rw [setColorInterval_stops]
  simp [ColorStop.ofColor]

open QwtLinearColorMap in
theorem apply_wellFormed (d : PrivateData) (c : Call) (hw : d.colorStops.WellFormed) :
    (Call.apply d c).colorStops.WellFormed := by
  cases c with
  | setColorInterval c1 c2 => exact setColorInterval_wellFormed d c1 c2
  | addColorStop value color =>
    simp only [Call.apply, addColorStop]
    split
    · rename_i h
      exact insert_wellFormed _ _ _ hw h.1 h.2
    · exact hw
  | setMode mode => exact hw

open QwtLinearColorMap in
theorem run_wellFormed (calls : List Call) (d : PrivateData) (hw : d.colorStops.WellFormed) :
    (run d calls).colorStops.WellFormed := by
  induction calls generalizing d with
  | nil => exact hw
  | cons c cs ih => exact ih (Call.apply d c) (apply_wellFormed d c hw)

open QwtLinearColorMap in
theorem lookup_indices (s : ColorStops) (hw : s.WellFormed) (pos : ℚ) (h0 : 0 < pos)
    (h1 : pos < 1) :
    1 ≤ s.findUpper pos ∧ s.findUpper pos ≤ s._stops.length - 1
      ∧ ∃ s1 s2, s._stops[s.findUpper pos - 1]? = some s1
          ∧ s._stops[s.findUpper pos]? = some s2 ∧ s1.pos ≤ pos ∧ pos < s2.pos := by
  obtain ⟨hs, hhead, hlast⟩ := hw
  have hsplit := List.takeWhile_append_dropWhile (fun s => decide (s.pos ≤ pos)) s._stops
  have hA := takeWhile_below s._stops pos
  have hB := dropWhile_above s._stops pos hs
  rw [findUpper_eq s pos hs]
  set A := s._stops.takeWhile (fun s => decide (s.pos ≤ pos)) with hAdef
  set B := s._stops.dropWhile (fun s => decide (s.pos ≤ pos)) with hBdef
  have hlen : s._stops.length = A.length + B.length := by
    have := congrArg List.length hsplit
    rw [List.length_append] at this
    omega
  -- the first stop, at `0`, belongs to `A`
  have hAne : A ≠ [] := by
    intro hnil
    rw [hnil, List.nil_append] at hsplit
    cases hB' : B with
    | nil =>
      rw [hB'] at hsplit
      rw [← hsplit] at hhead
      simp at hhead
    | cons x xs =>
      rw [hB'] at hsplit
      rw [← hsplit] at hhead
      simp only [List.head?_cons, Option.map_some', Option.some.injEq] at hhead
      have := hB x (by rw [hB']; exact List.mem_cons_self _ _)
      rw [hhead] at this
      exact this h0.le
  -- the last stop, at `1`, belongs to `B`
  have hBne : B ≠ [] := by
    intro hnil
    rw [hnil, List.append_nil] at hsplit
    rcases List.eq_nil_or_concat A with h | ⟨as, a, hcat⟩
    · exact hAne h
    · rw [List.concat_eq_append] at hcat
      have ha : a.pos ≤ pos := hA a (by rw [hcat]; simp)
      rw [← hsplit, hcat] at hlast
      simp at hlast
      rw [hlast] at ha
      linarith
  have hApos : 0 < A.length := List.length_pos.mpr hAne
  have hBpos : 0 < B.length := List.length_pos.mpr hBne
  refine ⟨hApos, by omega, ?_⟩
  have h1' : s._stops[A.length - 1]? = A[A.length - 1]? := by
    conv_lhs => rw [← hsplit]
    exact List.getElem?_append_left (by omega)
  have h2' : s._stops[A.length]? = B[0]? := by
    conv_lhs => rw [← hsplit]
    rw [List.getElem?_append_right le_rfl, Nat.sub_self]
  have hi1 : A.length - 1 < A.length := by omega
  refine ⟨A[A.length - 1], B[0], ?_, ?_, ?_, ?_⟩
  · rw [h1', List.getElem?_eq_getElem hi1]
  · rw [h2', List.getElem?_eq_getElem hBpos]
  · exact hA _ (List.getElem_mem _)
  · exact not_le.mp (hB _ (List.getElem_mem _))

open QwtLinearColorMap in
theorem rgb_isSome (s : ColorStops) (hw : s.WellFormed) (mode : Mode) (pos : ℚ) :
    (s.rgb mode pos).isSome = true := by
  have hne : s._stops ≠ [] := by
    intro h0
    have := hw.2.1
    rw [h0] at this
    simp at this
  have hlen : 0 < s._stops.length := List.length_pos.mpr hne
  unfold ColorStops.rgb
  by_cases h0 : pos ≤ 0
  · rw [if_pos h0, List.getElem?_eq_getElem hlen]
    rfl
  · rw [if_neg h0]
    by_cases h1 : pos ≥ 1
    · rw [if_pos h1, if_neg (by omega), List.getElem?_eq_getElem (by omega)]
      rfl
    · rw [if_neg h1]
      obtain ⟨hi1, _, s1, s2, hs1, hs2, hp1, hp2⟩ :=
        lookup_indices s hw pos (not_le.mp h0) (not_le.mp h1)
      simp only
      rw [if_neg (by omega)]
      cases mode with
      | FixedColors =>
        simp only [hs1]
        rfl
      | ScaledColors =>
        simp only [hs1, hs2]
        rw [if_neg (by intro h; linarith)]
        rfl

/-- C30: for every colour map reached by construction followed by any sequence of
`setColorInterval`, `addColorStop` and `setMode` calls, the stop positions are in
non-decreasing order with the first position `0.0` and the last position `1.0`; and for
every position `0 < pos < 1` the index `findUpper(pos)` lies between `1` and `size - 1`,
the stops at `index - 1` and `index` exist, the position of the upper one is strictly
greater than that of the lower one, and `ColorStops::rgb` reads no invalid index and
divides by no zero in either mode. -/
theorem C30_color_stops_sorted_and_lookup_safe (color1 color2 : QColor)
    (calls : List QwtLinearColorMap.Call) :
    (QwtLinearColorMap.colorStops
        (QwtLinearColorMap.run (QwtLinearColorMap.create color1 color2) calls)).Pairwise (· ≤ ·)
      ∧ (QwtLinearColorMap.colorStops
        (QwtLinearColorMap.run (QwtLinearColorMap.create color1 color2) calls)).head? = some 0
      ∧ (QwtLinearColorMap.colorStops
        (QwtLinearColorMap.run (QwtLinearColorMap.create color1 color2) calls)).getLast?
          = some 1
      ∧ (∀ pos : ℚ, 0 < pos → pos < 1 →
        1 ≤ (QwtLinearColorMap.run (QwtLinearColorMap.create color1 color2)
              calls).colorStops.findUpper pos
          ∧ (QwtLinearColorMap.run (QwtLinearColorMap.create color1 color2)
              calls).colorStops.findUpper pos
            ≤ (QwtLinearColorMap.run (QwtLinearColorMap.create color1 color2)
              calls).colorStops._stops.length - 1
          ∧ (∃ s1 s2,
            (QwtLinearColorMap.run (QwtLinearColorMap.create color1 color2)
                calls).colorStops._stops[(QwtLinearColorMap.run
                  (QwtLinearColorMap.create color1 color2) calls).colorStops.findUpper pos
                  - 1]? = some s1
              ∧ (QwtLinearColorMap.run (QwtLinearColorMap.create color1 color2)
                calls).colorStops._stops[(QwtLinearColorMap.run
                  (QwtLinearColorMap.create color1 color2) calls).colorStops.findUpper pos]?
                  = some s2
              ∧ s1.pos < s2.pos)
          ∧ ∀ mode, ((QwtLinearColorMap.run (QwtLinearColorMap.create color1 color2)
              calls).colorStops.rgb mode pos).isSome = true) := by
  have hw := run_wellFormed calls (QwtLinearColorMap.create color1 color2)
    (setColorInterval_wellFormed _ color1 color2)
  obtain ⟨hs, hhead, hlast⟩ := hw
  refine ⟨?_, ?_, ?_, ?_⟩
  · unfold QwtLinearColorMap.colorStops QwtLinearColorMap.ColorStops.stops
    rw [List.pairwise_map]
    exact hs
  · unfold QwtLinearColorMap.colorStops QwtLinearColorMap.ColorStops.stops
    rw [List.head?_map]
    exact hhead
  · unfold QwtLinearColorMap.colorStops QwtLinearColorMap.ColorStops.stops
    rw [List.getLast?_map]
    exact hlast
  · intro pos h0 h1
    obtain ⟨hi1, hi2, s1, s2, hs1, hs2, hp1, hp2⟩ :=
      lookup_indices _ ⟨hs, hhead, hlast⟩ pos h0 h1
    exact ⟨hi1, hi2, ⟨s1, s2, hs1, hs2, lt_of_le_of_lt hp1 hp2⟩,
      fun mode => rgb_isSome _ ⟨hs, hhead, hlast⟩ mode pos⟩

/-- Witness for C30: the default map (blue to yellow) after stops were added at `0`,
`1/2` and `1` and a stop at `2` was refused: the positions are `[0, 0, 1/2, 1, 1]` and
the lookup at `1/4` finds the upper index `2`. -/
theorem C30_color_stops_sorted_and_lookup_safe_witness :
    QwtLinearColorMap.colorStops
        (QwtLinearColorMap.run QwtLinearColorMap.createDefault
          [QwtLinearColorMap.Call.addColorStop 1 ⟨4294967295⟩,
            QwtLinearColorMap.Call.addColorStop (1 / 2) ⟨4278255360⟩,
            QwtLinearColorMap.Call.addColorStop 2 ⟨4278190080⟩,
            QwtLinearColorMap.Call.addColorStop 0 ⟨4294901760⟩])
        = [0, 0, 1 / 2, 1, 1]
      ∧ (QwtLinearColorMap.run QwtLinearColorMap.createDefault
          [QwtLinearColorMap.Call.addColorStop 1 ⟨4294967295⟩,
            QwtLinearColorMap.Call.addColorStop (1 / 2) ⟨4278255360⟩,
            QwtLinearColorMap.Call.addColorStop 2 ⟨4278190080⟩,
            QwtLinearColorMap.Call.addColorStop 0 ⟨4294901760⟩]).colorStops.findUpper (1 / 4)
        = 2
      ∧ ∀ mode, ((QwtLinearColorMap.run QwtLinearColorMap.createDefault
          [QwtLinearColorMap.Call.addColorStop 1 ⟨4294967295⟩,
            QwtLinearColorMap.Call.addColorStop (1 / 2) ⟨4278255360⟩,
            QwtLinearColorMap.Call.addColorStop 2 ⟨4278190080⟩,
            QwtLinearColorMap.Call.addColorStop 0 ⟨4294901760⟩]).colorStops.rgb mode
              (1 / 4)).isSome = true :=
  ⟨by decide!, by decide!,
    ((C30_color_stops_sorted_and_lookup_safe ⟨4278190335⟩ ⟨4294967040⟩
      [QwtLinearColorMap.Call.addColorStop 1 ⟨4294967295⟩,
        QwtLinearColorMap.Call.addColorStop (1 / 2) ⟨4278255360⟩,
        QwtLinearColorMap.Call.addColorStop 2 ⟨4278190080⟩,
        QwtLinearColorMap.Call.addColorStop 0 ⟨4294901760⟩]).2.2.2 (1 / 4)
      (by norm_num) (by norm_num)).2.2.2⟩

section Layout

open QwtPlotLayout

theorem dimensions_le_refl (s : Dimensions) : s.le s := ⟨le_rfl, fun _ => le_rfl⟩

theorem dimensions_le_trans {s t u : Dimensions} (h1 : s.le t) (h2 : t.le u) : s.le u :=
  ⟨h1.1.trans h2.1, fun a => (h1.2 a).trans (h2.2 a)⟩

theorem dimensions_total_mono {s t : Dimensions} (h : s.le t) : s.total ≤ t.total := by
  unfold Dimensions.total
  have h0 := h.2 0
  have h1 := h.2 1
  have h2 := h.2 2
  have h3 := h.2 3
  have := h.1
  linarith

theorem total_update (s : Dimensions) (axis : Fin 4) (v : ℤ) :
    ({ s with dimAxis := Function.update s.dimAxis axis v } : Dimensions).total
      = s.total + (v - s.dimAxis axis) := by
  unfold Dimensions.total
  fin_cases axis <;> simp [Function.update] <;> ring

theorem grows_refl (s : Dimensions × Bool) : Grows s s := ⟨dimensions_le_refl _, Or.inl rfl⟩

theorem grows_trans {s t u : Dimensions × Bool} (h1 : Grows s t) (h2 : Grows t u) :
    Grows s u := by
  refine ⟨dimensions_le_trans h1.1 h2.1, ?_⟩
  rcases h2.2 with h | ⟨hf, hlt⟩
  · rw [h]; exact h1.2
  · right
    exact ⟨hf, lt_of_le_of_lt (dimensions_total_mono h1.1) hlt⟩

theorem titlePass_grows (d : PrivateData) (rect : QRectF) (s : Dimensions × Bool) :
    Grows s (titlePass d rect s) := by
  unfold titlePass
  simp only
  split_ifs with h1 h2 h3 h4
  · refine ⟨⟨le_of_lt h3, fun _ => le_rfl⟩, Or.inr ⟨rfl, ?_⟩⟩
    simp only [Dimensions.total]; linarith
  · exact grows_refl s
  · refine ⟨⟨le_of_lt h4, fun _ => le_rfl⟩, Or.inr ⟨rfl, ?_⟩⟩
    simp only [Dimensions.total]; linarith
  · exact grows_refl s
  · exact grows_refl s

theorem update_grows (s : Dimensions × Bool) (axis : Fin 4) (v : ℤ)
    (h : v > s.1.dimAxis axis) :
    Grows s ({ s.1 with dimAxis := Function.update s.1.dimAxis axis v }, false) := by
  refine ⟨⟨le_rfl, fun a => ?_⟩, Or.inr ⟨rfl, ?_⟩⟩
  · by_cases ha : a = axis
    · subst ha; simp [le_of_lt h]
    · simp [Function.update, ha]
  · rw [total_update]; linarith

theorem axisPass_grows (d : PrivateData) (rect : QRectF) (s : Dimensions × Bool)
    (axis : Fin 4) : Grows s (axisPass d rect s axis) := by
  unfold axisPass
  simp only
  split_ifs with h1 h2 h3 h4
  · exact update_grows s axis _ h3
  · exact grows_refl s
  · exact update_grows s axis _ h4
  · exact grows_refl s
  · exact grows_refl s

theorem foldl_grows (d : PrivateData) (rect : QRectF) (l : List (Fin 4))
    (s : Dimensions × Bool) : Grows s (l.foldl (axisPass d rect) s) := by
  induction l generalizing s with
  | nil => exact grows_refl s
  | cons a l ih => exact grows_trans (axisPass_grows d rect s a) (ih _)

theorem pass_grows (d : PrivateData) (rect : QRectF) (s : Dimensions) :
    Grows (s, true) (pass d rect s) :=
  grows_trans (titlePass_grows d rect (s, true)) (foldl_grows d rect _ _)

/-- A pass that ends with `done = true` has changed nothing. -/
theorem pass_done (d : PrivateData) (rect : QRectF) (s : Dimensions)
    (h : (pass d rect s).2 = true) : pass d rect s = (s, true) := by
  rcases (pass_grows d rect s).2 with h1 | ⟨h1, _⟩
  · exact h1
  · rw [h1] at h; exact absurd h (by simp)

theorem pass_not_done (d : PrivateData) (rect : QRectF) (s : Dimensions)
    (h : (pass d rect s).2 = false) : s.total < (pass d rect s).1.total := by
  rcases (pass_grows d rect s).2 with h1 | ⟨_, h1⟩
  · rw [h1] at h; exact absurd h (by simp)
  · exact h1

theorem titlePass_cap (d : PrivateData) (rect : QRectF) (B : ℤ)
    (hB : d.layoutData.HeightsBounded B) (s : Dimensions × Bool)
    (hs : s.1.le (dimensionsCap d B)) : (titlePass d rect s).1.le (dimensionsCap d B) := by
  have key : ∀ w : ℚ, d.layoutData.title.text.isEmpty = false →
      qCeil (d.layoutData.title.text.heightForWidth w) + 2 * d.layoutData.title.frameWidth
        ≤ (dimensionsCap d B).dimTitle := by
    intro w he
    have h1 : qCeil (d.layoutData.title.text.heightForWidth w) ≤ B :=
      Int.ceil_le.mpr (hB.1 he w)
    simp only [dimensionsCap]
    exact le_max_of_le_right (by linarith)
  unfold titlePass
  simp only
  split_ifs with h1 h2 h3 h4
  · exact ⟨key _ (by simpa using h1), hs.2⟩
  · exact hs
  · exact ⟨key _ (by simpa using h1), hs.2⟩
  · exact hs
  · exact hs

theorem update_cap (d : PrivateData) (B : ℤ) (s : Dimensions) (axis : Fin 4) (v : ℤ)
    (hs : s.le (dimensionsCap d B)) (hv : v ≤ (dimensionsCap d B).dimAxis axis) :
    ({ s with dimAxis := Function.update s.dimAxis axis v } : Dimensions).le
      (dimensionsCap d B) := by
  refine ⟨hs.1, fun a => ?_⟩
  by_cases ha : a = axis
  · subst ha; simpa using hv
  · simpa [Function.update, ha] using hs.2 a

theorem axisPass_cap (d : PrivateData) (rect : QRectF) (B : ℤ)
    (hB : d.layoutData.HeightsBounded B) (s : Dimensions × Bool) (axis : Fin 4)
    (hs : s.1.le (dimensionsCap d B)) :
    (axisPass d rect s axis).1.le (dimensionsCap d B) := by
  unfold axisPass
  simp only
  split_ifs with h1 h2 h3 h4
  · refine update_cap d B s.1 axis _ hs ?_
    have := hB.2 axis h1 (axisLength d rect s.1 axis)
    simp only [dimensionsCap]
    exact le_max_of_le_right (by have := le_max_right 0 B; linarith)
  · exact hs
  · refine update_cap d B s.1 axis _ hs ?_
    simp only [dimensionsCap]
    exact le_max_of_le_right (by have := le_max_left 0 B; linarith)
  · exact hs
  · exact hs

theorem foldl_cap (d : PrivateData) (rect : QRectF) (B : ℤ)
    (hB : d.layoutData.HeightsBounded B) (l : List (Fin 4)) (s : Dimensions × Bool)
    (hs : s.1.le (dimensionsCap d B)) :
    (l.foldl (axisPass d rect) s).1.le (dimensionsCap d B) := by
  induction l generalizing s with
  | nil => exact hs
  | cons a l ih => exact ih _ (axisPass_cap d rect B hB s a hs)

theorem pass_cap (d : PrivateData) (rect : QRectF) (B : ℤ)
    (hB : d.layoutData.HeightsBounded B) (s : Dimensions)
    (hs : s.le (dimensionsCap d B)) : (pass d rect s).1.le (dimensionsCap d B) :=
  foldl_cap d rect B hB _ _ (titlePass_cap d rect B hB (s, true) hs)

/-- With bounded heights the loop of `expandLineBreaks` ends: more passes than the sum
of the dimensions can still grow are enough. -/
theorem expandLoop_terminates (d : PrivateData) (rect : QRectF) (B : ℤ)
    (hB : d.layoutData.HeightsBounded B) :
    ∀ (n : ℕ) (s : Dimensions), s.le (dimensionsCap d B) →
      ((dimensionsCap d B).total - s.total).toNat < n →
      ∃ r, expandLoop d rect n s = some r := by
  intro n
  induction n with
  | zero => intro s _ h; exact absurd h (Nat.not_lt_zero _)
  | succ n ih =>
    intro s hs hn
    unfold expandLoop
    simp only
    by_cases hd : (pass d rect s).2 = true
    · exact ⟨_, by rw [if_pos hd]⟩
    · rw [if_neg hd]
      have hd2 : (pass d rect s).2 = false := by simpa using hd
      have hlt := pass_not_done d rect s hd2
      have hcap := pass_cap d rect B hB s hs
      have hle := dimensions_total_mono hcap
      exact ih _ hcap (by omega)

/-- The result of the loop of `expandLineBreaks` does not depend on the number of passes
that are allowed, once the loop ends within them. -/
theorem expandLoop_fuel (d : PrivateData) (rect : QRectF) :
    ∀ (n m : ℕ) (s r : Dimensions), expandLoop d rect n s = some r → n ≤ m →
      expandLoop d rect m s = some r := by
  intro n
  induction n with
  | zero => intro m s r h; simp [expandLoop] at h
  | succ n ih =>
    intro m s r h hnm
    obtain ⟨m, rfl⟩ : ∃ k, m = k + 1 := ⟨m - 1, by omega⟩
    unfold expandLoop at h ⊢
    simp only at h ⊢
    by_cases hd : (pass d rect s).2 = true
    · rw [if_pos hd] at h ⊢; exact h
    · rw [if_neg hd] at h ⊢
      exact ih m _ r h (by omega)

/-- The result of the loop of `expandLineBreaks` is not smaller than the start in any
dimension, and one more pass leaves it as it is. -/
theorem expandLoop_result (d : PrivateData) (rect : QRectF) :
    ∀ (n : ℕ) (s r : Dimensions), expandLoop d rect n s = some r →
      s.le r ∧ pass d rect r = (r, true) := by
  intro n
  induction n with
  | zero => intro s r h; simp [expandLoop] at h
  | succ n ih =>
    intro s r h
    unfold expandLoop at h
    simp only at h
    by_cases hd : (pass d rect s).2 = true
    · rw [if_pos hd] at h
      have hp := pass_done d rect s hd
      rw [hp] at h
      simp only [Option.some.injEq] at h
      subst h
      exact ⟨dimensions_le_refl _, hp⟩
    · rw [if_neg hd] at h
      obtain ⟨h1, h2⟩ := ih _ r h
      exact ⟨dimensions_le_trans (pass_grows d rect s).1 h1, h2⟩

theorem zero_le_cap (d : PrivateData) (B : ℤ) :
    (⟨0, fun _ => 0⟩ : Dimensions).le (dimensionsCap d B) :=
  ⟨le_max_left _ _, fun _ => le_max_left _ _⟩

/-- With bounded heights, `expandLineBreaks` returns dimensions when enough passes are
allowed. -/
theorem expandLineBreaks_terminates (d : PrivateData) (rect : QRectF) (B : ℤ)
    (hB : d.layoutData.HeightsBounded B) :
    ∃ fuel dims, expandLineBreaks d rect fuel = some dims :=
  ⟨_, expandLoop_terminates d rect B hB
    (((dimensionsCap d B).total - (⟨0, fun _ => 0⟩ : Dimensions).total).toNat + 1)
    ⟨0, fun _ => 0⟩ (zero_le_cap d B) (Nat.lt_succ_self _)⟩

/-- C22: the loop of `expandLineBreaks` ends and its dimensions never decrease.  For
every layout and rectangle, no pass makes `dimTitle` or a `dimAxis[axis]` smaller; and
when the heights that the title and the axis titles report for the widths are bounded
above, as values of the C++ type `int` are, some number of passes ends the loop, every
larger number gives the same dimensions, and a further pass would leave them as they
are. -/
theorem C22_expandLineBreaks_terminates_monotone (d : PrivateData) (rect : QRectF) (B : ℤ)
    (hB : d.layoutData.HeightsBounded B) :
    (∀ s : Dimensions, s.dimTitle ≤ (pass d rect s).1.dimTitle
        ∧ ∀ axis, s.dimAxis axis ≤ (pass d rect s).1.dimAxis axis)
      ∧ ∃ fuel dims, expandLineBreaks d rect fuel = some dims
          ∧ (∀ fuel2, fuel ≤ fuel2 → expandLineBreaks d rect fuel2 = some dims)
          ∧ pass d rect dims = (dims, true) := by
  refine ⟨fun s => (pass_grows d rect s).1, ?_⟩
  obtain ⟨fuel, r, hr⟩ := expandLineBreaks_terminates d rect B hB
  exact ⟨fuel, r, hr, fun fuel2 h => expandLoop_fuel d rect _ fuel2 _ r hr h,
    (expandLoop_result d rect _ _ r hr).2⟩

theorem exampleLayoutData_bounded :
    (create LegendPosition.BottomLegend 0 exampleLayoutData).layoutData.HeightsBounded 40 := by
  constructor
  · intro _ w
    simp only [create, invalidate, setLegendPositionDefault, setLegendPosition,
      exampleLayoutData, wrappingText]
    split_ifs <;> norm_num
  · intro axis _ w
    simp only [create, invalidate, setLegendPositionDefault, setLegendPosition,
      exampleLayoutData, titledScaleWidget]
    split_ifs <;> simp only <;> split_ifs <;> norm_num

/-- The loop of `expandLineBreaks` on the example layout data and a rectangle of
`250 x 400`: the first pass changes dimensions, the second one changes nothing, and the
dimensions are `42` for the title, `50` for `yLeft` and `65` for `xBottom`. -/
theorem expandLineBreaks_example :
    (expandLineBreaks (create LegendPosition.BottomLegend 0 exampleLayoutData)
        ⟨0, 0, 250, 400⟩ 1).isSome = false
      ∧ (expandLineBreaks (create LegendPosition.BottomLegend 0 exampleLayoutData)
          ⟨0, 0, 250, 400⟩ 2).map
            (fun s => (s.dimTitle, s.dimAxis 0, s.dimAxis 1, s.dimAxis 2, s.dimAxis 3))
        = some (42, 50, 0, 65, 0) := by
  decide!

theorem C22_expandLineBreaks_terminates_monotone_witness :
    (create LegendPosition.BottomLegend 0 exampleLayoutData).layoutData.HeightsBounded 40
      ∧ (∀ s : Dimensions,
          s.dimTitle ≤ (pass (create LegendPosition.BottomLegend 0 exampleLayoutData)
            ⟨0, 0, 250, 400⟩ s).1.dimTitle
          ∧ ∀ axis, s.dimAxis axis ≤ (pass (create LegendPosition.BottomLegend 0
              exampleLayoutData) ⟨0, 0, 250, 400⟩ s).1.dimAxis axis)
      ∧ ∃ fuel dims,
          expandLineBreaks (create LegendPosition.BottomLegend 0 exampleLayoutData)
            ⟨0, 0, 250, 400⟩ fuel = some dims
          ∧ (∀ fuel2, fuel ≤ fuel2 →
              expandLineBreaks (create LegendPosition.BottomLegend 0 exampleLayoutData)
                ⟨0, 0, 250, 400⟩ fuel2 = some dims)
          ∧ pass (create LegendPosition.BottomLegend 0 exampleLayoutData)
              ⟨0, 0, 250, 400⟩ dims = (dims, true) :=
  ⟨exampleLayoutData_bounded,
    C22_expandLineBreaks_terminates_monotone _ _ 40 exampleLayoutData_bounded⟩

end Layout

section LayoutActivate

open QwtPlotLayout

/-- The state after the first part of `activate`: the configuration is unchanged and
the layout data are the ones harvested from the plot. -/
theorem legendStep_config (Q : QRectF → QRectF → QRectF) (d : PrivateData) (plot : QwtPlot)
    (plotRect : QRectF) :
    (legendStep Q d plot plotRect).1.legendPos = d.legendPos
      ∧ (legendStep Q d plot plotRect).1.legendRatio = d.legendRatio
      ∧ (legendStep Q d plot plotRect).1.spacing = d.spacing
      ∧ (legendStep Q d plot plotRect).1.layoutData
          = d.layoutData.init plot d.legendPos plotRect
      ∧ (legendStep Q d plot plotRect).1.titleRect = QRectF.null
      ∧ (legendStep Q d plot plotRect).1.canvasRect = QRectF.null
      ∧ ∀ axis, (legendStep Q d plot plotRect).1.scaleRect axis = QRectF.null := by
  unfold legendStep
  simp only [invalidate]
  cases plot.legend with
  | none => simp
  | some legend =>
    simp only
    split_ifs <;> simp

theorem init_scale_enabled (data : LayoutData) (plot : QwtPlot) (pos : LegendPosition)
    (rect : QRectF) (axis : Fin 4) :
    ((data.init plot pos rect).scale axis).isEnabled = plot.axisEnabled axis := by
  unfold LayoutData.init
  cases h : plot.axisEnabled axis <;> simp [h]

theorem init_canvas (data : LayoutData) (plot : QwtPlot) (pos : LegendPosition)
    (rect : QRectF) : (data.init plot pos rect).canvas.frameWidth = plot.canvasFrameWidth := by
  unfold LayoutData.init
  simp

theorem init_bounded (data : LayoutData) (plot : QwtPlot) (pos : LegendPosition)
    (rect : QRectF) (B : ℤ) (hB : plot.HeightsBounded B) :
    (data.init plot pos rect).HeightsBounded B := by
  constructor
  · intro he w
    unfold LayoutData.init at he ⊢
    simp only at he ⊢
    cases hl : plot.titleLabel with
    | none => rw [hl] at he; simp [QwtText.empty] at he
    | some label => simp only; exact hB.1 label hl w
  · intro axis he w
    have hen : plot.axisEnabled axis = true := by
      rw [← init_scale_enabled data plot pos rect axis]; exact he
    unfold LayoutData.init
    simp only [hen, if_true]
    exact hB.2 axis w

theorem legendStep_bounded (Q : QRectF → QRectF → QRectF) (d : PrivateData) (plot : QwtPlot)
    (plotRect : QRectF) (B : ℤ) (hB : plot.HeightsBounded B) :
    (legendStep Q d plot plotRect).1.layoutData.HeightsBounded B := by
  rw [(legendStep_config Q d plot plotRect).2.2.2.1]
  exact init_bounded _ _ _ _ _ hB

/-- With bounded heights, `activate` returns a layout when enough passes are allowed. -/
theorem activate_terminates (Q : QRectF → QRectF → QRectF) (d : PrivateData) (plot : QwtPlot)
    (plotRect : QRectF) (B : ℤ) (hB : plot.HeightsBounded B) :
    ∃ fuel d2, activate Q fuel d plot plotRect = some d2 := by
  obtain ⟨fuel, dims, h⟩ := expandLineBreaks_terminates _ (legendStep Q d plot plotRect).2 B
    (legendStep_bounded Q d plot plotRect B hB)
  refine ⟨fuel, finish (legendStep Q d plot plotRect).1 (legendStep Q d plot plotRect).2 dims, ?_⟩
  unfold activate
  simp only [h, Option.map_some']

theorem activate_some (Q : QRectF → QRectF → QRectF) (fuel : ℕ) (d : PrivateData)
    (plot : QwtPlot) (plotRect : QRectF) (d2 : PrivateData)
    (h : activate Q fuel d plot plotRect = some d2) :
    ∃ dims, expandLineBreaks (legendStep Q d plot plotRect).1 (legendStep Q d plot plotRect).2
        fuel = some dims
      ∧ finish (legendStep Q d plot plotRect).1 (legendStep Q d plot plotRect).2 dims = d2 := by
  unfold activate at h
  simp only [Option.map_eq_some'] at h
  exact h

theorem expandLineBreaks_nonneg (d : PrivateData) (rect : QRectF) (fuel : ℕ)
    (dims : Dimensions) (h : expandLineBreaks d rect fuel = some dims) :
    0 ≤ dims.dimTitle ∧ ∀ axis, 0 ≤ dims.dimAxis axis :=
  (expandLoop_result d rect fuel _ dims h).1

theorem titlePass_dimAxis (d : PrivateData) (rect : QRectF) (s : Dimensions × Bool) :
    (titlePass d rect s).1.dimAxis = s.1.dimAxis := by
  unfold titlePass
  simp only
  split_ifs <;> rfl

theorem axisPass_disabled (d : PrivateData) (rect : QRectF) (s : Dimensions × Bool)
    (a axis : Fin 4) (h : (d.layoutData.scale axis).isEnabled = false) :
    (axisPass d rect s a).1.dimAxis axis = s.1.dimAxis axis := by
  by_cases ha : a = axis
  · subst ha
    unfold axisPass
    simp [h]
  · unfold axisPass
    simp only
    have hne : axis ≠ a := fun h => ha h.symm
    split_ifs <;> simp [Function.update, hne]

theorem foldl_disabled (d : PrivateData) (rect : QRectF) (l : List (Fin 4))
    (s : Dimensions × Bool) (axis : Fin 4)
    (h : (d.layoutData.scale axis).isEnabled = false) :
    (l.foldl (axisPass d rect) s).1.dimAxis axis = s.1.dimAxis axis := by
  induction l generalizing s with
  | nil => rfl
  | cons a l ih => exact (ih _).trans (axisPass_disabled d rect s a axis h)

theorem pass_disabled (d : PrivateData) (rect : QRectF) (s : Dimensions) (axis : Fin 4)
    (h : (d.layoutData.scale axis).isEnabled = false) :
    (pass d rect s).1.dimAxis axis = s.dimAxis axis := by
  unfold QwtPlotLayout.pass
  rw [foldl_disabled d rect _ _ axis h, titlePass_dimAxis]

theorem expandLoop_disabled (d : PrivateData) (rect : QRectF) (axis : Fin 4)
    (h : (d.layoutData.scale axis).isEnabled = false) :
    ∀ (n : ℕ) (s r : Dimensions), expandLoop d rect n s = some r →
      r.dimAxis axis = s.dimAxis axis := by
  intro n
  induction n with
  | zero => intro s r hr; simp [expandLoop] at hr
  | succ n ih =>
    intro s r hr
    unfold expandLoop at hr
    simp only at hr
    by_cases hd : (pass d rect s).2 = true
    · rw [if_pos hd] at hr
      simp only [Option.some.injEq] at hr
      rw [← hr]; exact pass_disabled d rect s axis h
    · rw [if_neg hd] at hr
      exact (ih _ r hr).trans (pass_disabled d rect s axis h)

/-- The dimension that `expandLineBreaks` resolves for a disabled axis is `0`. -/
theorem expandLineBreaks_disabled (d : PrivateData) (rect : QRectF) (fuel : ℕ)
    (dims : Dimensions) (axis : Fin 4) (h : (d.layoutData.scale axis).isEnabled = false)
    (hr : expandLineBreaks d rect fuel = some dims) : dims.dimAxis axis = 0 :=
  expandLoop_disabled d rect axis h fuel _ dims hr

theorem finish_canvasRect (d : PrivateData) (rect : QRectF) (dims : Dimensions) :
    (finish d rect dims).canvasRect = canvasRectFor (titleSubtracted d rect dims) dims := by
  unfold finish titleSubtracted
  simp only
  split_ifs <;> rfl

theorem finish_scaleRect (d : PrivateData) (rect : QRectF) (dims : Dimensions)
    (axis : Fin 4) :
    (finish d rect dims).scaleRect axis
      = scaleRectFor (canvasRectFor (titleSubtracted d rect dims) dims)
          d.layoutData.canvas.frameWidth dims (d.scaleRect axis) axis := by
  unfold finish titleSubtracted
  simp only
  split_ifs <;> rfl

theorem finish_titleRect (d : PrivateData) (rect : QRectF) (dims : Dimensions) :
    (finish d rect dims).titleRect
      = if dims.dimTitle > 0 then titleRectFor d rect dims else d.titleRect := by
  unfold finish
  simp only
  split_ifs <;> rfl

theorem finish_legendRect (d : PrivateData) (rect : QRectF) (dims : Dimensions) :
    (finish d rect dims).legendRect
      = if d.legendRect.isEmpty = false then
          alignLegend d (canvasRectFor (titleSubtracted d rect dims) dims) d.legendRect
        else d.legendRect := by
  unfold finish titleSubtracted
  simp only
  split_ifs <;> simp_all [alignLegend]

theorem finish_config (d : PrivateData) (rect : QRectF) (dims : Dimensions) :
    (finish d rect dims).legendPos = d.legendPos
      ∧ (finish d rect dims).legendRatio = d.legendRatio
      ∧ (finish d rect dims).spacing = d.spacing := by
  unfold finish
  simp only
  split_ifs <;> simp

theorem scaleRectFor_yLeft (c : QRectF) (fw : ℤ) (dims : Dimensions) (r : QRectF)
    (h : dims.dimAxis QwtPlot.yLeft ≠ 0) :
    (scaleRectFor c fw dims r QwtPlot.yLeft).width = dims.dimAxis QwtPlot.yLeft
      ∧ (scaleRectFor c fw dims r QwtPlot.yLeft).right = c.left := by
  unfold scaleRectFor
  rw [if_pos h]
  simp [QwtPlot.yLeft, QwtPlot.yRight, QwtPlot.xTop, QwtPlot.xBottom, QRectF.setX,
    QRectF.setWidth, QRectF.setTop, QRectF.setBottom, QRectF.setY, QRectF.width,
    QRectF.right, QRectF.left]

theorem scaleRectFor_yRight (c : QRectF) (fw : ℤ) (dims : Dimensions) (r : QRectF)
    (h : dims.dimAxis QwtPlot.yRight ≠ 0) :
    (scaleRectFor c fw dims r QwtPlot.yRight).width = dims.dimAxis QwtPlot.yRight
      ∧ (scaleRectFor c fw dims r QwtPlot.yRight).left = c.right := by
  unfold scaleRectFor
  rw [if_pos h]
  simp [QwtPlot.yLeft, QwtPlot.yRight, QwtPlot.xTop, QwtPlot.xBottom, QRectF.setX,
    QRectF.setWidth, QRectF.setTop, QRectF.setBottom, QRectF.setY, QRectF.width,
    QRectF.right, QRectF.left]

theorem scaleRectFor_xTop (c : QRectF) (fw : ℤ) (dims : Dimensions) (r : QRectF)
    (h : dims.dimAxis QwtPlot.xTop ≠ 0) :
    (scaleRectFor c fw dims r QwtPlot.xTop).height = dims.dimAxis QwtPlot.xTop
      ∧ (scaleRectFor c fw dims r QwtPlot.xTop).bottom = c.top := by
  unfold scaleRectFor
  rw [if_pos h]
  simp [QwtPlot.yLeft, QwtPlot.yRight, QwtPlot.xTop, QwtPlot.xBottom, QRectF.setX,
    QRectF.setWidth, QRectF.setLeft, QRectF.setRight, QRectF.setY, QRectF.setHeight,
    QRectF.height, QRectF.bottom, QRectF.top]

theorem scaleRectFor_xBottom (c : QRectF) (fw : ℤ) (dims : Dimensions) (r : QRectF)
    (h : dims.dimAxis QwtPlot.xBottom ≠ 0) :
    (scaleRectFor c fw dims r QwtPlot.xBottom).height = dims.dimAxis QwtPlot.xBottom
      ∧ (scaleRectFor c fw dims r QwtPlot.xBottom).top = c.bottom := by
  unfold scaleRectFor
  rw [if_pos h]
  simp [QwtPlot.yLeft, QwtPlot.yRight, QwtPlot.xTop, QwtPlot.xBottom, QRectF.setX,
    QRectF.setWidth, QRectF.setLeft, QRectF.setRight, QRectF.setY, QRectF.setHeight,
    QRectF.height, QRectF.bottom, QRectF.top]

theorem examplePlot_bounded : examplePlot.HeightsBounded 40 := by
  constructor
  · intro label hl w
    simp only [examplePlot, Option.some.injEq] at hl
    subst hl
    simp only [wrappingText]
    split_ifs <;> norm_num
  · intro axis w
    simp only [examplePlot, titledScaleWidget]
    split_ifs <;> norm_num

/-- The layout of `examplePlot` in a rectangle of `800 x 600` with the legend at the
bottom: the loop of `expandLineBreaks` ends with the second pass. -/
theorem activate_example :
    (activate qtSubtract 1 (create LegendPosition.BottomLegend 0 layoutData0) examplePlot
        ⟨0, 0, 800, 600⟩).isSome = false
      ∧ (activate qtSubtract 2 (create LegendPosition.BottomLegend 0 layoutData0) examplePlot
          ⟨0, 0, 800, 600⟩).map (fun d => [d.titleRect, d.legendRect, d.canvasRect,
            d.scaleRect 0, d.scaleRect 1, d.scaleRect 2, d.scaleRect 3])
        = some [⟨50, 0, 750, 22⟩, ⟨50, 402, 750, 198⟩, ⟨50, 27, 750, 320⟩,
            ⟨0, 29, 50, 315⟩, ⟨0, 0, 0, 0⟩, ⟨52, 347, 745, 50⟩, ⟨0, 0, 0, 0⟩] := by
  decide!

/-- C24: the canvas and the axis strips after `activate`.  With bounded heights of the
titles `activate` returns a layout, and in every layout that it returns the canvas
rectangle is the working rectangle (the plot rectangle without the legend and the
title) shrunk by the four resolved axis dimensions; an axis with a dimension other than
`0` has a strip of that width (`yLeft`, `yRight`) or height (`xTop`, `xBottom`) that
touches its edge of the canvas; and a disabled axis has the dimension `0` and an empty
rectangle. -/
theorem C24_canvas_and_axis_strips (Q : QRectF → QRectF → QRectF) (d : PrivateData)
    (plot : QwtPlot) (plotRect : QRectF) (B : ℤ) (hB : plot.HeightsBounded B) :
    (∃ fuel d2, activate Q fuel d plot plotRect = some d2)
      ∧ ∀ fuel d2, activate Q fuel d plot plotRect = some d2 →
          ∃ dims, expandLineBreaks (legendStep Q d plot plotRect).1
              (legendStep Q d plot plotRect).2 fuel = some dims
            ∧ d2.canvasRect.left
                = (titleSubtracted (legendStep Q d plot plotRect).1
                    (legendStep Q d plot plotRect).2 dims).left + dims.dimAxis QwtPlot.yLeft
            ∧ d2.canvasRect.right
                = (titleSubtracted (legendStep Q d plot plotRect).1
                    (legendStep Q d plot plotRect).2 dims).right - dims.dimAxis QwtPlot.yRight
            ∧ d2.canvasRect.top
                = (titleSubtracted (legendStep Q d plot plotRect).1
                    (legendStep Q d plot plotRect).2 dims).top + dims.dimAxis QwtPlot.xTop
            ∧ d2.canvasRect.bottom
                = (titleSubtracted (legendStep Q d plot plotRect).1
                    (legendStep Q d plot plotRect).2 dims).bottom
                  - dims.dimAxis QwtPlot.xBottom
            ∧ (dims.dimAxis QwtPlot.yLeft ≠ 0 →
                (d2.scaleRect QwtPlot.yLeft).width = dims.dimAxis QwtPlot.yLeft
                  ∧ (d2.scaleRect QwtPlot.yLeft).right = d2.canvasRect.left)
            ∧ (dims.dimAxis QwtPlot.yRight ≠ 0 →
                (d2.scaleRect QwtPlot.yRight).width = dims.dimAxis QwtPlot.yRight
                  ∧ (d2.scaleRect QwtPlot.yRight).left = d2.canvasRect.right)
            ∧ (dims.dimAxis QwtPlot.xTop ≠ 0 →
                (d2.scaleRect QwtPlot.xTop).height = dims.dimAxis QwtPlot.xTop
                  ∧ (d2.scaleRect QwtPlot.xTop).bottom = d2.canvasRect.top)
            ∧ (dims.dimAxis QwtPlot.xBottom ≠ 0 →
                (d2.scaleRect QwtPlot.xBottom).height = dims.dimAxis QwtPlot.xBottom
                  ∧ (d2.scaleRect QwtPlot.xBottom).top = d2.canvasRect.bottom)
            ∧ ∀ axis, plot.axisEnabled axis = false →
                dims.dimAxis axis = 0 ∧ (d2.scaleRect axis).isEmpty = true := by
  refine ⟨activate_terminates Q d plot plotRect B hB, ?_⟩
  intro fuel d2 h
  obtain ⟨dims, hdims, hfin⟩ := activate_some Q fuel d plot plotRect d2 h
  refine ⟨dims, hdims, ?_⟩
  subst hfin
  have hcfg := legendStep_config Q d plot plotRect
  simp only [finish_canvasRect, finish_scaleRect]
  refine ⟨?_, ?_, ?_, ?_, ?_, ?_, ?_, ?_, ?_⟩
  · simp [canvasRectFor, QRectF.left, QRectF.x]
  · simp only [canvasRectFor, QRectF.right, QRectF.x, QRectF.width]; ring
  · simp [canvasRectFor, QRectF.top, QRectF.y]
  · simp only [canvasRectFor, QRectF.bottom, QRectF.y, QRectF.height]; ring
  · exact scaleRectFor_yLeft _ _ _ _
  · exact scaleRectFor_yRight _ _ _ _
  · exact scaleRectFor_xTop _ _ _ _
  · exact scaleRectFor_xBottom _ _ _ _
  · intro axis hax
    have hdis : ((legendStep Q d plot plotRect).1.layoutData.scale axis).isEnabled = false := by
      rw [hcfg.2.2.2.1, init_scale_enabled]; exact hax
    have h0 := expandLineBreaks_disabled _ _ fuel dims axis hdis hdims
    refine ⟨h0, ?_⟩
    simp [scaleRectFor, h0, hcfg.2.2.2.2.2.2 axis, QRectF.null, QRectF.isEmpty]

theorem C24_canvas_and_axis_strips_witness :
    examplePlot.HeightsBounded 40
      ∧ ((∃ fuel d2, activate qtSubtract fuel (create LegendPosition.BottomLegend 0 layoutData0)
            examplePlot ⟨0, 0, 800, 600⟩ = some d2)
        ∧ ∀ fuel d2, activate qtSubtract fuel (create LegendPosition.BottomLegend 0 layoutData0)
            examplePlot ⟨0, 0, 800, 600⟩ = some d2 →
          ∃ dims, expandLineBreaks
              (legendStep qtSubtract (create LegendPosition.BottomLegend 0 layoutData0)
                examplePlot ⟨0, 0, 800, 600⟩).1
              (legendStep qtSubtract (create LegendPosition.BottomLegend 0 layoutData0)
                examplePlot ⟨0, 0, 800, 600⟩).2 fuel = some dims
            ∧ d2.canvasRect.left
                = (titleSubtracted
                    (legendStep qtSubtract (create LegendPosition.BottomLegend 0 layoutData0)
                      examplePlot ⟨0, 0, 800, 600⟩).1
                    (legendStep qtSubtract (create LegendPosition.BottomLegend 0 layoutData0)
                      examplePlot ⟨0, 0, 800, 600⟩).2 dims).left + dims.dimAxis QwtPlot.yLeft
            ∧ d2.canvasRect.right
                = (titleSubtracted
                    (legendStep qtSubtract (create LegendPosition.BottomLegend 0 layoutData0)
                      examplePlot ⟨0, 0, 800, 600⟩).1
                    (legendStep qtSubtract (create LegendPosition.BottomLegend 0 layoutData0)
                      examplePlot ⟨0, 0, 800, 600⟩).2 dims).right - dims.dimAxis QwtPlot.yRight
            ∧ d2.canvasRect.top
                = (titleSubtracted
                    (legendStep qtSubtract (create LegendPosition.BottomLegend 0 layoutData0)
                      examplePlot ⟨0, 0, 800, 600⟩).1
                    (legendStep qtSubtract (create LegendPosition.BottomLegend 0 layoutData0)
                      examplePlot ⟨0, 0, 800, 600⟩).2 dims).top + dims.dimAxis QwtPlot.xTop
            ∧ d2.canvasRect.bottom
                = (titleSubtracted
                    (legendStep qtSubtract (create LegendPosition.BottomLegend 0 layoutData0)
                      examplePlot ⟨0, 0, 800, 600⟩).1
                    (legendStep qtSubtract (create LegendPosition.BottomLegend 0 layoutData0)
                      examplePlot ⟨0, 0, 800, 600⟩).2 dims).bottom
                  - dims.dimAxis QwtPlot.xBottom
            ∧ (dims.dimAxis QwtPlot.yLeft ≠ 0 →
                (d2.scaleRect QwtPlot.yLeft).width = dims.dimAxis QwtPlot.yLeft
                  ∧ (d2.scaleRect QwtPlot.yLeft).right = d2.canvasRect.left)
            ∧ (dims.dimAxis QwtPlot.yRight ≠ 0 →
                (d2.scaleRect QwtPlot.yRight).width = dims.dimAxis QwtPlot.yRight
                  ∧ (d2.scaleRect QwtPlot.yRight).left = d2.canvasRect.right)
            ∧ (dims.dimAxis QwtPlot.xTop ≠ 0 →
                (d2.scaleRect QwtPlot.xTop).height = dims.dimAxis QwtPlot.xTop
                  ∧ (d2.scaleRect QwtPlot.xTop).bottom = d2.canvasRect.top)
            ∧ (dims.dimAxis QwtPlot.xBottom ≠ 0 →
                (d2.scaleRect QwtPlot.xBottom).height = dims.dimAxis QwtPlot.xBottom
                  ∧ (d2.scaleRect QwtPlot.xBottom).top = d2.canvasRect.bottom)
            ∧ ∀ axis, examplePlot.axisEnabled axis = false →
                dims.dimAxis axis = 0 ∧ (d2.scaleRect axis).isEmpty = true) :=
  ⟨examplePlot_bounded,
    C24_canvas_and_axis_strips qtSubtract (create LegendPosition.BottomLegend 0 layoutData0)
      examplePlot ⟨0, 0, 800, 600⟩ 40 examplePlot_bounded⟩

end LayoutActivate

section LayoutZero

open QwtPlotLayout

theorem toInt_nonpos (q : ℚ) (h : q ≤ 0) : toInt q ≤ 0 := by
  unfold toInt
  split_ifs with h0
  · have : q = 0 := le_antisymm h h0
    subst this; simp
  · exact Int.ceil_le.mpr (by simpa using h)

/-- The legend rectangle that `layoutLegend` cuts from a rectangle of width and height `0`
is empty. -/
theorem layoutLegend_zero (d : PrivateData) (rect : QRectF) (hw : rect.w = 0)
    (hh : rect.h = 0) : (layoutLegend d rect).isEmpty = true := by
  unfold layoutLegend
  simp only
  cases d.legendPos <;>
    simp [QRectF.isEmpty, QRectF.setWidth, QRectF.setHeight, QRectF.setX, QRectF.setY, hw, hh]

/-- The first part of `activate` for a plot rectangle of width and height `0`: the rest
of the rectangle has no positive width or height, and the legend rectangle is empty. -/
theorem legendStep_zero (Q : QRectF → QRectF → QRectF)
    (hQ : ∀ r l : QRectF, r.width = 0 → r.height = 0 → (Q r l).width ≤ 0 ∧ (Q r l).height ≤ 0)
    (d : PrivateData) (plot : QwtPlot) (x y : ℚ) :
    (legendStep Q d plot ⟨x, y, 0, 0⟩).2.w ≤ 0
      ∧ (legendStep Q d plot ⟨x, y, 0, 0⟩).2.h ≤ 0
      ∧ (legendStep Q d plot ⟨x, y, 0, 0⟩).1.legendRect.isEmpty = true := by
  unfold legendStep
  simp only [invalidate]
  cases plot.legend with
  | none => simp [QRectF.isEmpty, QRectF.null]
  | some legend =>
    simp only
    split_ifs with hc
    · have hq := hQ ⟨x, y, 0, 0⟩
        (layoutLegend
          { titleRect := QRectF.null, legendRect := QRectF.null,
            scaleRect := fun _ => QRectF.null, canvasRect := QRectF.null,
            layoutData := d.layoutData.init plot d.legendPos ⟨x, y, 0, 0⟩,
            legendPos := d.legendPos, legendRatio := d.legendRatio, spacing := d.spacing }
          ⟨x, y, 0, 0⟩) rfl rfl
      have hsp : (0 : ℚ) ≤ (d.spacing : ℚ) := Nat.cast_nonneg _
      simp only [QRectF.width, QRectF.height] at hq
      refine ⟨?_, ?_, layoutLegend_zero _ _ rfl rfl⟩
      · cases hp : d.legendPos <;>
          simp only [hp, QRectF.setLeft, QRectF.setRight, QRectF.setTop, QRectF.setBottom,
            QRectF.setX, QRectF.setY, QRectF.left, QRectF.right, QRectF.top, QRectF.bottom] <;>
          simp only [hp] at hq <;> linarith [hq.1, hq.2]
      · cases hp : d.legendPos <;>
          simp only [hp, QRectF.setLeft, QRectF.setRight, QRectF.setTop, QRectF.setBottom,
            QRectF.setX, QRectF.setY, QRectF.left, QRectF.right, QRectF.top, QRectF.bottom] <;>
          simp only [hp] at hq <;> linarith [hq.1, hq.2]
    · simp [QRectF.isEmpty, QRectF.null]

theorem titleSubtracted_nonpos (d : PrivateData) (rect : QRectF) (dims : Dimensions)
    (hw : rect.w ≤ 0) (hh : rect.h ≤ 0) :
    (titleSubtracted d rect dims).w ≤ 0 ∧ (titleSubtracted d rect dims).h ≤ 0 := by
  unfold titleSubtracted
  split_ifs with h
  · have h1 : (0 : ℚ) < (dims.dimTitle : ℚ) := by exact_mod_cast h
    have h2 : (0 : ℚ) ≤ (d.spacing : ℚ) := Nat.cast_nonneg _
    simp only [QRectF.setTop, QRectF.setY, QRectF.top]
    exact ⟨hw, by linarith⟩
  · exact ⟨hw, hh⟩

theorem canvasRectFor_nonpos (rect : QRectF) (dims : Dimensions)
    (hw : rect.w ≤ 0) (hh : rect.h ≤ 0) (hd : ∀ axis, 0 ≤ dims.dimAxis axis) :
    (canvasRectFor rect dims).w ≤ 0 ∧ (canvasRectFor rect dims).h ≤ 0 := by
  have h0 : (0 : ℚ) ≤ (dims.dimAxis QwtPlot.yLeft : ℚ) := by exact_mod_cast hd _
  have h1 : (0 : ℚ) ≤ (dims.dimAxis QwtPlot.yRight : ℚ) := by exact_mod_cast hd _
  have h2 : (0 : ℚ) ≤ (dims.dimAxis QwtPlot.xBottom : ℚ) := by exact_mod_cast hd _
  have h3 : (0 : ℚ) ≤ (dims.dimAxis QwtPlot.xTop : ℚ) := by exact_mod_cast hd _
  simp only [canvasRectFor, QRectF.width, QRectF.height]
  exact ⟨by linarith, by linarith⟩

/-- An axis rectangle that `activate` sets beside a canvas without positive width and
height, with a frame width that is not negative, is empty. -/
theorem scaleRectFor_empty (c : QRectF) (fw : ℤ) (dims : Dimensions) (axis : Fin 4)
    (hw : c.w ≤ 0) (hh : c.h ≤ 0) (hfw : 0 ≤ fw) :
    (scaleRectFor c fw dims QRectF.null axis).isEmpty = true := by
  have hf : (0 : ℚ) ≤ (fw : ℚ) := by exact_mod_cast hfw
  have hc : c.right - fw - 1 - (c.left + fw) < 0 ∧ c.bottom - fw - 1 - (c.top + fw) < 0 := by
    simp only [QRectF.right, QRectF.left, QRectF.bottom, QRectF.top]
    constructor <;> linarith
  by_cases h1 : dims.dimAxis axis = 0
  · simp [scaleRectFor, h1, QRectF.isEmpty, QRectF.null]
  · have hx : ∀ (r : QRectF) (a b : ℚ), b - a < 0 → ((r.setLeft a).setRight b).isEmpty = true := by
      intro r a b hab
      simp only [QRectF.isEmpty, QRectF.setLeft, QRectF.setRight, QRectF.setX,
        decide_eq_true_eq]
      exact Or.inl hab.le
    have hy : ∀ (r : QRectF) (a b : ℚ), b - a < 0 → ((r.setTop a).setBottom b).isEmpty = true := by
      intro r a b hab
      simp only [QRectF.isEmpty, QRectF.setTop, QRectF.setBottom, QRectF.setY,
        decide_eq_true_eq]
      exact Or.inr hab.le
    unfold scaleRectFor
    rw [if_pos h1]
    simp only
    split_ifs
    all_goals first | exact hx _ _ _ hc.1 | exact hy _ _ _ hc.2

theorem titleRectFor_empty (d : PrivateData) (rect : QRectF) (dims : Dimensions)
    (hw : rect.w ≤ 0) (hd : ∀ axis, 0 ≤ dims.dimAxis axis) :
    (titleRectFor d rect dims).isEmpty = true := by
  have h0 : (0 : ℚ) ≤ (dims.dimAxis QwtPlot.yLeft : ℚ) := by exact_mod_cast hd _
  have h1 : (0 : ℚ) ≤ (dims.dimAxis QwtPlot.yRight : ℚ) := by exact_mod_cast hd _
  have h2 : ((toInt rect.w : ℤ) : ℚ) ≤ 0 := by exact_mod_cast toInt_nonpos _ hw
  unfold titleRectFor
  simp only [QRectF.isEmpty, decide_eq_true_eq]
  left
  split_ifs <;>
    simp only [QRect.toRectF, QRect.ofSize, QRect.width, QRectF.setX, QRectF.setWidth,
      QRectF.width, QRectF.x] <;> push_cast <;> linarith

/-- C21 (counterexample): with a canvas of frame width `-1`, `activate` with the plot
rectangle `(0, 0, 0, 0)` gives the axis `yLeft` the rectangle `(0, -1, 30, 1)`, of
width `30` and height `1`, which is not empty. -/
theorem C21_counterexample :
    (activate qtSubtract 2 (create LegendPosition.BottomLegend 0 layoutData0)
        negativeFramePlot ⟨0, 0, 0, 0⟩).map
          (fun d => (d.scaleRect QwtPlot.yLeft, (d.scaleRect QwtPlot.yLeft).isEmpty))
      = some (⟨0, -1, 30, 1⟩, false) := by
  decide!

/-- C21 (as amended): `activate` with a plot rectangle of width `0` and height `0`, for a
canvas whose frame width is not negative.  For every layout, plot and position of the
rectangle, when moreover the title heights are bounded above (as values of the C++ type
`int` are) and the bounding rectangle that Qt returns for a region made from a rectangle
of size zero has no positive width or height, `activate` returns a layout; and in every
layout that it returns the title rectangle, the legend rectangle, the canvas rectangle
and the four axis rectangles are empty. -/
theorem C21_activate_zero_size_rect_all_empty (Q : QRectF → QRectF → QRectF)
    (d : PrivateData) (plot : QwtPlot) (x y : ℚ) (B : ℤ)
    (hQ : ∀ r l : QRectF, r.width = 0 → r.height = 0 → (Q r l).width ≤ 0 ∧ (Q r l).height ≤ 0)
    (hB : plot.HeightsBounded B) (hfw : 0 ≤ plot.canvasFrameWidth) :
    (∃ fuel d2, activate Q fuel d plot ⟨x, y, 0, 0⟩ = some d2)
      ∧ ∀ fuel d2, activate Q fuel d plot ⟨x, y, 0, 0⟩ = some d2 →
          d2.titleRect.isEmpty = true ∧ d2.legendRect.isEmpty = true
            ∧ d2.canvasRect.isEmpty = true ∧ ∀ axis, (d2.scaleRect axis).isEmpty = true := by
  refine ⟨activate_terminates Q d plot _ B hB, ?_⟩
  intro fuel d2 h
  obtain ⟨dims, hdims, hfin⟩ := activate_some Q fuel d plot _ d2 h
  subst hfin
  have hcfg := legendStep_config Q d plot ⟨x, y, 0, 0⟩
  obtain ⟨hw, hh, hleg⟩ := legendStep_zero Q hQ d plot x y
  have hnn := (expandLineBreaks_nonneg _ _ fuel dims hdims).2
  have hts := titleSubtracted_nonpos (legendStep Q d plot ⟨x, y, 0, 0⟩).1 _ dims hw hh
  have hcv := canvasRectFor_nonpos _ dims hts.1 hts.2 hnn
  refine ⟨?_, ?_, ?_, ?_⟩
  · rw [finish_titleRect]
    split_ifs
    · exact titleRectFor_empty _ _ dims hw hnn
    · rw [hcfg.2.2.2.2.1]; simp [QRectF.isEmpty, QRectF.null]
  · rw [finish_legendRect, if_neg (by simp [hleg])]
    exact hleg
  · rw [finish_canvasRect]
    simp only [QRectF.isEmpty, decide_eq_true_eq]
    exact Or.inl hcv.1
  · intro axis
    rw [finish_scaleRect, hcfg.2.2.2.2.2.2 axis, hcfg.2.2.2.1, init_canvas]
    exact scaleRectFor_empty _ _ dims axis hcv.1 hcv.2 hfw

theorem qtSubtract_zero (r l : QRectF) (hw : r.width = 0) (hh : r.height = 0) :
    (qtSubtract r l).width ≤ 0 ∧ (qtSubtract r l).height ≤ 0 := by
  have h1 : r.w = 0 := hw
  have h2 : r.h = 0 := hh
  have h0 : qRound 0 = 0 := by decide!
  have he : r.toRect.isEmpty = true := by
    simp only [QRectF.toRect, QRect.ofSize, QRect.isEmpty, h1, h2, h0, decide_eq_true_eq]
    left; omega
  simp [qtSubtract, QRect.subtractedBoundingRect, he, QRect.null, QRect.toRectF,
    QRect.width, QRect.height, QRectF.width, QRectF.height]

/-- The layout of `examplePlot` in a rectangle of size zero at `(10, 20)`: every
rectangle is empty. -/
theorem activate_zero_example :
    (activate qtSubtract 2 (create LegendPosition.BottomLegend 0 layoutData0) examplePlot
        ⟨10, 20, 0, 0⟩).map (fun d => [d.titleRect, d.legendRect, d.canvasRect,
          d.scaleRect 0, d.scaleRect 1, d.scaleRect 2, d.scaleRect 3])
      = some [⟨65, 0, -65, 42⟩, ⟨10, 4, 0, 16⟩, ⟨65, 47, -65, -117⟩,
          ⟨0, 49, 65, -122⟩, ⟨0, 0, 0, 0⟩, ⟨67, -70, -70, 65⟩, ⟨0, 0, 0, 0⟩] := by
  decide!

theorem C21_activate_zero_size_rect_all_empty_witness :
    (∀ r l : QRectF, r.width = 0 → r.height = 0 →
        (qtSubtract r l).width ≤ 0 ∧ (qtSubtract r l).height ≤ 0)
      ∧ examplePlot.HeightsBounded 40 ∧ 0 ≤ examplePlot.canvasFrameWidth
      ∧ (∃ fuel d2, activate qtSubtract fuel (create LegendPosition.BottomLegend 0 layoutData0)
          examplePlot ⟨10, 20, 0, 0⟩ = some d2)
      ∧ ∀ fuel d2, activate qtSubtract fuel (create LegendPosition.BottomLegend 0 layoutData0)
          examplePlot ⟨10, 20, 0, 0⟩ = some d2 →
          d2.titleRect.isEmpty = true ∧ d2.legendRect.isEmpty = true
            ∧ d2.canvasRect.isEmpty = true ∧ ∀ axis, (d2.scaleRect axis).isEmpty = true :=
  ⟨qtSubtract_zero, examplePlot_bounded, by decide,
    C21_activate_zero_size_rect_all_empty qtSubtract
      (create LegendPosition.BottomLegend 0 layoutData0) examplePlot 10 20 40
      qtSubtract_zero examplePlot_bounded (by decide)⟩

end LayoutZero

section LayoutRecompute

open QwtPlotLayout

theorem init_same (data1 data2 : LayoutData) (plot : QwtPlot) (pos : LegendPosition)
    (rect : QRectF) :
    (data1.init plot pos rect).title = (data2.init plot pos rect).title
      ∧ (data1.init plot pos rect).canvas = (data2.init plot pos rect).canvas
      ∧ (∀ axis, ((data1.init plot pos rect).scale axis).isEnabled
            = ((data2.init plot pos rect).scale axis).isEnabled
          ∧ ((data1.init plot pos rect).scale axis).baseLineOffset
            = ((data2.init plot pos rect).scale axis).baseLineOffset
          ∧ ((data1.init plot pos rect).scale axis).tickOffset
            = ((data2.init plot pos rect).scale axis).tickOffset
          ∧ ((data1.init plot pos rect).scale axis).dimWithoutTitle
            = ((data2.init plot pos rect).scale axis).dimWithoutTitle
          ∧ (((data1.init plot pos rect).scale axis).isEnabled = true →
              ((data1.init plot pos rect).scale axis).scaleWidget
                = ((data2.init plot pos rect).scale axis).scaleWidget))
      ∧ ((∃ l, plot.legend = some l) → pos ≠ LegendPosition.ExternalLegend →
          (data1.init plot pos rect).legend = (data2.init plot pos rect).legend) := by
  refine ⟨by simp [LayoutData.init], by simp [LayoutData.init], ?_, ?_⟩
  · intro axis
    unfold LayoutData.init
    cases h : plot.axisEnabled axis <;> simp [h]
  · rintro ⟨l, hl⟩ hpos
    simp [LayoutData.init, LayoutData.initLegend, hl, hpos]

theorem layoutLegend_congr (p q : PrivateData) (r : QRectF) (h1 : p.legendPos = q.legendPos)
    (h2 : p.legendRatio = q.legendRatio) (h3 : p.layoutData.legend = q.layoutData.legend) :
    layoutLegend p r = layoutLegend q r := by
  unfold layoutLegend
  rw [h1, h2, h3]

/-- After the first part of `activate`, two layouts with the same legend position, legend
ratio and spacing agree in everything that the rest of `activate` reads, and the rest
of the plot rectangle is the same. -/
theorem legendStep_same (Q : QRectF → QRectF → QRectF) (d1 d2 : PrivateData)
    (plot : QwtPlot) (plotRect : QRectF) (hpos : d1.legendPos = d2.legendPos)
    (hratio : d1.legendRatio = d2.legendRatio) (hsp : d1.spacing = d2.spacing) :
    SameInputs (legendStep Q d1 plot plotRect).1 (legendStep Q d2 plot plotRect).1
      ∧ (legendStep Q d1 plot plotRect).2 = (legendStep Q d2 plot plotRect).2 := by
  obtain ⟨ht, hc, hs, hl⟩ := init_same d1.layoutData d2.layoutData plot d2.legendPos plotRect
  unfold legendStep SameInputs
  simp only [invalidate, hpos, hratio, hsp]
  split
  · rename_i legend hleg
    by_cases hcnd : d2.legendPos ≠ LegendPosition.ExternalLegend ∧ legend.isEmpty = false
    · have hlg := hl ⟨legend, hleg⟩ hcnd.1
      rw [if_pos hcnd, if_pos hcnd]
      simp only
      rw [layoutLegend_congr
        { titleRect := QRectF.null, legendRect := QRectF.null,
          scaleRect := fun _ => QRectF.null, canvasRect := QRectF.null,
          layoutData := d1.layoutData.init plot d2.legendPos plotRect,
          legendPos := d2.legendPos, legendRatio := d2.legendRatio, spacing := d2.spacing }
        { titleRect := QRectF.null, legendRect := QRectF.null,
          scaleRect := fun _ => QRectF.null, canvasRect := QRectF.null,
          layoutData := d2.layoutData.init plot d2.legendPos plotRect,
          legendPos := d2.legendPos, legendRatio := d2.legendRatio, spacing := d2.spacing }
        plotRect rfl rfl hlg]
      refine ⟨⟨?_, ?_, ?_, ?_, ?_, ?_, ?_, ht, hc, hs, fun _ => hlg⟩, ?_⟩
      all_goals trivial
    · rw [if_neg hcnd, if_neg hcnd]
      refine ⟨⟨?_, ?_, ?_, ?_, ?_, ?_, ?_, ht, hc, hs, ?_⟩, ?_⟩
      all_goals first | trivial | rfl | simp [QRectF.isEmpty, QRectF.null]
  · refine ⟨⟨?_, ?_, ?_, ?_, ?_, ?_, ?_, ht, hc, hs, ?_⟩, ?_⟩
    all_goals first | trivial | rfl | simp [QRectF.isEmpty, QRectF.null]

theorem titlePass_same (p q : PrivateData) (h : SameInputs p q) (rect : QRectF)
    (s : Dimensions × Bool) : titlePass p rect s = titlePass q rect s := by
  obtain ⟨_, _, _, _, _, _, _, ht, _, hs, _⟩ := h
  unfold titlePass
  rw [ht, (hs QwtPlot.yLeft).1, (hs QwtPlot.yRight).1]

theorem axisLength_same (p q : PrivateData) (h : SameInputs p q) (rect : QRectF)
    (s : Dimensions) (axis : Fin 4) : axisLength p rect s axis = axisLength q rect s axis := by
  obtain ⟨_, _, hsp, _, _, _, _, _, hc, hs, _⟩ := h
  unfold axisLength
  rw [hc, (hs QwtPlot.xBottom).2.2.1, (hs QwtPlot.xTop).2.2.1, hsp]

theorem axisPass_same (p q : PrivateData) (h : SameInputs p q) (rect : QRectF)
    (s : Dimensions × Bool) (axis : Fin 4) : axisPass p rect s axis = axisPass q rect s axis := by
  have hl := axisLength_same p q h rect s.1 axis
  obtain ⟨_, _, _, _, _, _, _, _, _, hs, _⟩ := h
  obtain ⟨he, _, _, hd, hw⟩ := hs axis
  unfold axisPass
  simp only [← he, ← hd, hl]
  cases hen : (p.layoutData.scale axis).isEnabled with
  | false => simp
  | true => simp only [if_true, ← hw hen]

theorem pass_same (p q : PrivateData) (h : SameInputs p q) (rect : QRectF) (s : Dimensions) :
    pass p rect s = pass q rect s := by
  unfold QwtPlotLayout.pass
  rw [titlePass_same p q h, funext (fun s => funext (axisPass_same p q h rect s))]

theorem expandLoop_same (p q : PrivateData) (h : SameInputs p q) (rect : QRectF) :
    ∀ (n : ℕ) (s : Dimensions), expandLoop p rect n s = expandLoop q rect n s := by
  intro n
  induction n with
  | zero => intro s; rfl
  | succ n ih =>
    intro s
    unfold expandLoop
    simp only [pass_same p q h, ih]

theorem alignLegend_same (p q : PrivateData) (c l : QRectF) (h1 : p.legendPos = q.legendPos)
    (h2 : p.layoutData.legend = q.layoutData.legend) : alignLegend p c l = alignLegend q c l := by
  unfold alignLegend
  rw [h1, h2]

/-- The last part of `activate` gives the same rectangles for two layouts that agree in
what it reads. -/
theorem finish_same (p q : PrivateData) (h : SameInputs p q) (rect : QRectF)
    (dims : Dimensions) :
    (finish p rect dims).titleRect = (finish q rect dims).titleRect
      ∧ (finish p rect dims).legendRect = (finish q rect dims).legendRect
      ∧ (finish p rect dims).canvasRect = (finish q rect dims).canvasRect
      ∧ ∀ axis, (finish p rect dims).scaleRect axis = (finish q rect dims).scaleRect axis := by
  obtain ⟨hpos, _, hsp, htr, hlr, _, hsr, _, hc, hs, hleg⟩ := h
  have hts : titleSubtracted p rect dims = titleSubtracted q rect dims := by
    unfold titleSubtracted; rw [hsp]
  refine ⟨?_, ?_, ?_, ?_⟩
  · rw [finish_titleRect, finish_titleRect, htr]
    unfold titleRectFor
    rw [(hs QwtPlot.yLeft).1, (hs QwtPlot.yRight).1]
  · rw [finish_legendRect, finish_legendRect, hts, ← hlr]
    by_cases he : p.legendRect.isEmpty = false
    · rw [if_pos he, if_pos he, alignLegend_same p q _ _ hpos (hleg he)]
    · rw [if_neg he, if_neg he]
  · rw [finish_canvasRect, finish_canvasRect, hts]
  · intro axis
    rw [finish_scaleRect, finish_scaleRect, hts, hc, hsr]

/-- C23: `activate` recomputes the whole layout.  For every plot and plot rectangle, two
layouts with the same legend position, legend ratio and spacing, whatever their output
rectangles and harvested layout data are (a fresh layout, or one left by earlier calls
of `activate` or `invalidate`), get the same `titleRect`, `legendRect`, `canvasRect` and
`scaleRect`s from `activate`, and for every bound on the number of passes both get a
layout or both get none; `activate` keeps the legend position, the legend ratio and the
spacing, and a second call in a row with the same arguments gives the rectangles of the
first call again. -/
theorem C23_activate_independent_of_previous_state (Q : QRectF → QRectF → QRectF)
    (fuel : ℕ) (d1 d2 : PrivateData) (plot : QwtPlot) (plotRect : QRectF)
    (hpos : d1.legendPos = d2.legendPos) (hratio : d1.legendRatio = d2.legendRatio)
    (hsp : d1.spacing = d2.spacing) :
    ((activate Q fuel d1 plot plotRect).map (fun d => d.titleRect)
        = (activate Q fuel d2 plot plotRect).map (fun d => d.titleRect)
      ∧ (activate Q fuel d1 plot plotRect).map (fun d => d.legendRect)
        = (activate Q fuel d2 plot plotRect).map (fun d => d.legendRect)
      ∧ (activate Q fuel d1 plot plotRect).map (fun d => d.canvasRect)
        = (activate Q fuel d2 plot plotRect).map (fun d => d.canvasRect)
      ∧ ∀ axis, (activate Q fuel d1 plot plotRect).map (fun d => d.scaleRect axis)
        = (activate Q fuel d2 plot plotRect).map (fun d => d.scaleRect axis))
      ∧ ∀ d3, activate Q fuel d1 plot plotRect = some d3 →
          (d3.legendPos = d1.legendPos ∧ d3.legendRatio = d1.legendRatio
            ∧ d3.spacing = d1.spacing)
          ∧ (activate Q fuel d3 plot plotRect).map (fun d => d.titleRect) = some d3.titleRect
          ∧ (activate Q fuel d3 plot plotRect).map (fun d => d.legendRect) = some d3.legendRect
          ∧ (activate Q fuel d3 plot plotRect).map (fun d => d.canvasRect) = some d3.canvasRect
          ∧ ∀ axis, (activate Q fuel d3 plot plotRect).map (fun d => d.scaleRect axis)
              = some (d3.scaleRect axis) := by
  have key : ∀ e1 e2 : PrivateData, e1.legendPos = e2.legendPos →
      e1.legendRatio = e2.legendRatio → e1.spacing = e2.spacing →
      ((activate Q fuel e1 plot plotRect).map (fun d => d.titleRect)
          = (activate Q fuel e2 plot plotRect).map (fun d => d.titleRect)
        ∧ (activate Q fuel e1 plot plotRect).map (fun d => d.legendRect)
          = (activate Q fuel e2 plot plotRect).map (fun d => d.legendRect)
        ∧ (activate Q fuel e1 plot plotRect).map (fun d => d.canvasRect)
          = (activate Q fuel e2 plot plotRect).map (fun d => d.canvasRect)
        ∧ ∀ axis, (activate Q fuel e1 plot plotRect).map (fun d => d.scaleRect axis)
          = (activate Q fuel e2 plot plotRect).map (fun d => d.scaleRect axis)) := by
    intro e1 e2 h1 h2 h3
    obtain ⟨hsame, hrect⟩ := legendStep_same Q e1 e2 plot plotRect h1 h2 h3
    unfold activate
    simp only [expandLineBreaks, hrect, expandLoop_same _ _ hsame]
    cases expandLoop (legendStep Q e2 plot plotRect).1 (legendStep Q e2 plot plotRect).2 fuel
        ⟨0, fun _ => 0⟩ with
    | none => simp
    | some dims =>
      obtain ⟨f1, f2, f3, f4⟩ := finish_same _ _ hsame (legendStep Q e2 plot plotRect).2 dims
      simp only [Option.map_some', Option.some.injEq]
      exact ⟨f1, f2, f3, f4⟩
  refine ⟨key d1 d2 hpos hratio hsp, ?_⟩
  intro d3 h3
  obtain ⟨dims, _, hfin⟩ := activate_some Q fuel d1 plot plotRect d3 h3
  have hcfg := legendStep_config Q d1 plot plotRect
  have hf := finish_config (legendStep Q d1 plot plotRect).1 (legendStep Q d1 plot plotRect).2 dims
  rw [hfin] at hf
  have c1 : d3.legendPos = d1.legendPos := hf.1.trans hcfg.1
  have c2 : d3.legendRatio = d1.legendRatio := hf.2.1.trans hcfg.2.1
  have c3 : d3.spacing = d1.spacing := hf.2.2.trans hcfg.2.2.1
  obtain ⟨k1, k2, k3, k4⟩ := key d3 d1 c1 c2 c3
  refine ⟨⟨c1, c2, c3⟩, ?_, ?_, ?_, ?_⟩
  · rw [k1, h3]; rfl
  · rw [k2, h3]; rfl
  · rw [k3, h3]; rfl
  · intro axis; rw [k4 axis, h3]; rfl

/-- The layout of `examplePlot` in a rectangle of `800 x 600`, computed by a layout that
has been used before: the rectangles are those that a fresh layout computes. -/
theorem activate_used_example :
    (activate qtSubtract 2 usedLayout examplePlot ⟨0, 0, 800, 600⟩).map
        (fun d => [d.titleRect, d.legendRect, d.canvasRect,
          d.scaleRect 0, d.scaleRect 1, d.scaleRect 2, d.scaleRect 3])
      = some [⟨50, 0, 750, 22⟩, ⟨50, 402, 750, 198⟩, ⟨50, 27, 750, 320⟩,
          ⟨0, 29, 50, 315⟩, ⟨0, 0, 0, 0⟩, ⟨52, 347, 745, 50⟩, ⟨0, 0, 0, 0⟩] := by
  decide!

theorem C23_activate_independent_of_previous_state_witness :
    (create LegendPosition.BottomLegend 0 layoutData0).legendPos = usedLayout.legendPos
      ∧ (create LegendPosition.BottomLegend 0 layoutData0).legendRatio = usedLayout.legendRatio
      ∧ (create LegendPosition.BottomLegend 0 layoutData0).spacing = usedLayout.spacing
      ∧ ((activate qtSubtract 2 (create LegendPosition.BottomLegend 0 layoutData0) examplePlot
              ⟨0, 0, 800, 600⟩).map (fun d => d.titleRect)
            = (activate qtSubtract 2 usedLayout examplePlot ⟨0, 0, 800, 600⟩).map
                (fun d => d.titleRect)
          ∧ (activate qtSubtract 2 (create LegendPosition.BottomLegend 0 layoutData0) examplePlot
              ⟨0, 0, 800, 600⟩).map (fun d => d.legendRect)
            = (activate qtSubtract 2 usedLayout examplePlot ⟨0, 0, 800, 600⟩).map
                (fun d => d.legendRect)
          ∧ (activate qtSubtract 2 (create LegendPosition.BottomLegend 0 layoutData0) examplePlot
              ⟨0, 0, 800, 600⟩).map (fun d => d.canvasRect)
            = (activate qtSubtract 2 usedLayout examplePlot ⟨0, 0, 800, 600⟩).map
                (fun d => d.canvasRect)
          ∧ ∀ axis,
            (activate qtSubtract 2 (create LegendPosition.BottomLegend 0 layoutData0) examplePlot
              ⟨0, 0, 800, 600⟩).map (fun d => d.scaleRect axis)
            = (activate qtSubtract 2 usedLayout examplePlot ⟨0, 0, 800, 600⟩).map
                (fun d => d.scaleRect axis)) :=
  ⟨by decide, by decide!, by decide,
    (C23_activate_independent_of_previous_state qtSubtract 2
      (create LegendPosition.BottomLegend 0 layoutData0) usedLayout examplePlot
      ⟨0, 0, 800, 600⟩ (by decide) (by decide!) (by decide)).1⟩

end LayoutRecompute

end Qwt
